import Mathlib

/-!
# Allocation classification of the Nomad UI job model

A shallow embedding of `ui/app/models/job.js` (the `allocBlocks` getter and the
values it reads) together with theorems about it.

Conventions of the embedding:

* `clientStatus` strings are the constructors of `ClientStatus`; `unplaced` is
  the status of the synthetic placeholder and a key of the result object.
* JavaScript numbers that count slots are `Int`; `jobVersion` is a `Nat`.
* The result object `allocationsOfShowableType` is an association list in
  insertion order; `obj[k] = v` is `AllocationBlock.assign`, reading a key is
  `AllocationBlock.lookup`.
* A `TypeError` (reading a property of `undefined`) is the value `none`.
* The table `jobAllocStatuses` of `utils/allocation-client-statuses.js` is a
  parameter: the functions take the status list `jobAllocStatuses[type]`.
-/

namespace Nomad

/-! ## Data model -/

/-- The `clientStatus` strings the code distinguishes. -/
inductive ClientStatus
  | running
  | pending
  | failed
  | lost
  | complete
  | unknown
  | unplaced
  deriving DecidableEq, Repr

/-- The four job types (`JOB_TYPES`). -/
inductive JobType
  | service
  | batch
  | system
  | sysbatch
  deriving DecidableEq, Repr

/-- An allocation record, with the fields that `job.js` and `job-row.js` read.
`id` stands for the identity of the record. -/
structure Allocation where
  id : Nat
  clientStatus : ClientStatus
  jobVersion : Nat
  isCanary : Bool
  isHealthy : Bool
  isUnhealthy : Bool
  isOld : Bool
  willNotRestart : Bool
  willNotReschedule : Bool
  nodeID : Option Nat
  hasBeenRescheduled : Bool := false
  deriving DecidableEq, Repr

/-- An element of a bucket: an allocation of the input, or the object
`{ clientStatus: 'unplaced' }` created for an unfilled slot. -/
inductive Entry
  | real (a : Allocation)
  | placeholder
  deriving DecidableEq, Repr

/-- The `clientStatus` property of a bucket element. -/
def Entry.clientStatus : Entry → ClientStatus
  | .real a => a.clientStatus
  | .placeholder => .unplaced

/-- The three health keys of an `AllocationStatus`. -/
inductive Health
  | healthy
  | unhealthy
  | health_unknown
  deriving DecidableEq, Repr

/-- The two keys of a `HealthStatus`. -/
inductive Canary
  | canary
  | nonCanary
  deriving DecidableEq, Repr

/-- The object `{ canary: [], nonCanary: [] }`. -/
structure HealthStatus where
  canary : List Entry
  nonCanary : List Entry
  deriving DecidableEq, Repr

/-- The object `{ healthy, unhealthy, health_unknown }`. -/
structure AllocationStatus where
  healthy : HealthStatus
  unhealthy : HealthStatus
  health_unknown : HealthStatus
  deriving DecidableEq, Repr

/-- The object `allocationsOfShowableType`: keys in insertion order. -/
abbrev AllocationBlock := List (ClientStatus × AllocationStatus)

/-- The value every key is initialised with. -/
def emptyStatus : AllocationStatus :=
  { healthy := { canary := [], nonCanary := [] },
    unhealthy := { canary := [], nonCanary := [] },
    health_unknown := { canary := [], nonCanary := [] } }

/-- Reading `hs[c]`. -/
def HealthStatus.get (hs : HealthStatus) : Canary → List Entry
  | .canary => hs.canary
  | .nonCanary => hs.nonCanary

/-- The effect of `hs[c].push(e)`. -/
def HealthStatus.push (hs : HealthStatus) (c : Canary) (e : Entry) : HealthStatus :=
  match c with
  | .canary => { hs with canary := hs.canary ++ [e] }
  | .nonCanary => { hs with nonCanary := hs.nonCanary ++ [e] }

/-- Reading `st[h]`. -/
def AllocationStatus.get (st : AllocationStatus) : Health → HealthStatus
  | .healthy => st.healthy
  | .unhealthy => st.unhealthy
  | .health_unknown => st.health_unknown

/-- The effect of `st[h][c].push(e)`. -/
def AllocationStatus.push (st : AllocationStatus) (h : Health) (c : Canary) (e : Entry) :
    AllocationStatus :=
  match h with
  | .healthy => { st with healthy := st.healthy.push c e }
  | .unhealthy => { st with unhealthy := st.unhealthy.push c e }
  | .health_unknown => { st with health_unknown := st.health_unknown.push c e }

/-- Reading `obj[s]`; `none` is `undefined`. -/
def AllocationBlock.lookup : AllocationBlock → ClientStatus → Option AllocationStatus
  | [], _ => none
  | (k, v) :: rest, s => if k = s then some v else AllocationBlock.lookup rest s

/-- The assignment `obj[s] = v`: an existing key keeps its place, a new key is
appended. -/
def AllocationBlock.assign : AllocationBlock → ClientStatus → AllocationStatus → AllocationBlock
  | [], s, v => [(s, v)]
  | (k, w) :: rest, s, v =>
    if k = s then (k, v) :: rest else (k, w) :: AllocationBlock.assign rest s v

/-- The statement `obj[s][h][c].push(e)`; `none` when `obj[s]` is `undefined`. -/
def AllocationBlock.push (b : AllocationBlock) (s : ClientStatus) (h : Health) (c : Canary)
    (e : Entry) : Option AllocationBlock :=
  match b.lookup s with
  | none => none
  | some st => some (b.assign s (st.push h c e))

/-- The array `obj[s][h][c]`, empty when the key `s` is absent. -/
def AllocationBlock.cell (b : AllocationBlock) (s : ClientStatus) (h : Health) (c : Canary) :
    List Entry :=
  match b.lookup s with
  | none => []
  | some st => (st.get h).get c

/-- The elements of the six arrays of one status value, in the order healthy,
unhealthy, health_unknown and canary before nonCanary. -/
def AllocationStatus.entries (st : AllocationStatus) : List Entry :=
  st.healthy.canary ++ st.healthy.nonCanary ++ st.unhealthy.canary ++ st.unhealthy.nonCanary ++
  st.health_unknown.canary ++ st.health_unknown.nonCanary

/-- Every element of every array of the block, key after key. -/
def AllocationBlock.entries : AllocationBlock → List Entry
  | [] => []
  | (_, v) :: rest => v.entries ++ AllocationBlock.entries rest

/-- The elements of the arrays under key `s`, none when the key is absent. -/
def AllocationBlock.entriesAt (b : AllocationBlock) (s : ClientStatus) : List Entry :=
  match b.lookup s with
  | none => []
  | some st => st.entries

/-- The number of elements over all arrays of all keys. -/
def AllocationBlock.total (b : AllocationBlock) : Nat :=
  b.entries.length

/-- Whether a bucket element is an allocation of the input. -/
def Entry.isReal : Entry → Bool
  | .real _ => true
  | .placeholder => false

/-- The number of input allocations held in the block. -/
def AllocationBlock.realCount (b : AllocationBlock) : Nat :=
  b.entries.countP Entry.isReal

/-! ## `allocBlocks` -/

/-- The reduce that initialises `allocationsOfShowableType` from `allocTypes`. -/
def initBlocks (statuses : List ClientStatus) : AllocationBlock :=
  statuses.foldl (fun categories label => categories.assign label emptyStatus) []

/-- The `canary` variable of the deploying branch. -/
def canaryOf (alloc : Allocation) : Canary :=
  if alloc.isCanary then .canary else .nonCanary

/-- The `health` variable of the deploying branch. -/
def healthOf (alloc : Allocation) : Health :=
  if alloc.clientStatus = .running then
    if alloc.isHealthy then .healthy
    else if alloc.isUnhealthy then .unhealthy
    else .health_unknown
  else .health_unknown

/-- The `for` loop of the deploying branch over `allocationsOfDeploymentVersion`,
from the state `(allocationsOfShowableType, availableSlotsToFill)`. -/
def deployingLoop : List Allocation → AllocationBlock → Int → Option (AllocationBlock × Int)
  | [], b, slots => some (b, slots)
  | alloc :: rest, b, slots =>
    if slots ≤ 0 then some (b, slots)
    else
      match b.lookup alloc.clientStatus with
      | some _ =>
        if alloc.willNotRestart && !alloc.willNotReschedule then
          deployingLoop rest b slots
        else
          match b.push alloc.clientStatus (healthOf alloc) (canaryOf alloc) (.real alloc) with
          | none => none
          | some b' => deployingLoop rest b' (slots - 1)
      | none => deployingLoop rest b slots

/-- The first `for` loop of the steady-state branch, over the running and
pending allocations. -/
def steadyPass1 : List Allocation → AllocationBlock → Int → Option (AllocationBlock × Int)
  | [], b, slots => some (b, slots)
  | alloc :: rest, b, slots =>
    if slots = 0 then some (b, slots)
    else
      match b.push alloc.clientStatus .healthy .nonCanary (.real alloc) with
      | none => none
      | some b' => steadyPass1 rest b' (slots - 1)

/-- The result of `list.indexOf(s)`: the first index, or `-1`. -/
def indexOf (statuses : List ClientStatus) (s : ClientStatus) : Int :=
  if s ∈ statuses then (statuses.indexOf s : Int) else -1

/-- The comparator passed to `sort`. -/
def compareAllocs (statuses : List ClientStatus) (a b : Allocation) : Int :=
  if a.jobVersion > b.jobVersion then 1
  else if a.jobVersion < b.jobVersion then -1
  else if a.jobVersion = b.jobVersion then
    indexOf statuses b.clientStatus - indexOf statuses a.clientStatus
  else 0

/-- The order the comparator induces: `a` may stand before `b`. -/
def allocLE (statuses : List ClientStatus) (a b : Allocation) : Prop :=
  compareAllocs statuses a b ≤ 0

instance (statuses : List ClientStatus) : DecidableRel (allocLE statuses) :=
  fun a b => inferInstanceAs (Decidable (compareAllocs statuses a b ≤ 0))

/-- The array `sortedAllocs`: filter, `sort` (a stable sort, here insertion
sort) with the comparator, then `reverse`. -/
def sortedAllocs (statuses : List ClientStatus) (allocations : List Allocation) :
    List Allocation :=
  ((allocations.filter
      (fun a => a.clientStatus ≠ .running && a.clientStatus ≠ .pending)).insertionSort
    (allocLE statuses)).reverse

/-- The second `for` loop of the steady-state branch, over `sortedAllocs`;
`total` is `expectedRunningAllocCount`. -/
def steadyPass2 (statuses : List ClientStatus) (total : Int) :
    List Allocation → AllocationBlock → Int → Option (AllocationBlock × Int)
  | [], b, slots => some (b, slots)
  | alloc :: rest, b, slots =>
    if slots = 0 then some (b, slots)
    else if statuses.contains alloc.clientStatus then
      match b.lookup alloc.clientStatus with
      | none => none
      | some st =>
        if (st.healthy.nonCanary.length : Int) < total then
          match b.push alloc.clientStatus .healthy .nonCanary (.real alloc) with
          | none => none
          | some b' => steadyPass2 statuses total rest b' (slots - 1)
        else steadyPass2 statuses total rest b slots
    else steadyPass2 statuses total rest b slots

/-- The closing `if (availableSlotsToFill > 0)`: the key `unplaced` is assigned
a fresh value whose `healthy.nonCanary` holds the placeholders. -/
def fillUnplaced (b : AllocationBlock) (slots : Int) : AllocationBlock :=
  if slots > 0 then
    b.assign .unplaced
      { emptyStatus with
        healthy := { canary := [], nonCanary := List.replicate slots.toNat Entry.placeholder } }
  else b

/-- The getter `allocBlocks`, as a function of the values it reads:
`jobAllocStatuses[this.type]`, `this.expectedRunningAllocCount`,
`this.latestDeploymentSummary.isActive` and `this.allocations`. -/
def allocBlocks (statuses : List ClientStatus) (expectedRunningAllocCount : Int)
    (isDeploying : Bool) (allocations : List Allocation) : Option AllocationBlock :=
  let availableSlotsToFill := expectedRunningAllocCount
  let allocationsOfShowableType := initBlocks statuses
  if isDeploying then
    let allocationsOfDeploymentVersion := allocations.filter (fun a => !a.isOld)
    match deployingLoop allocationsOfDeploymentVersion allocationsOfShowableType
        availableSlotsToFill with
    | none => none
    | some (b, slots) => some (fillUnplaced b slots)
  else
    match steadyPass1
        (allocations.filter (fun a => a.clientStatus = .running || a.clientStatus = .pending))
        allocationsOfShowableType availableSlotsToFill with
    | none => none
    | some (b1, slots1) =>
      match steadyPass2 statuses expectedRunningAllocCount (sortedAllocs statuses allocations)
          b1 slots1 with
      | none => none
      | some (b2, slots2) => some (fillUnplaced b2 slots2)

/-! ## The job -/

/-- The part of `latestDeploymentSummary` that the model and the job row read. -/
structure LatestDeploymentSummary where
  isActive : Bool
  requiresPromotion : Bool
  allAutoPromote : Bool := false
  deriving DecidableEq, Repr

/-- A job record with its allocations. -/
structure Job where
  type : JobType
  groupCountSum : Int
  latestDeploymentSummary : LatestDeploymentSummary
  assumeGC : Bool
  allocations : List Allocation
  deriving DecidableEq, Repr

/-- The getter `expectedRunningAllocCount`. -/
def Job.expectedRunningAllocCount (job : Job) : Int :=
  if job.type = .system ∨ job.type = .sysbatch then
    (((job.allocations.filter (fun a => a.nodeID.isSome)).map (fun a => a.nodeID)).dedup.length : Int)
  else job.groupCountSum

/-- The getter `allocBlocks` of a job, for the table `jobAllocStatuses`. -/
def Job.allocBlocks (jobAllocStatuses : JobType → List ClientStatus) (job : Job) :
    Option AllocationBlock :=
  Nomad.allocBlocks (jobAllocStatuses job.type) job.expectedRunningAllocCount
    job.latestDeploymentSummary.isActive job.allocations

/-! ## `aggregateAllocStatus` -/

/-- The labels of `CurrentStatus`. -/
inductive Label
  | Deploying
  | Complete
  | Running
  | Healthy
  | Recovering
  | Degraded
  | Failed
  | Removed
  deriving DecidableEq, Repr

/-- The `state` tags of `CurrentStatus`. -/
inductive Severity
  | highlight
  | success
  | warning
  | critical
  | neutral
  deriving DecidableEq, Repr

/-- The object `{ label, state }`. -/
structure CurrentStatus where
  label : Label
  state : Severity
  deriving DecidableEq, Repr

/-- The expression `blocks[s]?.healthy?.nonCanary`; `none` is `undefined`. -/
def AllocationBlock.healthyNonCanary? (blocks : AllocationBlock) (s : ClientStatus) :
    Option (List Entry) :=
  (blocks.lookup s).map (fun st => st.healthy.nonCanary)

/-- The expression `xs?.length`; `none` is `undefined`. -/
def length? (xs : Option (List Entry)) : Option Int :=
  xs.map (fun l => (l.length : Int))

/-- The test `a + b === n` on numbers that may be `undefined`; the sum is then
`NaN` and the test false. -/
def sumIs (a b : Option Int) (n : Int) : Bool :=
  match a, b with
  | some x, some y => decide (x + y = n)
  | _, _ => false

/-- The test `a > 0` on a number that may be `undefined`. -/
def isPositive (a : Option Int) : Bool :=
  match a with
  | some x => decide (x > 0)
  | none => false

/-- The part of `aggregateAllocStatus` after the batch/sysbatch block: the
Healthy, Recovering, Failed and Degraded rules. Spreading `undefined` into the
array literal is a `TypeError`, the value `none`. -/
def classifyGeneric (totalAllocs : Int) (blocks : AllocationBlock) : Option CurrentStatus :=
  let healthyAllocs := blocks.healthyNonCanary? .running
  if totalAllocs ≠ 0 ∧ length? healthyAllocs = some totalAllocs then
    some { label := .Healthy, state := .success }
  else
    let pendingAllocs := blocks.healthyNonCanary? .pending
    if isPositive (length? pendingAllocs) then
      some { label := .Recovering, state := .highlight }
    else
      match blocks.healthyNonCanary? .failed, blocks.healthyNonCanary? .lost,
          blocks.healthyNonCanary? .unplaced with
      | some failed, some lost, some unplaced =>
        let failedOrLostAllocs := failed ++ lost ++ unplaced
        if (failedOrLostAllocs.length : Int) ≥ totalAllocs then
          some { label := .Failed, state := .critical }
        else some { label := .Degraded, state := .warning }
      | _, _, _ => none

/-- The part of `aggregateAllocStatus` that reads `this.allocBlocks`, after the
two early returns. A comparison with `undefined` is false. -/
def classifyBlocks (type : JobType) (totalAllocs : Int) (blocks : AllocationBlock) :
    Option CurrentStatus :=
  if type = .batch ∨ type = .sysbatch then
    let completeAllocs := blocks.healthyNonCanary? .complete
    if length? completeAllocs = some totalAllocs then
      some { label := .Complete, state := .success }
    else
      let healthyAllocs := blocks.healthyNonCanary? .running
      if sumIs (length? healthyAllocs) (length? completeAllocs) totalAllocs then
        some { label := .Running, state := .success }
      else classifyGeneric totalAllocs blocks
  else classifyGeneric totalAllocs blocks

/-- The getter `aggregateAllocStatus` of a job, for the table
`jobAllocStatuses`; `none` when the getter throws. -/
def Job.aggregateAllocStatus (jobAllocStatuses : JobType → List ClientStatus) (job : Job) :
    Option CurrentStatus :=
  let totalAllocs := job.expectedRunningAllocCount
  if job.latestDeploymentSummary.isActive then
    some { label := .Deploying, state := .highlight }
  else if job.assumeGC then
    some { label := .Removed, state := .neutral }
  else
    match job.allocBlocks jobAllocStatuses with
    | none => none
    | some blocks => classifyBlocks job.type totalAllocs blocks

/-! ## The rules of `aggregateAllocStatus` in the words of the specification -/

/-- Rule 3a: the job is a batch or sysbatch job and `complete.healthy.nonCanary`
holds `N` elements. -/
def completeRule (type : JobType) (N : Int) (blocks : AllocationBlock) : Prop :=
  (type = .batch ∨ type = .sysbatch) ∧
    ∃ lc, blocks.healthyNonCanary? .complete = some lc ∧ (lc.length : Int) = N

/-- Rule 3b: the job is a batch or sysbatch job and `running.healthy.nonCanary`
and `complete.healthy.nonCanary` together hold `N` elements. -/
def runningRule (type : JobType) (N : Int) (blocks : AllocationBlock) : Prop :=
  (type = .batch ∨ type = .sysbatch) ∧
    ∃ lr lc, blocks.healthyNonCanary? .running = some lr ∧
      blocks.healthyNonCanary? .complete = some lc ∧
      (lr.length : Int) + (lc.length : Int) = N

/-- Rule 4: `N > 0` and `running.healthy.nonCanary` holds `N` elements. -/
def healthyRule (N : Int) (blocks : AllocationBlock) : Prop :=
  0 < N ∧ ∃ lr, blocks.healthyNonCanary? .running = some lr ∧ (lr.length : Int) = N

/-- Rule 5: `pending.healthy.nonCanary` holds at least one element. -/
def recoveringRule (blocks : AllocationBlock) : Prop :=
  ∃ lp, blocks.healthyNonCanary? .pending = some lp ∧ 0 < lp.length

/-- The eight results that the specification lists. -/
def statusPairs : List CurrentStatus :=
  [{ label := .Deploying, state := .highlight }, { label := .Removed, state := .neutral },
   { label := .Complete, state := .success }, { label := .Running, state := .success },
   { label := .Healthy, state := .success }, { label := .Recovering, state := .highlight },
   { label := .Failed, state := .critical }, { label := .Degraded, state := .warning }]

/-! ## The job row (`components/job-row.js`) -/

/-- The getter `hasActiveCanaries` of the job model: whether some `canary`
array of the block has an element, `false` without an active deployment; `none`
when `allocBlocks` throws. -/
def Job.hasActiveCanaries (jobAllocStatuses : JobType → List ClientStatus) (job : Job) :
    Option Bool :=
  if !job.latestDeploymentSummary.isActive then some false
  else
    match job.allocBlocks jobAllocStatuses with
    | none => none
    | some blocks =>
      some (blocks.any (fun kv =>
        kv.2.healthy.canary.length != 0 || kv.2.unhealthy.canary.length != 0 ||
          kv.2.health_unknown.canary.length != 0))

/-- The array `relevantAllocs` of `canariesHealthy` and
`someCanariesHaveFailed`. -/
def relevantAllocs (job : Job) : List Allocation :=
  job.allocations.filter (fun a => !a.isOld && a.isCanary && !a.hasBeenRescheduled)

/-- The truthiness of the getter `canariesHealthy`, whose value is
`relevantAllocs.length && relevantAllocs.every(...)`. -/
def canariesHealthy (job : Job) : Bool :=
  (relevantAllocs job).length != 0 &&
    (relevantAllocs job).all (fun a => a.clientStatus = .running && a.isHealthy)

/-- The getter `someCanariesHaveFailed`. -/
def someCanariesHaveFailed (job : Job) : Bool :=
  (relevantAllocs job).any
    (fun a => a.clientStatus = .failed || a.clientStatus = .lost || a.isUnhealthy)

/-- The values `requiresPromotionTask` returns: `false`, `'canary-promote'` or
`'canary-failure'`. -/
inductive PromotionTask
  | no
  | canaryPromote
  | canaryFailure
  deriving DecidableEq, Repr

/-- The task function `requiresPromotionTask`; `none` when a getter it reads
throws. -/
def requiresPromotionTask (jobAllocStatuses : JobType → List ClientStatus) (job : Job) :
    Option PromotionTask :=
  let latestDeploymentSummary := job.latestDeploymentSummary
  if latestDeploymentSummary.isActive then some .no
  else
    match job.hasActiveCanaries jobAllocStatuses with
    | none => none
    | some false => some .no
    | some true =>
      if latestDeploymentSummary.requiresPromotion then
        if canariesHealthy job then some .canaryPromote
        else if someCanariesHaveFailed job then some .canaryFailure
        else if latestDeploymentSummary.allAutoPromote then some .no
        else some .no
      else some .no

/-! ## The steady panel (`components/job-status/panel/steady.js`) -/

/-- The object `allocationsOfShowableType` of the panel: the value under a key
is `{ healthy: { nonCanary: [...] } }`, held here as its one array. -/
abbrev PanelBlock := List (ClientStatus × List Entry)

/-- Reading `obj[s]` in the panel; `none` is `undefined`. -/
def PanelBlock.lookup : PanelBlock → ClientStatus → Option (List Entry)
  | [], _ => none
  | (k, v) :: rest, s => if k = s then some v else PanelBlock.lookup rest s

/-- The assignment `obj[s] = { healthy: { nonCanary: v } }` in the panel. -/
def PanelBlock.assign : PanelBlock → ClientStatus → List Entry → PanelBlock
  | [], s, v => [(s, v)]
  | (k, w) :: rest, s, v =>
    if k = s then (k, v) :: rest else (k, w) :: PanelBlock.assign rest s v

/-- The statement `obj[s].healthy.nonCanary.push(e)` in the panel; `none` when
`obj[s]` is `undefined`. -/
def PanelBlock.push (p : PanelBlock) (s : ClientStatus) (e : Entry) : Option PanelBlock :=
  match PanelBlock.lookup p s with
  | none => none
  | some l => some (PanelBlock.assign p s (l ++ [e]))

/-- The reduce that initialises the panel's `allocationsOfShowableType`. -/
def panelInit (statuses : List ClientStatus) : PanelBlock :=
  statuses.foldl (fun accumulator label => PanelBlock.assign accumulator label []) []

/-- The first `for` loop of the panel, over the running and pending
allocations. -/
def panelPass1 : List Allocation → PanelBlock → Int → Option (PanelBlock × Int)
  | [], p, slots => some (p, slots)
  | alloc :: rest, p, slots =>
    if slots = 0 then some (p, slots)
    else
      match PanelBlock.push p alloc.clientStatus (.real alloc) with
      | none => none
      | some p' => panelPass1 rest p' (slots - 1)

/-- The second `for` loop of the panel, over `sortedAllocs`; `total` is
`this.totalAllocs`. -/
def panelPass2 (statuses : List ClientStatus) (total : Int) :
    List Allocation → PanelBlock → Int → Option (PanelBlock × Int)
  | [], p, slots => some (p, slots)
  | alloc :: rest, p, slots =>
    if slots = 0 then some (p, slots)
    else if statuses.contains alloc.clientStatus then
      match PanelBlock.lookup p alloc.clientStatus with
      | none => none
      | some l =>
        if (l.length : Int) < total then
          match PanelBlock.push p alloc.clientStatus (.real alloc) with
          | none => none
          | some p' => panelPass2 statuses total rest p' (slots - 1)
        else panelPass2 statuses total rest p slots
    else panelPass2 statuses total rest p slots

/-- The closing `if (availableSlotsToFill > 0)` of the panel. -/
def panelFill (p : PanelBlock) (slots : Int) : PanelBlock :=
  if slots > 0 then
    PanelBlock.assign p .unplaced (List.replicate slots.toNat Entry.placeholder)
  else p

/-- The getter `allocBlocks` of the steady panel, as a function of
`jobAllocStatuses[job.type]`, `this.totalAllocs` and `job.allocations`. -/
def panelAllocBlocks (statuses : List ClientStatus) (totalAllocs : Int)
    (allocations : List Allocation) : Option PanelBlock :=
  let availableSlotsToFill := totalAllocs
  let allocationsOfShowableType := panelInit statuses
  match panelPass1
      (allocations.filter (fun a => a.clientStatus = .running || a.clientStatus = .pending))
      allocationsOfShowableType availableSlotsToFill with
  | none => none
  | some (p1, slots1) =>
    match panelPass2 statuses totalAllocs (sortedAllocs statuses allocations) p1 slots1 with
    | none => none
    | some (p2, slots2) => some (panelFill p2 slots2)

/-- The arrays `healthy.nonCanary` of a block of the job model, key by key. -/
def toPanel (b : AllocationBlock) : PanelBlock :=
  b.map (fun kv => (kv.1, kv.2.healthy.nonCanary))

/-- Modelled from the spec: the status list that section 6 gives as the example
for `service` jobs; the table itself (`utils/allocation-client-statuses.js`) is
not part of the sources. Used for concrete evaluations only. -/
def exampleStatuses : List ClientStatus :=
  [.running, .pending, .failed, .lost, .unplaced, .complete]

/-! ## Reading the result of a sequence of `push` statements -/

/-- The bucket coordinates an allocation is pushed to. -/
abbrev Slot := Allocation → Health × Canary

/-- The coordinates used by the deploying branch. -/
def deployingSlot : Slot := fun a => (healthOf a, canaryOf a)

/-- The coordinates used by the steady-state branch. -/
def steadySlot : Slot := fun _ => (.healthy, .nonCanary)

/-- One `push` of an allocation under its own status, leaving the block as it
is when the key is absent. -/
def place (slot : Slot) (b : AllocationBlock) (a : Allocation) : AllocationBlock :=
  match b.lookup a.clientStatus with
  | none => b
  | some st => b.assign a.clientStatus (st.push (slot a).1 (slot a).2 (.real a))

/-- The pushes of a list of allocations, one after the other. -/
def placeAll (slot : Slot) (b : AllocationBlock) (l : List Allocation) : AllocationBlock :=
  l.foldl (place slot) b

/-- Whether allocation `a` is pushed to the array `obj[s][h][c]`. -/
def inBucket (slot : Slot) (s : ClientStatus) (h : Health) (c : Canary) (a : Allocation) : Bool :=
  decide (a.clientStatus = s ∧ (slot a).1 = h ∧ (slot a).2 = c)

/-- Whether the deploying loop pushes allocation `a`: its status is a key of
the block and it is not an allocation that will not restart but will be
rescheduled. -/
def eligible (b : AllocationBlock) (a : Allocation) : Bool :=
  (b.lookup a.clientStatus).isSome && !(a.willNotRestart && !a.willNotReschedule)

/-- The part of a list that a loop breaking at `slots === 0` gets through: all
of it when the counter starts below zero. -/
def capTake (slots : Int) (l : List Allocation) : List Allocation :=
  if slots < 0 then l else l.take slots.toNat

/-- The allocations the deploying branch considers for a slot, in input
order: current version, status in the status list, and not one that will not
restart but will be rescheduled. -/
def deployingCandidates (statuses : List ClientStatus) (allocations : List Allocation) :
    List Allocation :=
  (allocations.filter (fun a => !a.isOld)).filter
    (fun a => statuses.contains a.clientStatus && !(a.willNotRestart && !a.willNotReschedule))

/-- The allocations the deploying branch pushes, in the order of the pushes. -/
def deployingPlaced (statuses : List ClientStatus) (total : Int)
    (allocations : List Allocation) : List Allocation :=
  (deployingCandidates statuses allocations).take total.toNat

/-- The running and pending allocations, in input order. -/
def runningOrPending (allocations : List Allocation) : List Allocation :=
  allocations.filter (fun a => a.clientStatus = .running || a.clientStatus = .pending)

/-- The allocations the first steady-state loop pushes, in the order of the
pushes. -/
def steadyFirst (total : Int) (allocations : List Allocation) : List Allocation :=
  capTake total (runningOrPending allocations)

/-- The elements of `sortedAllocs` whose status is in the status list. -/
def showableSorted (statuses : List ClientStatus) (allocations : List Allocation) :
    List Allocation :=
  (sortedAllocs statuses allocations).filter (fun a => statuses.contains a.clientStatus)

/-- The allocations the second steady-state loop pushes, in the order of the
pushes. -/
def steadyOthers (statuses : List ClientStatus) (total : Int) (allocations : List Allocation) :
    List Allocation :=
  (showableSorted statuses allocations).take
    (total - ((steadyFirst total allocations).length : Int)).toNat

/-- Whether a bucket element is an input allocation that is neither running
nor pending. -/
def Entry.isOther : Entry → Bool
  | .real a => a.clientStatus ≠ .running && a.clientStatus ≠ .pending
  | .placeholder => false

/-- The number of input allocations in the block that are neither running nor
pending. -/
def AllocationBlock.otherCount (b : AllocationBlock) : Nat :=
  b.entries.countP Entry.isOther

/-- Whether a bucket element is an input allocation with `isCanary` set. -/
def Entry.isCanary : Entry → Bool
  | .real a => a.isCanary
  | .placeholder => false

/-- The allocation behind a bucket element, if it is one. -/
def Entry.allocation? : Entry → Option Allocation
  | .real a => some a
  | .placeholder => none

/-- The input allocations among the elements of an array, in order. -/
def reals (l : List Entry) : List Allocation :=
  l.filterMap Entry.allocation?

/-- An allocation record of the current version, not a canary, with no health
report and no restart or reschedule flag. -/
def mkAlloc (id : Nat) (status : ClientStatus) (version : Nat) : Allocation :=
  { id := id, clientStatus := status, jobVersion := version, isCanary := false,
    isHealthy := false, isUnhealthy := false, isOld := false, willNotRestart := false,
    willNotReschedule := false, nodeID := none }

/-- A small allocation list with every kind of status in it. -/
def sampleAllocations : List Allocation :=
  [mkAlloc 1 .failed 0, mkAlloc 2 .running 1, mkAlloc 3 .unknown 1, mkAlloc 4 .pending 1,
   mkAlloc 5 .lost 0, mkAlloc 6 .failed 1]

/-- A pending allocation of the current version whose `isHealthy` flag is still
set. -/
def stalePending : Allocation :=
  { mkAlloc 7 .pending 1 with isHealthy := true }

/-- Modelled from the spec: a table that gives every job type the example
status list of section 6; the table itself
(`utils/allocation-client-statuses.js`) is not part of the sources. Used for
concrete evaluations only. -/
def exampleTable : JobType → List ClientStatus :=
  fun _ => exampleStatuses

/-- A job of the given type and group count with no active deployment. -/
def mkJob (type : JobType) (groupCountSum : Int) (allocations : List Allocation) : Job :=
  { type := type, groupCountSum := groupCountSum,
    latestDeploymentSummary := { isActive := false, requiresPromotion := false },
    assumeGC := false, allocations := allocations }

/-- An allocation record as `mkAlloc` makes it, placed on a node. -/
def mkAllocOn (id : Nat) (status : ClientStatus) (node : Nat) : Allocation :=
  { mkAlloc id status 0 with nodeID := some node }

/-- The number of allocations of a list that have status `s`. -/
def countStatus (s : ClientStatus) (l : List Allocation) : Nat :=
  (l.filter (fun a => decide (a.clientStatus = s))).length

/-- A failed canary of the current version. -/
def failedCanary : Allocation :=
  { mkAlloc 9 .failed 1 with isCanary := true }

/-- A service job with one slot whose active deployment requires promotion. -/
def promotableJob (allocations : List Allocation) : Job :=
  { mkJob .service 1 allocations with
    latestDeploymentSummary := { isActive := true, requiresPromotion := true } }

/-- A service job with two slots, one running and one pending allocation. -/
def recoveringJob : Job :=
  mkJob .service 2 [mkAlloc 1 .running 0, mkAlloc 2 .pending 0]

/-- The block of `recoveringJob`. -/
def recoveringBlock : AllocationBlock :=
  fillUnplaced (placeAll steadySlot (initBlocks exampleStatuses)
    [mkAlloc 1 .running 0, mkAlloc 2 .pending 0]) 0

/-- A service job with four slots, two running and two failed allocations. -/
def degradedJob : Job :=
  mkJob .service 4 [mkAlloc 1 .running 0, mkAlloc 2 .failed 0, mkAlloc 3 .running 0,
    mkAlloc 4 .failed 0]

/-- The block of `degradedJob`. -/
def degradedBlock : AllocationBlock :=
  fillUnplaced (placeAll steadySlot (initBlocks exampleStatuses)
    [mkAlloc 1 .running 0, mkAlloc 3 .running 0, mkAlloc 4 .failed 0, mkAlloc 2 .failed 0]) 0

/-- A running, healthy canary of the current version. -/
def healthyCanary : Allocation :=
  { mkAlloc 8 .running 1 with isCanary := true, isHealthy := true }

/-- A failed allocation that will not restart and has been rescheduled. -/
def supersededAlloc : Allocation :=
  { mkAlloc 1 .failed 0 with willNotRestart := true, willNotReschedule := false }

/-- Ten allocations of one version, five running and five pending. -/
def fiveAndFive : List Allocation :=
  [mkAlloc 1 .running 0, mkAlloc 2 .pending 0, mkAlloc 3 .running 0, mkAlloc 4 .pending 0,
   mkAlloc 5 .running 0, mkAlloc 6 .pending 0, mkAlloc 7 .running 0, mkAlloc 8 .pending 0,
   mkAlloc 9 .running 0, mkAlloc 10 .pending 0]

/-! ## Basic facts about the block -/

theorem lookup_assign (b : AllocationBlock) (s t : ClientStatus) (v : AllocationStatus) :
    (b.assign s v).lookup t = if s = t then some v else b.lookup t := by
  induction b with
  | nil => simp [AllocationBlock.assign, AllocationBlock.lookup]
  | cons kv rest ih =>
    obtain ⟨k, w⟩ := kv
    by_cases hks : k = s
    · subst hks
      by_cases hkt : k = t <;> simp [AllocationBlock.assign, AllocationBlock.lookup, hkt]
    · by_cases hkt : k = t
      · subst hkt
        have : ¬ s = k := fun h => hks h.symm
        simp [AllocationBlock.assign, AllocationBlock.lookup, hks, this]
      · simp [AllocationBlock.assign, AllocationBlock.lookup, hks, hkt, ih]

theorem countP_entries_assign (p : Entry → Bool) (b : AllocationBlock) (s : ClientStatus)
    (v : AllocationStatus) :
    (b.assign s v).entries.countP p + (b.entriesAt s).countP p
      = b.entries.countP p + v.entries.countP p := by
  induction b with
  | nil => simp [AllocationBlock.assign, AllocationBlock.entries, AllocationBlock.entriesAt,
      AllocationBlock.lookup]
  | cons kv rest ih =>
    obtain ⟨k, w⟩ := kv
    by_cases hks : k = s
    · simp [AllocationBlock.assign, AllocationBlock.entries, AllocationBlock.entriesAt,
        AllocationBlock.lookup, hks, List.countP_append]
      omega
    · simp only [AllocationBlock.entriesAt] at ih
      simp [AllocationBlock.assign, AllocationBlock.entries, AllocationBlock.entriesAt,
        AllocationBlock.lookup, hks, List.countP_append]
      omega

theorem get_push (st : AllocationStatus) (h h' : Health) (c c' : Canary) (e : Entry) :
    ((st.push h c e).get h').get c'
      = if h' = h ∧ c' = c then (st.get h').get c' ++ [e] else (st.get h').get c' := by
  cases h <;> cases h' <;> cases c <;> cases c' <;>
    simp [AllocationStatus.push, AllocationStatus.get, HealthStatus.push, HealthStatus.get]

theorem countP_entries_push (p : Entry → Bool) (st : AllocationStatus) (h : Health) (c : Canary)
    (e : Entry) :
    (st.push h c e).entries.countP p = st.entries.countP p + (if p e then 1 else 0) := by
  cases h <;> cases c <;>
    simp [AllocationStatus.push, AllocationStatus.entries, HealthStatus.push,
      List.countP_append, List.countP_cons, List.countP_nil] <;> omega

theorem entriesAt_eq_cells (b : AllocationBlock) (s : ClientStatus) :
    b.entriesAt s = b.cell s .healthy .canary ++ b.cell s .healthy .nonCanary ++
      b.cell s .unhealthy .canary ++ b.cell s .unhealthy .nonCanary ++
      b.cell s .health_unknown .canary ++ b.cell s .health_unknown .nonCanary := by
  unfold AllocationBlock.entriesAt AllocationBlock.cell
  cases b.lookup s <;>
    simp [AllocationStatus.entries, AllocationStatus.get, HealthStatus.get]

theorem lookup_place_isSome (slot : Slot) (b : AllocationBlock) (a : Allocation)
    (t : ClientStatus) : ((place slot b a).lookup t).isSome = (b.lookup t).isSome := by
  unfold place
  cases hl : b.lookup a.clientStatus with
  | none => rfl
  | some st =>
    simp only [lookup_assign]
    by_cases hst : a.clientStatus = t
    · subst hst; simp [hl]
    · simp [hst]

theorem cell_place (slot : Slot) (b : AllocationBlock) (a : Allocation) (s : ClientStatus)
    (h : Health) (c : Canary) (hk : (b.lookup a.clientStatus).isSome) :
    (place slot b a).cell s h c
      = if inBucket slot s h c a then b.cell s h c ++ [Entry.real a] else b.cell s h c := by
  obtain ⟨st, hst⟩ := Option.isSome_iff_exists.mp hk
  unfold place AllocationBlock.cell inBucket
  simp only [hst, lookup_assign]
  by_cases hs : a.clientStatus = s
  · subst hs
    simp only [if_true, hst, get_push, true_and]
    by_cases hh : h = (slot a).1 ∧ c = (slot a).2
    · obtain ⟨h1, h2⟩ := hh
      subst h1; subst h2; simp
    · have : ¬ ((slot a).1 = h ∧ (slot a).2 = c) := fun hx => hh ⟨hx.1.symm, hx.2.symm⟩
      simp [hh, this]
  · simp [hs]

theorem countP_place (p : Entry → Bool) (slot : Slot) (b : AllocationBlock) (a : Allocation)
    (hk : (b.lookup a.clientStatus).isSome) :
    (place slot b a).entries.countP p
      = b.entries.countP p + (if p (Entry.real a) then 1 else 0) := by
  obtain ⟨st, hst⟩ := Option.isSome_iff_exists.mp hk
  have h1 := countP_entries_assign p b a.clientStatus
    (st.push (slot a).1 (slot a).2 (Entry.real a))
  have h2 := countP_entries_push p st (slot a).1 (slot a).2 (Entry.real a)
  unfold place
  simp only [hst]
  simp only [AllocationBlock.entriesAt, hst] at h1
  omega

theorem lookup_placeAll_isSome (slot : Slot) (l : List Allocation) (b : AllocationBlock)
    (t : ClientStatus) : ((placeAll slot b l).lookup t).isSome = (b.lookup t).isSome := by
  induction l generalizing b with
  | nil => rfl
  | cons a rest ih =>
    show ((placeAll slot (place slot b a) rest).lookup t).isSome = _
    rw [ih, lookup_place_isSome]

theorem placeAll_append (slot : Slot) (b : AllocationBlock) (l₁ l₂ : List Allocation) :
    placeAll slot (placeAll slot b l₁) l₂ = placeAll slot b (l₁ ++ l₂) := by
  simp [placeAll, List.foldl_append]

theorem cell_placeAll (slot : Slot) (l : List Allocation) (b : AllocationBlock)
    (s : ClientStatus) (h : Health) (c : Canary)
    (hk : ∀ a ∈ l, (b.lookup a.clientStatus).isSome) :
    (placeAll slot b l).cell s h c
      = b.cell s h c ++ (l.filter (inBucket slot s h c)).map Entry.real := by
  induction l generalizing b with
  | nil => simp [placeAll]
  | cons a rest ih =>
    show (placeAll slot (place slot b a) rest).cell s h c = _
    rw [ih]
    · rw [cell_place slot b a s h c (hk a (List.mem_cons_self _ _))]
      by_cases hb : inBucket slot s h c a = true
      · simp [hb, List.filter_cons]
      · simp [hb, List.filter_cons]
    · intro x hx
      rw [lookup_place_isSome]
      exact hk x (List.mem_cons_of_mem _ hx)

theorem countP_placeAll (p : Entry → Bool) (slot : Slot) (l : List Allocation)
    (b : AllocationBlock) (hk : ∀ a ∈ l, (b.lookup a.clientStatus).isSome) :
    (placeAll slot b l).entries.countP p
      = b.entries.countP p + l.countP (fun a => p (Entry.real a)) := by
  induction l generalizing b with
  | nil => simp [placeAll]
  | cons a rest ih =>
    show (placeAll slot (place slot b a) rest).entries.countP p = _
    rw [ih]
    · rw [countP_place p slot b a (hk a (List.mem_cons_self _ _)), List.countP_cons]
      omega
    · intro x hx
      rw [lookup_place_isSome]
      exact hk x (List.mem_cons_of_mem _ hx)

/-! ## The initial block -/

theorem lookup_foldl_assign (l : List ClientStatus) (b : AllocationBlock) (s : ClientStatus) :
    (l.foldl (fun categories label => categories.assign label emptyStatus) b).lookup s
      = if s ∈ l then some emptyStatus else b.lookup s := by
  induction l generalizing b with
  | nil => simp
  | cons x rest ih =>
    rw [List.foldl_cons, ih, lookup_assign]
    by_cases h1 : s ∈ rest
    · simp [h1]
    · by_cases h2 : x = s
      · subst h2; simp
      · have : ¬ s = x := fun h => h2 h.symm
        simp [h1, h2, this]

theorem lookup_initBlocks (statuses : List ClientStatus) (s : ClientStatus) :
    (initBlocks statuses).lookup s = if s ∈ statuses then some emptyStatus else none := by
  unfold initBlocks
  rw [lookup_foldl_assign]
  rfl

theorem entries_foldl_assign (l : List ClientStatus) (b : AllocationBlock)
    (hb : b.entries = []) :
    (l.foldl (fun categories label => categories.assign label emptyStatus) b).entries = [] := by
  induction l generalizing b with
  | nil => simpa using hb
  | cons x rest ih =>
    rw [List.foldl_cons]
    apply ih
    have h := countP_entries_assign (fun _ => true) b x emptyStatus
    have h0 : (emptyStatus.entries).countP (fun _ => true) = 0 := rfl
    rw [hb, h0, List.countP_nil] at h
    have h1 : (b.assign x emptyStatus).entries.countP (fun _ => true) = 0 := by omega
    rw [List.countP_eq_zero] at h1
    apply List.eq_nil_iff_forall_not_mem.mpr
    intro e he
    exact absurd rfl (h1 e he)

theorem entries_initBlocks (statuses : List ClientStatus) : (initBlocks statuses).entries = [] :=
  entries_foldl_assign statuses [] rfl

theorem cell_initBlocks (statuses : List ClientStatus) (s : ClientStatus) (h : Health)
    (c : Canary) : (initBlocks statuses).cell s h c = [] := by
  unfold AllocationBlock.cell
  rw [lookup_initBlocks]
  by_cases hs : s ∈ statuses
  · cases h <;> cases c <;> simp [hs, emptyStatus, AllocationStatus.get, HealthStatus.get]
  · simp [hs]

/-! ## The closing fill -/

theorem cell_fillUnplaced (b : AllocationBlock) (slots : Int) (s : ClientStatus) (h : Health)
    (c : Canary) :
    (fillUnplaced b slots).cell s h c
      = if 0 < slots ∧ s = .unplaced then
          (if h = .healthy ∧ c = .nonCanary then List.replicate slots.toNat Entry.placeholder
           else [])
        else b.cell s h c := by
  unfold fillUnplaced
  by_cases hpos : 0 < slots
  · simp only [gt_iff_lt, hpos, if_true, true_and]
    unfold AllocationBlock.cell
    rw [lookup_assign]
    by_cases hs : s = .unplaced
    · subst hs
      cases h <;> cases c <;> simp [emptyStatus, AllocationStatus.get, HealthStatus.get]
    · have : ¬ ClientStatus.unplaced = s := fun hx => hs hx.symm
      simp [hs, this]
  · simp [hpos]

theorem countP_fillUnplaced (p : Entry → Bool) (b : AllocationBlock) (slots : Int)
    (hpos : 0 < slots) :
    (fillUnplaced b slots).entries.countP p + (b.entriesAt .unplaced).countP p
      = b.entries.countP p + (if p Entry.placeholder then slots.toNat else 0) := by
  unfold fillUnplaced
  simp only [gt_iff_lt, hpos, if_true]
  rw [countP_entries_assign]
  congr 1
  by_cases hp : p Entry.placeholder = true
  · simp [emptyStatus, AllocationStatus.entries, List.countP_replicate, hp]
  · simp [emptyStatus, AllocationStatus.entries, List.countP_replicate, hp]

theorem fillUnplaced_of_nonpos (b : AllocationBlock) (slots : Int) (h : slots ≤ 0) :
    fillUnplaced b slots = b := by
  unfold fillUnplaced
  simp [not_lt.mpr h]

/-! ## The three loops as sequences of pushes -/

theorem eligible_place (slot : Slot) (b : AllocationBlock) (a : Allocation) :
    eligible (place slot b a) = eligible b := by
  funext x
  simp [eligible, lookup_place_isSome]

theorem push_eq_place (slot : Slot) (b : AllocationBlock) (a : Allocation)
    (hk : (b.lookup a.clientStatus).isSome) :
    b.push a.clientStatus (slot a).1 (slot a).2 (Entry.real a) = some (place slot b a) := by
  obtain ⟨st, hst⟩ := Option.isSome_iff_exists.mp hk
  simp [AllocationBlock.push, place, hst]

theorem deployingLoop_eq (l : List Allocation) (b : AllocationBlock) (slots : Int) :
    deployingLoop l b slots
      = some (placeAll deployingSlot b ((l.filter (eligible b)).take slots.toNat),
          slots - (((l.filter (eligible b)).take slots.toNat).length : Int)) := by
  induction l generalizing b slots with
  | nil => simp [deployingLoop, placeAll]
  | cons a rest ih =>
    unfold deployingLoop
    by_cases hs : slots ≤ 0
    · have h0 : slots.toNat = 0 := Int.toNat_eq_zero.mpr hs
      simp [hs, h0, placeAll]
    · have hpos : 0 < slots := not_le.mp hs
      have hsucc : slots.toNat = (slots - 1).toNat + 1 := by omega
      simp only [hs, if_false]
      cases hl : b.lookup a.clientStatus with
      | none =>
        have he : eligible b a = false := by simp [eligible, hl]
        simp only [List.filter_cons, he]
        exact ih b slots
      | some st =>
        by_cases hskip : (a.willNotRestart && !a.willNotReschedule) = true
        · have he : eligible b a = false := by simp [eligible, hl, hskip]
          simp only [hskip, if_true, List.filter_cons, he]
          exact ih b slots
        · have he : eligible b a = true := by
            simp only [Bool.not_eq_true] at hskip
            simp [eligible, hl, hskip]
          have hk : (b.lookup a.clientStatus).isSome := by simp [hl]
          have hp := push_eq_place deployingSlot b a hk
          simp only [deployingSlot] at hp
          simp only [hskip, Bool.false_eq_true, if_false, hp, List.filter_cons, he, if_true]
          rw [ih, eligible_place, hsucc, List.take_succ_cons]
          simp only [placeAll, List.foldl_cons, List.length_cons, deployingSlot]
          congr 2
          push_cast
          omega

theorem steadyPass1_eq (l : List Allocation) (b : AllocationBlock) (slots : Int)
    (hk : ∀ a ∈ l, (b.lookup a.clientStatus).isSome) :
    steadyPass1 l b slots
      = some (placeAll steadySlot b (capTake slots l),
          slots - ((capTake slots l).length : Int)) := by
  induction l generalizing b slots with
  | nil => simp [steadyPass1, placeAll, capTake]
  | cons a rest ih =>
    unfold steadyPass1
    by_cases hs : slots = 0
    · subst hs
      simp [capTake, placeAll]
    · have hp := push_eq_place steadySlot b a (hk a (List.mem_cons_self _ _))
      simp only [steadySlot] at hp
      simp only [hs, if_false, hp]
      rw [ih]
      · by_cases hneg : slots < 0
        · have hneg' : slots - 1 < 0 := by omega
          simp only [capTake, hneg, hneg', if_true, placeAll, List.foldl_cons, List.length_cons]
          congr 2
          push_cast
          omega
        · have hneg' : ¬ slots - 1 < 0 := by omega
          have hsucc : slots.toNat = (slots - 1).toNat + 1 := by omega
          simp only [capTake, hneg, hneg', if_false, hsucc, List.take_succ_cons, placeAll,
            List.foldl_cons, List.length_cons]
          congr 2
          push_cast
          omega
      · intro x hx
        rw [lookup_place_isSome]
        exact hk x (List.mem_cons_of_mem _ hx)

theorem steadyPass2_eq (statuses : List ClientStatus) (total : Int) (l : List Allocation)
    (b : AllocationBlock) (slots : Int)
    (hk : ∀ s ∈ statuses, (b.lookup s).isSome) (h0 : 0 ≤ slots)
    (hcap : ∀ s, ((b.cell s .healthy .nonCanary).length : Int) + slots ≤ total) :
    steadyPass2 statuses total l b slots
      = some (placeAll steadySlot b
            ((l.filter (fun a => statuses.contains a.clientStatus)).take slots.toNat),
          slots - (((l.filter (fun a => statuses.contains a.clientStatus)).take
            slots.toNat).length : Int)) := by
  induction l generalizing b slots with
  | nil => simp [steadyPass2, placeAll]
  | cons a rest ih =>
    unfold steadyPass2
    by_cases hs : slots = 0
    · subst hs
      simp [placeAll]
    · have hpos : 0 < slots := lt_of_le_of_ne h0 (Ne.symm hs)
      have hsucc : slots.toNat = (slots - 1).toNat + 1 := by omega
      simp only [hs, if_false]
      by_cases hin : statuses.contains a.clientStatus = true
      · have hmem : a.clientStatus ∈ statuses := by simpa using hin
        have hsome := hk _ hmem
        obtain ⟨st, hst⟩ := Option.isSome_iff_exists.mp hsome
        have hlen : ((st.healthy.nonCanary.length : Int)) < total := by
          have := hcap a.clientStatus
          simp only [AllocationBlock.cell, hst, AllocationStatus.get, HealthStatus.get] at this
          omega
        have hp := push_eq_place steadySlot b a hsome
        simp only [steadySlot] at hp
        simp only [hin, if_true, hst, hlen, hp, List.filter_cons]
        rw [ih, hsucc, List.take_succ_cons]
        · simp only [placeAll, List.foldl_cons, List.length_cons]
          congr 2
          push_cast
          omega
        · intro s hs'
          rw [lookup_place_isSome]
          exact hk s hs'
        · omega
        · intro s
          rw [cell_place steadySlot b a s _ _ hsome]
          have := hcap s
          by_cases hb : inBucket steadySlot s .healthy .nonCanary a = true
          · simp only [hb, if_true, List.length_append, List.length_singleton]
            push_cast
            omega
          · simp only [hb]
            simp only [Bool.false_eq_true, if_false]
            omega
      · simp only [hin, List.filter_cons]
        simp only [Bool.false_eq_true, if_false]
        exact ih b slots hk h0 hcap

theorem steadyPass2_of_nonpos (statuses : List ClientStatus) (total : Int)
    (l : List Allocation) (b : AllocationBlock) (slots : Int)
    (hk : ∀ s ∈ statuses, (b.lookup s).isSome) (ht : total ≤ 0) :
    steadyPass2 statuses total l b slots = some (b, slots) := by
  induction l with
  | nil => simp [steadyPass2]
  | cons a rest ih =>
    unfold steadyPass2
    by_cases hs : slots = 0
    · simp [hs]
    · simp only [hs, if_false]
      by_cases hin : statuses.contains a.clientStatus = true
      · have hmem : a.clientStatus ∈ statuses := by simpa using hin
        obtain ⟨st, hst⟩ := Option.isSome_iff_exists.mp (hk _ hmem)
        have hlen : ¬ ((st.healthy.nonCanary.length : Int)) < total := by omega
        simp only [hin, if_true, hst, hlen, if_false]
        exact ih
      · simp only [hin]
        simp only [Bool.false_eq_true, if_false]
        exact ih

/-! ## `allocBlocks` in closed form -/

theorem isSome_lookup_initBlocks (statuses : List ClientStatus) (s : ClientStatus) :
    ((initBlocks statuses).lookup s).isSome = statuses.contains s := by
  rw [lookup_initBlocks]
  by_cases h : s ∈ statuses <;> simp [h]

theorem allocBlocks_deploying (statuses : List ClientStatus) (total : Int)
    (allocations : List Allocation) :
    allocBlocks statuses total true allocations
      = some (fillUnplaced
          (placeAll deployingSlot (initBlocks statuses)
            (deployingPlaced statuses total allocations))
          (total - ((deployingPlaced statuses total allocations).length : Int))) := by
  have he : eligible (initBlocks statuses)
      = fun a => statuses.contains a.clientStatus &&
          !(a.willNotRestart && !a.willNotReschedule) := by
    funext a
    simp only [eligible, isSome_lookup_initBlocks]
  simp only [allocBlocks, if_true, deployingLoop_eq, he, deployingPlaced, deployingCandidates]

theorem length_capTake_le (slots : Int) (l : List Allocation) (h0 : 0 ≤ slots) :
    ((capTake slots l).length : Int) ≤ slots := by
  have hn : ¬ slots < 0 := not_lt.mpr h0
  simp only [capTake, hn, if_false, List.length_take]
  omega

theorem length_filter_inBucket_le (slot : Slot) (s : ClientStatus) (h : Health) (c : Canary)
    (l : List Allocation) : (l.filter (inBucket slot s h c)).length ≤ l.length :=
  List.length_filter_le _ _

theorem allocBlocks_steady (statuses : List ClientStatus) (total : Int)
    (allocations : List Allocation)
    (hrp : ∀ a ∈ allocations, a.clientStatus = .running ∨ a.clientStatus = .pending →
      a.clientStatus ∈ statuses) :
    allocBlocks statuses total false allocations
      = some (fillUnplaced
          (placeAll steadySlot (initBlocks statuses)
            (steadyFirst total allocations ++ steadyOthers statuses total allocations))
          (total - ((steadyFirst total allocations).length : Int)
            - ((steadyOthers statuses total allocations).length : Int))) := by
  have hk1 : ∀ a ∈ allocations.filter
      (fun a => a.clientStatus = .running || a.clientStatus = .pending),
      ((initBlocks statuses).lookup a.clientStatus).isSome := by
    intro a ha
    rw [List.mem_filter] at ha
    rw [isSome_lookup_initBlocks]
    have := hrp a ha.1 (by simpa using ha.2)
    simpa using this
  have hk2 : ∀ s ∈ statuses,
      ((placeAll steadySlot (initBlocks statuses) (steadyFirst total allocations)).lookup
        s).isSome := by
    intro s hs
    rw [lookup_placeAll_isSome, isSome_lookup_initBlocks]
    simpa using hs
  have hk1' : ∀ a ∈ steadyFirst total allocations,
      ((initBlocks statuses).lookup a.clientStatus).isSome := by
    intro a ha
    apply hk1
    unfold steadyFirst capTake runningOrPending at ha
    split at ha
    · exact ha
    · exact List.mem_of_mem_take ha
  simp only [allocBlocks, Bool.false_eq_true, if_false, steadyPass1_eq _ _ _ hk1]
  change (match steadyPass2 statuses total (sortedAllocs statuses allocations)
      (placeAll steadySlot (initBlocks statuses) (steadyFirst total allocations))
      (total - ((steadyFirst total allocations).length : Int)) with
    | none => none
    | some (b2, slots2) => some (fillUnplaced b2 slots2)) = _
  by_cases hneg : total < 0
  · rw [steadyPass2_of_nonpos _ _ _ _ _ hk2 (le_of_lt hneg)]
    have hz : (total - ((steadyFirst total allocations).length : Int)).toNat = 0 := by omega
    simp [steadyOthers, hz]
  · have h0 : 0 ≤ total := not_lt.mp hneg
    have hle := length_capTake_le total (runningOrPending allocations) h0
    rw [steadyPass2_eq _ _ _ _ _ hk2]
    · simp only [placeAll_append]
      rfl
    · unfold steadyFirst
      omega
    · intro s
      rw [cell_placeAll _ _ _ _ _ _ hk1', cell_initBlocks]
      have := length_filter_inBucket_le steadySlot s .healthy .nonCanary
        (steadyFirst total allocations)
      simp only [List.nil_append, List.length_map]
      omega

/-! ## What the pushed lists contain -/

theorem mem_deployingCandidates {statuses : List ClientStatus} {allocations : List Allocation}
    {a : Allocation} :
    a ∈ deployingCandidates statuses allocations ↔
      a ∈ allocations ∧ a.isOld = false ∧ a.clientStatus ∈ statuses ∧
        ¬ (a.willNotRestart = true ∧ a.willNotReschedule = false) := by
  simp only [deployingCandidates, List.mem_filter, Bool.and_eq_true, Bool.not_eq_true',
    Bool.and_eq_false_iff, Bool.not_eq_false', not_and, Bool.not_eq_false]
  constructor
  · rintro ⟨⟨h1, h2⟩, h3, h4⟩
    refine ⟨h1, h2, by simpa using h3, ?_⟩
    intro hw
    cases h4 with
    | inl h => simp [h] at hw
    | inr h => exact h
  · rintro ⟨h1, h2, h3, h4⟩
    refine ⟨⟨h1, h2⟩, by simpa using h3, ?_⟩
    by_cases hw : a.willNotRestart = true
    · exact Or.inr (h4 hw)
    · exact Or.inl (by simpa using hw)

theorem mem_of_mem_deployingPlaced {statuses : List ClientStatus} {total : Int}
    {allocations : List Allocation} {a : Allocation}
    (h : a ∈ deployingPlaced statuses total allocations) :
    a ∈ deployingCandidates statuses allocations :=
  List.mem_of_mem_take h

theorem mem_sortedAllocs {statuses : List ClientStatus} {allocations : List Allocation}
    {a : Allocation} :
    a ∈ sortedAllocs statuses allocations ↔
      a ∈ allocations ∧ a.clientStatus ≠ .running ∧ a.clientStatus ≠ .pending := by
  simp [sortedAllocs, List.mem_insertionSort, List.mem_filter]

theorem mem_showableSorted {statuses : List ClientStatus} {allocations : List Allocation}
    {a : Allocation} :
    a ∈ showableSorted statuses allocations ↔
      a ∈ allocations ∧ a.clientStatus ≠ .running ∧ a.clientStatus ≠ .pending ∧
        a.clientStatus ∈ statuses := by
  simp [showableSorted, mem_sortedAllocs, List.mem_filter, and_assoc]

theorem mem_runningOrPending {allocations : List Allocation} {a : Allocation} :
    a ∈ runningOrPending allocations ↔
      a ∈ allocations ∧ (a.clientStatus = .running ∨ a.clientStatus = .pending) := by
  simp [runningOrPending, List.mem_filter]

theorem mem_of_mem_capTake {slots : Int} {l : List Allocation} {a : Allocation}
    (h : a ∈ capTake slots l) : a ∈ l := by
  unfold capTake at h
  split at h
  · exact h
  · exact List.mem_of_mem_take h

theorem mem_of_mem_steadyFirst {total : Int} {allocations : List Allocation} {a : Allocation}
    (h : a ∈ steadyFirst total allocations) :
    a ∈ allocations ∧ (a.clientStatus = .running ∨ a.clientStatus = .pending) :=
  mem_runningOrPending.mp (mem_of_mem_capTake h)

theorem mem_of_mem_steadyOthers {statuses : List ClientStatus} {total : Int}
    {allocations : List Allocation} {a : Allocation}
    (h : a ∈ steadyOthers statuses total allocations) :
    a ∈ allocations ∧ a.clientStatus ≠ .running ∧ a.clientStatus ≠ .pending ∧
      a.clientStatus ∈ statuses :=
  mem_showableSorted.mp (List.mem_of_mem_take h)

theorem length_deployingPlaced_le (statuses : List ClientStatus) (total : Int)
    (allocations : List Allocation) (h0 : 0 ≤ total) :
    ((deployingPlaced statuses total allocations).length : Int) ≤ total := by
  simp only [deployingPlaced, List.length_take]
  omega

theorem length_steady_le (statuses : List ClientStatus) (total : Int)
    (allocations : List Allocation) (h0 : 0 ≤ total) :
    ((steadyFirst total allocations).length : Int)
      + ((steadyOthers statuses total allocations).length : Int) ≤ total := by
  have h1 := length_capTake_le total (runningOrPending allocations) h0
  simp only [steadyOthers, steadyFirst, List.length_take] at *
  omega

/-! ## Counting the elements of the result -/

theorem entriesAt_unplaced_placeAll (slot : Slot) (statuses : List ClientStatus)
    (placed : List Allocation)
    (hk : ∀ a ∈ placed, a.clientStatus ∈ statuses)
    (hu : ∀ a ∈ placed, a.clientStatus ≠ .unplaced) :
    (placeAll slot (initBlocks statuses) placed).entriesAt .unplaced = [] := by
  have hk' : ∀ a ∈ placed, ((initBlocks statuses).lookup a.clientStatus).isSome := by
    intro a ha
    rw [isSome_lookup_initBlocks]
    simpa using hk a ha
  have hf : ∀ h c, placed.filter (inBucket slot .unplaced h c) = [] := by
    intro h c
    apply List.filter_eq_nil_iff.mpr
    intro a ha
    simp [inBucket, hu a ha]
  rw [entriesAt_eq_cells]
  simp [cell_placeAll _ _ _ _ _ _ hk', cell_initBlocks, hf]

theorem countP_result (p : Entry → Bool) (slot : Slot) (statuses : List ClientStatus)
    (placed : List Allocation) (slots : Int)
    (hk : ∀ a ∈ placed, a.clientStatus ∈ statuses)
    (hu : ∀ a ∈ placed, a.clientStatus ≠ .unplaced) :
    (fillUnplaced (placeAll slot (initBlocks statuses) placed) slots).entries.countP p
      = placed.countP (fun a => p (Entry.real a))
        + (if p Entry.placeholder then slots.toNat else 0) := by
  have hk' : ∀ a ∈ placed, ((initBlocks statuses).lookup a.clientStatus).isSome := by
    intro a ha
    rw [isSome_lookup_initBlocks]
    simpa using hk a ha
  have hpl := countP_placeAll p slot placed (initBlocks statuses) hk'
  rw [entries_initBlocks, List.countP_nil, Nat.zero_add] at hpl
  by_cases hpos : 0 < slots
  · have hf := countP_fillUnplaced p (placeAll slot (initBlocks statuses) placed) slots hpos
    rw [entriesAt_unplaced_placeAll slot statuses placed hk hu, List.countP_nil] at hf
    omega
  · have hz : slots.toNat = 0 := by omega
    rw [fillUnplaced_of_nonpos _ _ (not_lt.mp hpos), hpl, hz]
    simp

theorem total_result (slot : Slot) (statuses : List ClientStatus) (placed : List Allocation)
    (slots : Int)
    (hk : ∀ a ∈ placed, a.clientStatus ∈ statuses)
    (hu : ∀ a ∈ placed, a.clientStatus ≠ .unplaced) :
    (fillUnplaced (placeAll slot (initBlocks statuses) placed) slots).total
      = placed.length + slots.toNat := by
  have h := countP_result (fun _ => true) slot statuses placed slots hk hu
  simp only [List.countP_true, if_true] at h
  simpa [AllocationBlock.total] using h

theorem realCount_result (slot : Slot) (statuses : List ClientStatus) (placed : List Allocation)
    (slots : Int)
    (hk : ∀ a ∈ placed, a.clientStatus ∈ statuses)
    (hu : ∀ a ∈ placed, a.clientStatus ≠ .unplaced) :
    (fillUnplaced (placeAll slot (initBlocks statuses) placed) slots).realCount
      = placed.length := by
  have h := countP_result Entry.isReal slot statuses placed slots hk hu
  simpa [AllocationBlock.realCount, Entry.isReal] using h

theorem mem_statuses_of_mem_steady (statuses : List ClientStatus) (total : Int)
    (allocations : List Allocation)
    (hrp : ∀ a ∈ allocations, a.clientStatus = .running ∨ a.clientStatus = .pending →
      a.clientStatus ∈ statuses) :
    ∀ a ∈ steadyFirst total allocations ++ steadyOthers statuses total allocations,
      a.clientStatus ∈ statuses := by
  intro a ha
  rcases List.mem_append.mp ha with h | h
  · have := mem_of_mem_steadyFirst h
    exact hrp a this.1 this.2
  · exact (mem_of_mem_steadyOthers h).2.2.2

theorem mem_allocations_of_mem_steady (statuses : List ClientStatus) (total : Int)
    (allocations : List Allocation) :
    ∀ a ∈ steadyFirst total allocations ++ steadyOthers statuses total allocations,
      a ∈ allocations := by
  intro a ha
  rcases List.mem_append.mp ha with h | h
  · exact (mem_of_mem_steadyFirst h).1
  · exact (mem_of_mem_steadyOthers h).1

/-! ## The arrays of the result -/

theorem cell_result (slot : Slot) (statuses : List ClientStatus) (placed : List Allocation)
    (slots : Int) (s : ClientStatus) (h : Health) (c : Canary)
    (hk : ∀ a ∈ placed, a.clientStatus ∈ statuses) :
    (fillUnplaced (placeAll slot (initBlocks statuses) placed) slots).cell s h c
      = if 0 < slots ∧ s = .unplaced then
          (if h = .healthy ∧ c = .nonCanary then List.replicate slots.toNat Entry.placeholder
           else [])
        else (placed.filter (inBucket slot s h c)).map Entry.real := by
  have hk' : ∀ a ∈ placed, ((initBlocks statuses).lookup a.clientStatus).isSome := by
    intro a ha
    rw [isSome_lookup_initBlocks]
    simpa using hk a ha
  rw [cell_fillUnplaced, cell_placeAll _ _ _ _ _ _ hk', cell_initBlocks, List.nil_append]

theorem reals_map_real (l : List Allocation) : reals (l.map Entry.real) = l := by
  induction l with
  | nil => rfl
  | cons a rest ih =>
    simp only [reals] at ih
    simp [reals, List.filterMap_cons, Entry.allocation?, ih]

theorem reals_replicate_placeholder (n : Nat) :
    reals (List.replicate n Entry.placeholder) = [] := by
  induction n with
  | zero => rfl
  | succ k ih =>
    simp only [reals] at ih
    simp [reals, List.replicate_succ, List.filterMap_cons, Entry.allocation?, ih]

theorem reals_cell_result (slot : Slot) (statuses : List ClientStatus)
    (placed : List Allocation) (slots : Int) (s : ClientStatus) (h : Health) (c : Canary)
    (hk : ∀ a ∈ placed, a.clientStatus ∈ statuses)
    (hu : s = .unplaced → ∀ a ∈ placed, a.clientStatus ≠ .unplaced) :
    reals ((fillUnplaced (placeAll slot (initBlocks statuses) placed) slots).cell s h c)
      = placed.filter (inBucket slot s h c) := by
  rw [cell_result _ _ _ _ _ _ _ hk]
  by_cases hc : 0 < slots ∧ s = .unplaced
  · have hf : placed.filter (inBucket slot s h c) = [] := by
      apply List.filter_eq_nil_iff.mpr
      intro a ha
      have := hu hc.2 a ha
      simp [inBucket, hc.2, this]
    rw [if_pos hc, hf]
    split
    · exact reals_replicate_placeholder _
    · rfl
  · rw [if_neg hc, reals_map_real]

theorem real_mem_cell_result (slot : Slot) (statuses : List ClientStatus)
    (placed : List Allocation) (slots : Int) (s : ClientStatus) (h : Health) (c : Canary)
    (hk : ∀ a ∈ placed, a.clientStatus ∈ statuses) (a : Allocation)
    (ha : Entry.real a ∈
      (fillUnplaced (placeAll slot (initBlocks statuses) placed) slots).cell s h c) :
    a ∈ placed ∧ a.clientStatus = s ∧ (slot a).1 = h ∧ (slot a).2 = c := by
  rw [cell_result _ _ _ _ _ _ _ hk] at ha
  split at ha
  · split at ha
    · exact absurd (List.eq_of_mem_replicate ha) (by simp)
    · simp at ha
  · rw [List.mem_map] at ha
    obtain ⟨x, hx, hxa⟩ := ha
    cases hxa
    rw [List.mem_filter] at hx
    refine ⟨hx.1, ?_⟩
    simpa [inBucket] using hx.2

theorem statuses_of_deployingPlaced {statuses : List ClientStatus} {total : Int}
    {allocations : List Allocation} :
    ∀ a ∈ deployingPlaced statuses total allocations, a.clientStatus ∈ statuses := by
  intro a ha
  exact (mem_deployingCandidates.mp (mem_of_mem_deployingPlaced ha)).2.2.1

theorem keys_of_mem (statuses : List ClientStatus) (allocations : List Allocation)
    (hr : ClientStatus.running ∈ statuses) (hp : ClientStatus.pending ∈ statuses) :
    ∀ a ∈ allocations, a.clientStatus = .running ∨ a.clientStatus = .pending →
      a.clientStatus ∈ statuses := by
  intro a _ h
  rcases h with h | h <;> rw [h] <;> assumption

/-! ## The steady-state arrays -/

theorem filter_inBucket_steadyFirst (total : Int) (allocations : List Allocation)
    (s : ClientStatus) (hs : s ≠ .running) (hs' : s ≠ .pending) (h : Health) (c : Canary) :
    (steadyFirst total allocations).filter (inBucket steadySlot s h c) = [] := by
  apply List.filter_eq_nil_iff.mpr
  intro a ha
  have := (mem_of_mem_steadyFirst ha).2
  simp only [inBucket, decide_eq_true_eq, not_and]
  intro hx
  rw [hx] at this
  rcases this with h1 | h1
  · exact absurd h1 hs
  · exact absurd h1 hs'

theorem filter_inBucket_steadyOthers (statuses : List ClientStatus) (total : Int)
    (allocations : List Allocation)
    (s : ClientStatus) (hs : s = .running ∨ s = .pending) (h : Health) (c : Canary) :
    (steadyOthers statuses total allocations).filter (inBucket steadySlot s h c) = [] := by
  apply List.filter_eq_nil_iff.mpr
  intro a ha
  have := mem_of_mem_steadyOthers ha
  simp only [inBucket, decide_eq_true_eq, not_and]
  intro hx
  rw [hx] at this
  rcases hs with h1 | h1
  · exact absurd h1 this.2.1
  · exact absurd h1 this.2.2.1

theorem filter_inBucket_steady_main (l : List Allocation) (s : ClientStatus) :
    l.filter (inBucket steadySlot s .healthy .nonCanary)
      = l.filter (fun a => decide (a.clientStatus = s)) := by
  congr 1
  funext a
  simp [inBucket, steadySlot]

theorem filter_inBucket_steady_side (l : List Allocation) (s : ClientStatus) (h : Health)
    (c : Canary) (hc : ¬ (h = .healthy ∧ c = .nonCanary)) :
    l.filter (inBucket steadySlot s h c) = [] := by
  apply List.filter_eq_nil_iff.mpr
  intro a _
  simp only [inBucket, steadySlot, decide_eq_true_eq, not_and]
  intro _ h1 h2
  exact hc ⟨h1.symm, h2.symm⟩

theorem steadyFirst_of_nonneg (total : Int) (allocations : List Allocation) (h0 : 0 ≤ total) :
    steadyFirst total allocations = (runningOrPending allocations).take total.toNat := by
  simp [steadyFirst, capTake, not_lt.mpr h0]

/-! ## The order of `sortedAllocs` -/

theorem allocLE_iff (statuses : List ClientStatus) (a b : Allocation) :
    allocLE statuses a b ↔
      a.jobVersion < b.jobVersion ∨
        (a.jobVersion = b.jobVersion ∧
          indexOf statuses b.clientStatus ≤ indexOf statuses a.clientStatus) := by
  unfold allocLE compareAllocs
  split_ifs with h1 h2 h3 <;> omega

theorem allocLE_isTotal (statuses : List ClientStatus) : IsTotal Allocation (allocLE statuses) :=
  ⟨fun a b => by
    rw [allocLE_iff, allocLE_iff]
    omega⟩

theorem allocLE_isTrans (statuses : List ClientStatus) : IsTrans Allocation (allocLE statuses) :=
  ⟨fun a b c => by
    rw [allocLE_iff, allocLE_iff, allocLE_iff]
    omega⟩

theorem pairwise_sortedAllocs (statuses : List ClientStatus) (allocations : List Allocation) :
    (sortedAllocs statuses allocations).Pairwise (fun a b => allocLE statuses b a) := by
  haveI := allocLE_isTotal statuses
  haveI := allocLE_isTrans statuses
  unfold sortedAllocs
  rw [List.pairwise_reverse]
  exact List.sorted_insertionSort (allocLE statuses) _

theorem pairwise_showableSorted (statuses : List ClientStatus) (allocations : List Allocation) :
    (showableSorted statuses allocations).Pairwise (fun a b => allocLE statuses b a) :=
  (pairwise_sortedAllocs statuses allocations).sublist (List.filter_sublist _)

theorem filter_orderedInsert (statuses : List ClientStatus) (p : Allocation → Bool)
    (a : Allocation) (l : List Allocation) (hl : l.Sorted (allocLE statuses)) :
    (l.orderedInsert (allocLE statuses) a).filter p
      = if p a then (l.filter p).orderedInsert (allocLE statuses) a else l.filter p := by
  induction l with
  | nil => by_cases hpa : p a = true <;> simp [hpa]
  | cons b rest ih =>
    have hrest := ih hl.of_cons
    by_cases hab : allocLE statuses a b
    · rw [List.orderedInsert_of_le _ _ hab]
      have hall : ∀ x ∈ (b :: rest).filter p, allocLE statuses a x := by
        intro x hx
        rcases List.mem_cons.mp (List.mem_filter.mp hx).1 with hxb | hxr
        · rw [hxb]; exact hab
        · exact (allocLE_isTrans statuses).trans _ _ _ hab (List.rel_of_sorted_cons hl x hxr)
      by_cases hpa : p a = true
      · rw [List.filter_cons, if_pos hpa, if_pos hpa]
        cases hf : (b :: rest).filter p with
        | nil => rfl
        | cons x xs =>
          rw [List.orderedInsert_of_le _ _ (hall x (by rw [hf]; exact List.mem_cons_self _ _))]
      · rw [List.filter_cons, if_neg hpa, if_neg hpa]
    · have hins : (b :: rest).orderedInsert (allocLE statuses) a
          = b :: rest.orderedInsert (allocLE statuses) a := by
        simp [List.orderedInsert, hab]
      rw [hins]
      by_cases hpb : p b = true
      · rw [List.filter_cons, if_pos hpb, hrest, List.filter_cons, if_pos hpb]
        by_cases hpa : p a = true
        · simp [hpa, List.orderedInsert, hab]
        · simp [hpa]
      · rw [List.filter_cons, if_neg hpb, hrest, List.filter_cons, if_neg hpb]

theorem filter_insertionSort (statuses : List ClientStatus) (p : Allocation → Bool)
    (l : List Allocation) :
    (l.insertionSort (allocLE statuses)).filter p
      = (l.filter p).insertionSort (allocLE statuses) := by
  haveI := allocLE_isTotal statuses
  haveI := allocLE_isTrans statuses
  induction l with
  | nil => rfl
  | cons a rest ih =>
    rw [List.insertionSort, filter_orderedInsert _ _ _ _ (List.sorted_insertionSort _ _), ih,
      List.filter_cons]
    by_cases hpa : p a = true
    · simp [hpa]
    · simp [hpa]

theorem allocLE_of_same {statuses : List ClientStatus} {x y : Allocation}
    (hv : x.jobVersion = y.jobVersion) (hs : x.clientStatus = y.clientStatus) :
    allocLE statuses x y := by
  rw [allocLE_iff, hs]
  omega

theorem filter_tie_insertionSort (statuses : List ClientStatus) (x : Allocation)
    (l : List Allocation) :
    (l.insertionSort (allocLE statuses)).filter
        (fun z => decide (z.jobVersion = x.jobVersion ∧ z.clientStatus = x.clientStatus))
      = l.filter
        (fun z => decide (z.jobVersion = x.jobVersion ∧ z.clientStatus = x.clientStatus)) := by
  rw [filter_insertionSort]
  apply List.Sorted.insertionSort_eq
  apply List.pairwise_of_forall_mem_list
  intro a ha b hb
  have h1 := (List.mem_filter.mp ha).2
  have h2 := (List.mem_filter.mp hb).2
  simp only [decide_eq_true_eq] at h1 h2
  exact allocLE_of_same (h1.1.trans h2.1.symm) (h1.2.trans h2.2.symm)

theorem steadyOthers_eq (statuses : List ClientStatus) (N : Int)
    (allocations : List Allocation) (hN : 0 ≤ N) :
    steadyOthers statuses N allocations
      = ((sortedAllocs statuses allocations).filter
          (fun a => statuses.contains a.clientStatus)).take
          (N.toNat - (allocations.filter
            (fun a => a.clientStatus = .running || a.clientStatus = .pending)).length) := by
  unfold steadyOthers showableSorted
  rw [steadyFirst_of_nonneg _ _ hN, List.length_take]
  unfold runningOrPending
  congr 1
  omega

theorem real_mem_cell_of_mem_steadyOthers (statuses : List ClientStatus) (N : Int)
    (allocations : List Allocation)
    (hrp : ∀ a ∈ allocations, a.clientStatus = .running ∨ a.clientStatus = .pending →
      a.clientStatus ∈ statuses)
    (x : Allocation) (hx : x ∈ steadyOthers statuses N allocations)
    (hxu : x.clientStatus ≠ .unplaced) :
    Entry.real x ∈ (fillUnplaced
      (placeAll steadySlot (initBlocks statuses)
        (steadyFirst N allocations ++ steadyOthers statuses N allocations))
      (N - ((steadyFirst N allocations).length : Int)
        - ((steadyOthers statuses N allocations).length : Int))).cell
      x.clientStatus .healthy .nonCanary := by
  rw [cell_result _ _ _ _ _ _ _ (mem_statuses_of_mem_steady _ _ _ hrp), if_neg (fun h => hxu h.2)]
  apply List.mem_map_of_mem
  rw [List.mem_filter]
  exact ⟨List.mem_append_right _ hx, by simp [inBucket, steadySlot]⟩

theorem mem_steadyOthers_of_real_mem_cell (statuses : List ClientStatus) (N : Int)
    (allocations : List Allocation)
    (hrp : ∀ a ∈ allocations, a.clientStatus = .running ∨ a.clientStatus = .pending →
      a.clientStatus ∈ statuses)
    (a : Allocation) (s : ClientStatus) (h : Health) (c : Canary)
    (ha : Entry.real a ∈ (fillUnplaced
      (placeAll steadySlot (initBlocks statuses)
        (steadyFirst N allocations ++ steadyOthers statuses N allocations))
      (N - ((steadyFirst N allocations).length : Int)
        - ((steadyOthers statuses N allocations).length : Int))).cell s h c)
    (h1 : a.clientStatus ≠ .running) (h2 : a.clientStatus ≠ .pending) :
    a ∈ steadyOthers statuses N allocations := by
  have hm := (real_mem_cell_result _ _ _ _ _ _ _ (mem_statuses_of_mem_steady _ _ _ hrp) a ha).1
  rcases List.mem_append.mp hm with hf | ho
  · rcases (mem_of_mem_steadyFirst hf).2 with hx | hx
    · exact absurd hx h1
    · exact absurd hx h2
  · exact ho

theorem reals_cell_result_sublist (slot : Slot) (statuses : List ClientStatus)
    (placed : List Allocation) (slots : Int) (s : ClientStatus) (h : Health) (c : Canary)
    (hk : ∀ a ∈ placed, a.clientStatus ∈ statuses) :
    List.Sublist
      (reals ((fillUnplaced (placeAll slot (initBlocks statuses) placed) slots).cell s h c))
      (placed.filter (inBucket slot s h c)) := by
  rw [cell_result _ _ _ _ _ _ _ hk]
  split
  · split
    · rw [reals_replicate_placeholder]; exact List.nil_sublist _
    · exact List.nil_sublist _
  · rw [reals_map_real]

theorem capTake_sublist (slots : Int) (l : List Allocation) :
    List.Sublist (capTake slots l) l := by
  unfold capTake
  split
  · exact List.Sublist.refl _
  · exact List.take_sublist _ _

theorem steadyFirst_sublist (total : Int) (allocations : List Allocation) :
    List.Sublist (steadyFirst total allocations) allocations :=
  (capTake_sublist _ _).trans (List.filter_sublist _)

theorem steadyOthers_sublist (statuses : List ClientStatus) (total : Int)
    (allocations : List Allocation) :
    List.Sublist (steadyOthers statuses total allocations) (sortedAllocs statuses allocations) :=
  (List.take_sublist _ _).trans (List.filter_sublist _)

theorem pair_sublist_of_sortedAllocs (statuses : List ClientStatus)
    (allocations : List Allocation) (a₁ a₂ : Allocation)
    (hv : a₁.jobVersion = a₂.jobVersion) (hs : a₁.clientStatus = a₂.clientStatus)
    (h : List.Sublist [a₁, a₂] (sortedAllocs statuses allocations)) :
    List.Sublist [a₂, a₁] allocations := by
  have h1 : List.Sublist [a₂, a₁] ((allocations.filter
      (fun a => a.clientStatus ≠ .running && a.clientStatus ≠ .pending)).insertionSort
        (allocLE statuses)) := by
    have := h.reverse
    simpa [sortedAllocs] using this
  have h2 := h1.filter
    (fun z => decide (z.jobVersion = a₁.jobVersion ∧ z.clientStatus = a₁.clientStatus))
  rw [filter_tie_insertionSort] at h2
  have h3 : [a₂, a₁].filter
      (fun z => decide (z.jobVersion = a₁.jobVersion ∧ z.clientStatus = a₁.clientStatus))
      = [a₂, a₁] := by
    simp [List.filter_cons, hv, hs]
  rw [h3] at h2
  exact (h2.trans (List.filter_sublist _)).trans (List.filter_sublist _)

theorem length_showableSorted (statuses : List ClientStatus) (allocations : List Allocation) :
    (showableSorted statuses allocations).length
      = (allocations.filter (fun a => a.clientStatus ≠ .running && a.clientStatus ≠ .pending &&
          statuses.contains a.clientStatus)).length := by
  unfold showableSorted sortedAllocs
  rw [List.filter_reverse, List.length_reverse, filter_insertionSort, List.length_insertionSort,
    List.filter_filter]
  congr 2
  funext a
  rw [Bool.and_comm]

theorem cell_steady_running_pending (statuses : List ClientStatus) (N : Int)
    (allocations : List Allocation) (hN : 0 ≤ N)
    (hrp : ∀ a ∈ allocations, a.clientStatus = .running ∨ a.clientStatus = .pending →
      a.clientStatus ∈ statuses)
    (s : ClientStatus) (hs : s = .running ∨ s = .pending) :
    (fillUnplaced
      (placeAll steadySlot (initBlocks statuses)
        (steadyFirst N allocations ++ steadyOthers statuses N allocations))
      (N - ((steadyFirst N allocations).length : Int)
        - ((steadyOthers statuses N allocations).length : Int))).cell s .healthy .nonCanary
      = ((((runningOrPending allocations).take N.toNat).filter
          (fun a => decide (a.clientStatus = s))).map Entry.real) := by
  have hsu : ¬ (0 < N - ((steadyFirst N allocations).length : Int)
      - ((steadyOthers statuses N allocations).length : Int) ∧ s = .unplaced) := by
    rintro ⟨_, h⟩
    rcases hs with h1 | h1 <;> rw [h1] at h <;> cases h
  rw [cell_result _ _ _ _ _ _ _ (mem_statuses_of_mem_steady _ _ _ hrp), if_neg hsu, List.filter_append,
    filter_inBucket_steadyOthers _ _ _ _ hs, List.append_nil, filter_inBucket_steady_main,
    steadyFirst_of_nonneg _ _ hN]

theorem otherCount_steady (statuses : List ClientStatus) (N : Int)
    (allocations : List Allocation)
    (hrp : ∀ a ∈ allocations, a.clientStatus = .running ∨ a.clientStatus = .pending →
      a.clientStatus ∈ statuses)
    (hstatus : ∀ a ∈ allocations, a.clientStatus ≠ .unplaced) :
    (fillUnplaced
      (placeAll steadySlot (initBlocks statuses)
        (steadyFirst N allocations ++ steadyOthers statuses N allocations))
      (N - ((steadyFirst N allocations).length : Int)
        - ((steadyOthers statuses N allocations).length : Int))).otherCount
      = (steadyOthers statuses N allocations).length := by
  have hu : ∀ a ∈ steadyFirst N allocations ++ steadyOthers statuses N allocations,
      a.clientStatus ≠ .unplaced :=
    fun a ha => hstatus a (mem_allocations_of_mem_steady _ _ _ a ha)
  unfold AllocationBlock.otherCount
  rw [countP_result _ _ _ _ _ (mem_statuses_of_mem_steady _ _ _ hrp) hu, List.countP_append]
  have h1 : (steadyFirst N allocations).countP (fun a => Entry.isOther (Entry.real a)) = 0 := by
    rw [List.countP_eq_zero]
    intro a ha
    rcases (mem_of_mem_steadyFirst ha).2 with h | h <;> simp [Entry.isOther, h]
  have h2 : (steadyOthers statuses N allocations).countP
      (fun a => Entry.isOther (Entry.real a)) = (steadyOthers statuses N allocations).length := by
    rw [List.countP_eq_length]
    intro a ha
    have := mem_of_mem_steadyOthers ha
    simp [Entry.isOther, this.2.1, this.2.2.1]
  rw [h1, h2]
  simp [Entry.isOther]

/-! ## Allocations whose status is not in the status list -/

theorem deployingCandidates_filter (statuses : List ClientStatus)
    (allocations : List Allocation) :
    deployingCandidates statuses
        (allocations.filter (fun a => statuses.contains a.clientStatus))
      = deployingCandidates statuses allocations := by
  simp only [deployingCandidates, List.filter_filter]
  congr 1
  funext a
  cases statuses.contains a.clientStatus <;> simp

theorem runningOrPending_filter (statuses : List ClientStatus) (allocations : List Allocation)
    (hr : .running ∈ statuses) (hp : .pending ∈ statuses) :
    runningOrPending (allocations.filter (fun a => statuses.contains a.clientStatus))
      = runningOrPending allocations := by
  simp only [runningOrPending, List.filter_filter]
  apply List.filter_congr
  intro a _
  by_cases h1 : a.clientStatus = .running
  · simp [h1, hr]
  · by_cases h2 : a.clientStatus = .pending
    · simp [h2, hp]
    · simp [h1, h2]

theorem showableSorted_filter (statuses : List ClientStatus) (allocations : List Allocation) :
    showableSorted statuses (allocations.filter (fun a => statuses.contains a.clientStatus))
      = showableSorted statuses allocations := by
  have hcomm : (allocations.filter (fun a => statuses.contains a.clientStatus)).filter
      (fun a => a.clientStatus ≠ .running && a.clientStatus ≠ .pending)
      = (allocations.filter
          (fun a => a.clientStatus ≠ .running && a.clientStatus ≠ .pending)).filter
          (fun a => statuses.contains a.clientStatus) := by
    simp only [List.filter_filter]
    congr 1
    funext a
    rw [Bool.and_comm]
  unfold showableSorted sortedAllocs
  rw [hcomm, ← filter_insertionSort, List.filter_reverse, List.filter_reverse,
    List.filter_filter]
  congr 2
  funext a
  simp

/-! ## Claims -/

/-- C1 (capacity invariant): for a desired count `N ≥ 0` and allocations whose
`clientStatus` is one of running, pending, failed, lost, complete, unknown (none
has the placeholder status `unplaced`), `allocBlocks` returns a block, in
deploying and in steady-state mode, whose arrays hold `N` elements in all
(allocations and placeholders together). In steady-state mode the status list is
one that has the keys `running` and `pending`, which the first loop writes to
without a check. -/
theorem allocBlocks_total_eq_desired (statuses : List ClientStatus) (N : Int)
    (isDeploying : Bool) (allocations : List Allocation)
    (hN : 0 ≤ N)
    (hstatus : ∀ a ∈ allocations, a.clientStatus ≠ .unplaced)
    (hkeys : isDeploying = false → .running ∈ statuses ∧ .pending ∈ statuses) :
    ∃ b, allocBlocks statuses N isDeploying allocations = some b ∧ (b.total : Int) = N := by
  cases isDeploying with
  | true =>
    refine ⟨_, allocBlocks_deploying statuses N allocations, ?_⟩
    rw [total_result]
    · have := length_deployingPlaced_le statuses N allocations hN
      push_cast
      omega
    · intro a ha
      exact (mem_deployingCandidates.mp (mem_of_mem_deployingPlaced ha)).2.2.1
    · intro a ha
      exact hstatus a (mem_deployingCandidates.mp (mem_of_mem_deployingPlaced ha)).1
  | false =>
    obtain ⟨hr, hp⟩ := hkeys rfl
    have hrp : ∀ a ∈ allocations, a.clientStatus = .running ∨ a.clientStatus = .pending →
        a.clientStatus ∈ statuses := by
      intro a _ h
      rcases h with h | h <;> rw [h] <;> assumption
    refine ⟨_, allocBlocks_steady statuses N allocations hrp, ?_⟩
    rw [total_result]
    · have := length_steady_le statuses N allocations hN
      rw [List.length_append]
      push_cast
      omega
    · exact mem_statuses_of_mem_steady _ _ _ hrp
    · intro a ha
      exact hstatus a (mem_allocations_of_mem_steady _ _ _ a ha)

/-- Witness for C1: the sample list in steady-state mode with three slots. -/
theorem allocBlocks_total_eq_desired_witness :
    (0 : Int) ≤ 3 ∧ (∀ a ∈ sampleAllocations, a.clientStatus ≠ .unplaced) ∧
      ∃ b, allocBlocks exampleStatuses 3 false sampleAllocations = some b ∧
        (b.total : Int) = 3 :=
  ⟨by decide, by decide,
    allocBlocks_total_eq_desired exampleStatuses 3 false sampleAllocations (by decide)
      (by decide) (fun _ => ⟨by decide, by decide⟩)⟩

/-- C2, as the code has it: in deploying mode, for every desired count, an
allocation with `willNotRestart = true` and `willNotReschedule = false` is in no
array of the block that `allocBlocks` returns. -/
theorem superseded_not_placed_deploying (statuses : List ClientStatus) (N : Int)
    (allocations : List Allocation) :
    ∃ b, allocBlocks statuses N true allocations = some b ∧
      ∀ a : Allocation, a.willNotRestart = true → a.willNotReschedule = false →
        ∀ s h c, Entry.real a ∉ b.cell s h c := by
  refine ⟨_, allocBlocks_deploying statuses N allocations, ?_⟩
  intro a h1 h2 s h c hmem
  have hp := (real_mem_cell_result _ _ _ _ _ _ _ statuses_of_deployingPlaced a hmem).1
  exact (mem_deployingCandidates.mp (mem_of_mem_deployingPlaced hp)).2.2.2 ⟨h1, h2⟩

/-- Witness for C2 (deploying mode): the superseded failed allocation and its
running replacement, two slots; the failed array stays empty. -/
theorem superseded_not_placed_deploying_witness :
    ∃ b, allocBlocks exampleStatuses 2 true [supersededAlloc, mkAlloc 2 .running 0] = some b ∧
      Entry.real supersededAlloc ∉ b.cell .failed .health_unknown .nonCanary := by
  obtain ⟨b, hb, h⟩ := superseded_not_placed_deploying exampleStatuses 2
    [supersededAlloc, mkAlloc 2 .running 0]
  exact ⟨b, hb, h supersededAlloc rfl rfl _ _ _⟩

/-- Counterexample to C2 as stated: in steady-state mode, with two slots, the
superseded failed allocation is pushed to `failed.healthy.nonCanary` next to its
running replacement. -/
theorem superseded_placed_steady :
    supersededAlloc.willNotRestart = true ∧ supersededAlloc.willNotReschedule = false ∧
      ∃ b, allocBlocks exampleStatuses 2 false [supersededAlloc, mkAlloc 2 .running 0] = some b ∧
        Entry.real supersededAlloc ∈ b.cell .failed .healthy .nonCanary ∧
        Entry.real (mkAlloc 2 .running 0) ∈ b.cell .running .healthy .nonCanary :=
  ⟨rfl, rfl, _, rfl, by decide, by decide⟩

/-- C3: in deploying mode with desired count `N` (its slots are `N.toNat`, so
`N` itself when `N ≥ 0`; allocation statuses as in the data model, none
`unplaced`), let `E` be the input restricted to allocations with
`isOld = false`, status in the status list and not (`willNotRestart` and not
`willNotReschedule`). Every array `[s][h][c]` of the result holds, in order, the
allocations among the first `min N |E|` elements of `E` whose status is `s`, whose
health key is `h` and whose canary key is `c`; the block holds `min N |E|`
allocations in all. -/
theorem deploying_places_first (statuses : List ClientStatus) (N : Int)
    (allocations : List Allocation)
    (hstatus : ∀ a ∈ allocations, a.clientStatus ≠ .unplaced) :
    ∃ b, allocBlocks statuses N true allocations = some b ∧
      (∀ s h c, reals (b.cell s h c)
        = ((allocations.filter (fun a => !a.isOld && statuses.contains a.clientStatus &&
              !(a.willNotRestart && !a.willNotReschedule))).take N.toNat).filter
            (fun a => decide (a.clientStatus = s ∧ healthOf a = h ∧ canaryOf a = c))) ∧
      b.realCount = min N.toNat (allocations.filter (fun a => !a.isOld &&
        statuses.contains a.clientStatus &&
          !(a.willNotRestart && !a.willNotReschedule))).length := by
  have hE : allocations.filter (fun a => !a.isOld && statuses.contains a.clientStatus &&
      !(a.willNotRestart && !a.willNotReschedule)) = deployingCandidates statuses allocations := by
    simp only [deployingCandidates, List.filter_filter]
    congr 1
    funext a
    cases a.isOld <;> simp
  have hu : ∀ a ∈ deployingPlaced statuses N allocations, a.clientStatus ≠ .unplaced := by
    intro a ha
    exact hstatus a (mem_deployingCandidates.mp (mem_of_mem_deployingPlaced ha)).1
  refine ⟨_, allocBlocks_deploying statuses N allocations, ?_, ?_⟩
  · intro s h c
    rw [reals_cell_result _ _ _ _ _ _ _ statuses_of_deployingPlaced (fun _ => hu), hE]
    rfl
  · rw [realCount_result _ _ _ _ statuses_of_deployingPlaced hu, hE]
    simp [deployingPlaced, List.length_take]

/-- Witness for C3: the sample list with three slots. -/
theorem deploying_places_first_witness :
    (∀ a ∈ sampleAllocations, a.clientStatus ≠ .unplaced) ∧
    ∃ b, allocBlocks exampleStatuses 3 true sampleAllocations = some b ∧
      (∀ s h c, reals (b.cell s h c)
        = ((sampleAllocations.filter (fun a => !a.isOld &&
              exampleStatuses.contains a.clientStatus &&
              !(a.willNotRestart && !a.willNotReschedule))).take (3 : Int).toNat).filter
            (fun a => decide (a.clientStatus = s ∧ healthOf a = h ∧ canaryOf a = c))) ∧
      b.realCount = min (3 : Int).toNat (sampleAllocations.filter (fun a => !a.isOld &&
        exampleStatuses.contains a.clientStatus &&
          !(a.willNotRestart && !a.willNotReschedule))).length :=
  ⟨by decide, deploying_places_first exampleStatuses 3 sampleAllocations (by decide)⟩

/-- C4: in steady-state mode with `N ≥ 0` (status list with the keys `running`
and `pending`), for `s` running or pending the array `[s].healthy.nonCanary`
holds, in input order, the allocations of status `s` among the first `min N k`
running-or-pending allocations of the input, the other five arrays of `s` are
empty; and when `N ≤ k` (as for `N = 10` with 5 running and 5 pending) no array
of `unplaced` has an element. -/
theorem steady_running_pending_first (statuses : List ClientStatus) (N : Int)
    (allocations : List Allocation) (hN : 0 ≤ N)
    (hr : .running ∈ statuses) (hp : .pending ∈ statuses) :
    ∃ b, allocBlocks statuses N false allocations = some b ∧
      (∀ s, s = .running ∨ s = .pending →
        b.cell s .healthy .nonCanary
          = ((((allocations.filter
                (fun a => a.clientStatus = .running || a.clientStatus = .pending)).take
                  N.toNat).filter (fun a => decide (a.clientStatus = s))).map Entry.real) ∧
        ∀ h c, ¬ (h = .healthy ∧ c = .nonCanary) → b.cell s h c = []) ∧
      (N ≤ ((allocations.filter
          (fun a => a.clientStatus = .running || a.clientStatus = .pending)).length : Int) →
        ∀ h c, b.cell .unplaced h c = []) := by
  have hrp := keys_of_mem statuses allocations hr hp
  have hk := mem_statuses_of_mem_steady statuses N allocations hrp
  refine ⟨_, allocBlocks_steady statuses N allocations hrp, ?_, ?_⟩
  · intro s hs
    have hsu : ¬ (0 < N - ((steadyFirst N allocations).length : Int)
        - ((steadyOthers statuses N allocations).length : Int) ∧ s = .unplaced) := by
      rintro ⟨_, h⟩
      rcases hs with h1 | h1 <;> rw [h1] at h <;> cases h
    constructor
    · rw [cell_result _ _ _ _ _ _ _ hk, if_neg hsu, List.filter_append,
        filter_inBucket_steadyOthers _ _ _ _ hs, List.append_nil, filter_inBucket_steady_main,
        steadyFirst_of_nonneg _ _ hN]
      rfl
    · intro h c hc
      rw [cell_result _ _ _ _ _ _ _ hk, if_neg hsu, filter_inBucket_steady_side _ _ _ _ hc]
      rfl
  · intro hle h c
    have hfirst : ((steadyFirst N allocations).length : Int) = N := by
      rw [steadyFirst_of_nonneg _ _ hN, List.length_take]
      unfold runningOrPending
      omega
    have hsu : ¬ (0 < N - ((steadyFirst N allocations).length : Int)
        - ((steadyOthers statuses N allocations).length : Int) ∧
          ClientStatus.unplaced = .unplaced) := by
      rintro ⟨h1, _⟩
      omega
    have hoth : steadyOthers statuses N allocations = [] := by
      unfold steadyOthers
      rw [hfirst]
      simp
    rw [cell_result _ _ _ _ _ _ _ hk, if_neg hsu, hoth, List.append_nil,
      filter_inBucket_steadyFirst _ _ _ (by decide) (by decide)]
    rfl

/-- Witness for C4: the scenario `N = 10` with five running and five pending
allocations gives five and five and no unplaced element. -/
theorem steady_running_pending_first_witness :
    (0 : Int) ≤ 10 ∧ ClientStatus.running ∈ exampleStatuses ∧
      ClientStatus.pending ∈ exampleStatuses ∧
      ∃ b, allocBlocks exampleStatuses 10 false fiveAndFive = some b ∧
        (b.cell .running .healthy .nonCanary).length = 5 ∧
        (b.cell .pending .healthy .nonCanary).length = 5 ∧
        ∀ h c, b.cell .unplaced h c = [] := by
  refine ⟨by decide, by decide, by decide, ?_⟩
  obtain ⟨b, hb, h1, h2⟩ := steady_running_pending_first exampleStatuses 10 fiveAndFive
    (by decide) (by decide) (by decide)
  refine ⟨b, hb, ?_, ?_, h2 (by decide)⟩
  · rw [(h1 .running (Or.inl rfl)).1]; decide
  · rw [(h1 .pending (Or.inr rfl)).1]; decide

/-- C5: in steady-state mode with `N ≥ 0` (status list with the keys `running`
and `pending`, allocation statuses as in the data model), let `placed` be the
first `N - min N k` elements of `sortedAllocs` whose status is in the status
list. For every status `s` other than running and pending the array
`[s].healthy.nonCanary` holds the allocations of `placed` with status `s`, in
that order; `placed` is sorted by job version descending and, within a version,
by index in the status list ascending; and a showable allocation that is neither
running nor pending and was not placed never comes strictly before a placed one
in that order. -/
theorem steady_others_order (statuses : List ClientStatus) (N : Int)
    (allocations : List Allocation) (hN : 0 ≤ N)
    (hr : .running ∈ statuses) (hp : .pending ∈ statuses)
    (hstatus : ∀ a ∈ allocations, a.clientStatus ≠ .unplaced) :
    ∃ b placed, allocBlocks statuses N false allocations = some b ∧
      placed = ((sortedAllocs statuses allocations).filter
          (fun a => statuses.contains a.clientStatus)).take
          (N.toNat - (allocations.filter
            (fun a => a.clientStatus = .running || a.clientStatus = .pending)).length) ∧
      (∀ s, s ≠ .running → s ≠ .pending →
        reals (b.cell s .healthy .nonCanary)
          = placed.filter (fun a => decide (a.clientStatus = s))) ∧
      placed.Pairwise (fun a a' => a.jobVersion > a'.jobVersion ∨
        (a.jobVersion = a'.jobVersion ∧
          indexOf statuses a.clientStatus ≤ indexOf statuses a'.clientStatus)) ∧
      (∀ a x, Entry.real a ∈ b.cell a.clientStatus .healthy .nonCanary →
        a.clientStatus ≠ .running → a.clientStatus ≠ .pending →
        x ∈ allocations → x.clientStatus ≠ .running → x.clientStatus ≠ .pending →
        x.clientStatus ∈ statuses →
        Entry.real x ∉ b.cell x.clientStatus .healthy .nonCanary →
        ¬ (x.jobVersion > a.jobVersion ∨
          (x.jobVersion = a.jobVersion ∧
            indexOf statuses x.clientStatus < indexOf statuses a.clientStatus))) := by
  have hrp := keys_of_mem statuses allocations hr hp
  have hk := mem_statuses_of_mem_steady statuses N allocations hrp
  have hu : ∀ a ∈ steadyFirst N allocations ++ steadyOthers statuses N allocations,
      a.clientStatus ≠ .unplaced :=
    fun a ha => hstatus a (mem_allocations_of_mem_steady _ _ _ a ha)
  refine ⟨_, steadyOthers statuses N allocations, allocBlocks_steady statuses N allocations hrp,
    steadyOthers_eq statuses N allocations hN, ?_, ?_, ?_⟩
  · intro s h1 h2
    rw [reals_cell_result _ _ _ _ _ _ _ hk (fun _ => hu), List.filter_append,
      filter_inBucket_steadyFirst _ _ _ h1 h2, List.nil_append, filter_inBucket_steady_main]
  · have hpw := (pairwise_showableSorted statuses allocations).sublist
      (List.take_sublist (N - ((steadyFirst N allocations).length : Int)).toNat _)
    refine hpw.imp ?_
    intro a a' hle
    rw [allocLE_iff] at hle
    omega
  · intro a x ha ha1 ha2 hx hx1 hx2 hx3 hxn
    have hain := mem_steadyOthers_of_real_mem_cell statuses N allocations hrp a _ _ _ ha ha1 ha2
    have hxF : x ∈ showableSorted statuses allocations :=
      mem_showableSorted.mpr ⟨hx, hx1, hx2, hx3⟩
    have hxnot : x ∉ steadyOthers statuses N allocations := fun hxin =>
      hxn (real_mem_cell_of_mem_steadyOthers statuses N allocations hrp x hxin (hstatus x hx))
    have hsplit := List.take_append_drop
      (N - ((steadyFirst N allocations).length : Int)).toNat (showableSorted statuses allocations)
    have hxdrop : x ∈ (showableSorted statuses allocations).drop
        (N - ((steadyFirst N allocations).length : Int)).toNat := by
      rw [← hsplit] at hxF
      rcases List.mem_append.mp hxF with h | h
      · exact absurd h hxnot
      · exact h
    have hpw := pairwise_showableSorted statuses allocations
    rw [← hsplit, List.pairwise_append] at hpw
    have hle := hpw.2.2 a hain x hxdrop
    rw [allocLE_iff] at hle
    omega

/-- Witness for C5: the sample list with three slots; two go to the running and
the pending allocation, the third to the failed allocation of the newest
version. -/
theorem steady_others_order_witness :
    (0 : Int) ≤ 3 ∧ ClientStatus.running ∈ exampleStatuses ∧
      ClientStatus.pending ∈ exampleStatuses ∧
      (∀ a ∈ sampleAllocations, a.clientStatus ≠ .unplaced) ∧
      ∃ b, allocBlocks exampleStatuses 3 false sampleAllocations = some b ∧
        reals (b.cell .failed .healthy .nonCanary) = [mkAlloc 6 .failed 1] ∧
        reals (b.cell .lost .healthy .nonCanary) = [] := by
  refine ⟨by decide, by decide, by decide, by decide, ?_⟩
  obtain ⟨b, placed, hb, hpl, hcell, _, _⟩ := steady_others_order exampleStatuses 3
    sampleAllocations (by decide) (by decide) (by decide) (by decide)
  refine ⟨b, hb, ?_, ?_⟩
  · rw [hcell .failed (by decide) (by decide), hpl]; decide
  · rw [hcell .lost (by decide) (by decide), hpl]; decide

/-- C6, as the code has it: in steady-state mode (status list with the keys
`running` and `pending`), two allocations that stand in this order in the
running or the pending array stand in this order in the input; two allocations
of equal job version that stand in this order in the array of another status
stand in the opposite order in the input, because `reverse` follows the stable
sort. -/
theorem steady_tie_order (statuses : List ClientStatus) (N : Int)
    (allocations : List Allocation)
    (hr : .running ∈ statuses) (hp : .pending ∈ statuses) :
    ∃ b, allocBlocks statuses N false allocations = some b ∧
      (∀ s a₁ a₂, s = .running ∨ s = .pending →
        List.Sublist [Entry.real a₁, Entry.real a₂] (b.cell s .healthy .nonCanary) →
        List.Sublist [a₁, a₂] allocations) ∧
      (∀ s a₁ a₂, s ≠ .running → s ≠ .pending → a₁.jobVersion = a₂.jobVersion →
        List.Sublist [Entry.real a₁, Entry.real a₂] (b.cell s .healthy .nonCanary) →
        List.Sublist [a₂, a₁] allocations) := by
  have hrp := keys_of_mem statuses allocations hr hp
  have hk := mem_statuses_of_mem_steady statuses N allocations hrp
  refine ⟨_, allocBlocks_steady statuses N allocations hrp, ?_, ?_⟩
  · intro s a₁ a₂ hs hsub
    have h1 := (hsub.filterMap Entry.allocation?).trans
      (reals_cell_result_sublist _ _ _ _ _ _ _ hk)
    rw [List.filter_append, filter_inBucket_steadyOthers _ _ _ _ hs, List.append_nil] at h1
    exact (h1.trans (List.filter_sublist _)).trans (steadyFirst_sublist _ _)
  · intro s a₁ a₂ hs1 hs2 hv hsub
    have h1 := (hsub.filterMap Entry.allocation?).trans
      (reals_cell_result_sublist _ _ _ _ _ _ _ hk)
    rw [List.filter_append, filter_inBucket_steadyFirst _ _ _ hs1 hs2, List.nil_append] at h1
    have hm₁ : a₁ ∈ (steadyOthers statuses N allocations).filter
        (inBucket steadySlot s .healthy .nonCanary) :=
      h1.subset (by simp [Entry.allocation?])
    have hm₂ : a₂ ∈ (steadyOthers statuses N allocations).filter
        (inBucket steadySlot s .healthy .nonCanary) :=
      h1.subset (by simp [Entry.allocation?])
    have hs₁ : a₁.clientStatus = s := by
      have := (List.mem_filter.mp hm₁).2
      simp only [inBucket, decide_eq_true_eq] at this
      exact this.1
    have hs₂ : a₂.clientStatus = s := by
      have := (List.mem_filter.mp hm₂).2
      simp only [inBucket, decide_eq_true_eq] at this
      exact this.1
    have h2 : List.Sublist [a₁, a₂] (sortedAllocs statuses allocations) :=
      (h1.trans (List.filter_sublist _)).trans (steadyOthers_sublist _ _ _)
    exact pair_sublist_of_sortedAllocs statuses allocations a₁ a₂ hv (hs₁.trans hs₂.symm) h2

/-- Witness for C6 (as the code has it): two failed allocations of one version,
two slots; the array has them in the order 2, 1, the input in the order 1, 2. -/
theorem steady_tie_order_witness :
    ClientStatus.running ∈ exampleStatuses ∧ ClientStatus.pending ∈ exampleStatuses ∧
      ∃ b, allocBlocks exampleStatuses 2 false [mkAlloc 1 .failed 0, mkAlloc 2 .failed 0]
          = some b ∧
        List.Sublist [Entry.real (mkAlloc 2 .failed 0), Entry.real (mkAlloc 1 .failed 0)]
          (b.cell .failed .healthy .nonCanary) ∧
        List.Sublist [mkAlloc 1 .failed 0, mkAlloc 2 .failed 0]
          [mkAlloc 1 .failed 0, mkAlloc 2 .failed 0] := by
  refine ⟨by decide, by decide, ?_⟩
  obtain ⟨b, hb, _, h2⟩ := steady_tie_order exampleStatuses 2
    [mkAlloc 1 .failed 0, mkAlloc 2 .failed 0] (by decide) (by decide)
  have hb' := hb
  rw [show allocBlocks exampleStatuses 2 false [mkAlloc 1 .failed 0, mkAlloc 2 .failed 0]
    = some (fillUnplaced (placeAll steadySlot (initBlocks exampleStatuses)
        [mkAlloc 2 .failed 0, mkAlloc 1 .failed 0]) 0) from by decide] at hb'
  have hsub : List.Sublist [Entry.real (mkAlloc 2 .failed 0), Entry.real (mkAlloc 1 .failed 0)]
      (b.cell .failed .healthy .nonCanary) := by
    rw [← Option.some.inj hb']
    exact List.Sublist.refl _
  exact ⟨b, hb, hsub, h2 .failed _ _ (by decide) (by decide) rfl hsub⟩

/-- Counterexample to C6 as stated: two failed allocations of one job version,
in the input in the order 1, 2, are in `failed.healthy.nonCanary` in the order
2, 1. -/
theorem steady_ties_reversed :
    ∃ b, allocBlocks exampleStatuses 2 false [mkAlloc 1 .failed 0, mkAlloc 2 .failed 0]
        = some b ∧
      b.cell .failed .healthy .nonCanary
        = [Entry.real (mkAlloc 2 .failed 0), Entry.real (mkAlloc 1 .failed 0)] ∧
      (mkAlloc 1 .failed 0).jobVersion = (mkAlloc 2 .failed 0).jobVersion ∧
      indexOf exampleStatuses (mkAlloc 1 .failed 0).clientStatus
        = indexOf exampleStatuses (mkAlloc 2 .failed 0).clientStatus :=
  ⟨_, rfl, by decide, rfl, rfl⟩

/-- C7: in steady-state mode with `N ≥ 0` (status list with the keys `running`
and `pending`, allocation statuses as in the data model), with `k` running or
pending allocations and `m` allocations of another status that is in the status
list, the block holds exactly `min (N - min N k) m` allocations that are neither
running nor pending; and if it holds one at all, then `k < N` and the running
and the pending array hold every running and every pending allocation of the
input. -/
theorem steady_shared_capacity (statuses : List ClientStatus) (N : Int)
    (allocations : List Allocation) (hN : 0 ≤ N)
    (hr : .running ∈ statuses) (hp : .pending ∈ statuses)
    (hstatus : ∀ a ∈ allocations, a.clientStatus ≠ .unplaced) :
    ∃ b, allocBlocks statuses N false allocations = some b ∧
      (b.otherCount : Int)
        = min (N - min N ((allocations.filter
              (fun a => a.clientStatus = .running || a.clientStatus = .pending)).length : Int))
            ((allocations.filter (fun a => a.clientStatus ≠ .running &&
              a.clientStatus ≠ .pending && statuses.contains a.clientStatus)).length : Int) ∧
      (0 < b.otherCount →
        ((allocations.filter
          (fun a => a.clientStatus = .running || a.clientStatus = .pending)).length : Int) < N ∧
        ∀ s, s = .running ∨ s = .pending →
          b.cell s .healthy .nonCanary
            = (allocations.filter (fun a => decide (a.clientStatus = s))).map Entry.real) := by
  have hrp := keys_of_mem statuses allocations hr hp
  have hcount := otherCount_steady statuses N allocations hrp hstatus
  have hlen : ((steadyOthers statuses N allocations).length : Int)
      = min (N - min N ((runningOrPending allocations).length : Int))
          ((allocations.filter (fun a => a.clientStatus ≠ .running &&
            a.clientStatus ≠ .pending && statuses.contains a.clientStatus)).length : Int) := by
    unfold steadyOthers
    rw [List.length_take, length_showableSorted, steadyFirst_of_nonneg _ _ hN, List.length_take]
    omega
  refine ⟨_, allocBlocks_steady statuses N allocations hrp, ?_, ?_⟩
  · rw [hcount, hlen]
    rfl
  · intro hpos
    rw [hcount] at hpos
    have hk : ((runningOrPending allocations).length : Int) < N := by omega
    refine ⟨hk, ?_⟩
    intro s hs
    rw [cell_steady_running_pending statuses N allocations hN hrp s hs,
      List.take_of_length_le (by omega)]
    unfold runningOrPending
    rw [List.filter_filter]
    congr 2
    funext a
    rcases hs with h | h <;> subst h <;> cases a.clientStatus <;> rfl

/-- Witness for C7: the sample list with three slots: two running or pending,
three showable others, one of them placed. -/
theorem steady_shared_capacity_witness :
    (0 : Int) ≤ 3 ∧ ClientStatus.running ∈ exampleStatuses ∧
      ClientStatus.pending ∈ exampleStatuses ∧
      (∀ a ∈ sampleAllocations, a.clientStatus ≠ .unplaced) ∧
      ∃ b, allocBlocks exampleStatuses 3 false sampleAllocations = some b ∧
        (b.otherCount : Int) = 1 := by
  refine ⟨by decide, by decide, by decide, by decide, ?_⟩
  obtain ⟨b, hb, hcount, _⟩ := steady_shared_capacity exampleStatuses 3 sampleAllocations
    (by decide) (by decide) (by decide) (by decide)
  refine ⟨b, hb, ?_⟩
  rw [hcount]
  decide

/-- C8: in both modes and for every desired count (in steady-state mode with a
status list that has the keys `running` and `pending`), `allocBlocks` of an
allocation list equals `allocBlocks` of the list without the allocations whose
status is not in the status list, and no such allocation is in any array of the
result. -/
theorem unlisted_status_ignored (statuses : List ClientStatus) (N : Int) (isDeploying : Bool)
    (allocations : List Allocation)
    (hkeys : isDeploying = false → .running ∈ statuses ∧ .pending ∈ statuses) :
    allocBlocks statuses N isDeploying allocations
        = allocBlocks statuses N isDeploying
            (allocations.filter (fun a => statuses.contains a.clientStatus)) ∧
      ∃ b, allocBlocks statuses N isDeploying allocations = some b ∧
        ∀ a : Allocation, a.clientStatus ∉ statuses → ∀ s h c, Entry.real a ∉ b.cell s h c := by
  cases isDeploying with
  | true =>
    refine ⟨?_, _, allocBlocks_deploying statuses N allocations, ?_⟩
    · rw [allocBlocks_deploying, allocBlocks_deploying]
      simp only [deployingPlaced, deployingCandidates_filter]
    · intro a ha s h c hmem
      have := (real_mem_cell_result _ _ _ _ _ _ _ statuses_of_deployingPlaced a hmem).1
      exact ha (statuses_of_deployingPlaced a this)
  | false =>
    obtain ⟨hr, hp⟩ := hkeys rfl
    have hrp := keys_of_mem statuses allocations hr hp
    have hrp' := keys_of_mem statuses
      (allocations.filter (fun a => statuses.contains a.clientStatus)) hr hp
    refine ⟨?_, _, allocBlocks_steady statuses N allocations hrp, ?_⟩
    · rw [allocBlocks_steady _ _ _ hrp, allocBlocks_steady _ _ _ hrp']
      simp only [steadyFirst, steadyOthers, runningOrPending_filter _ _ hr hp,
        showableSorted_filter]
    · intro a ha s h c hmem
      have hk := mem_statuses_of_mem_steady statuses N allocations hrp
      have := (real_mem_cell_result _ _ _ _ _ _ _ hk a hmem).1
      exact ha (hk a this)

/-- Witness for C8: the sample list, whose allocation 3 has the status `unknown`,
in steady-state mode with six slots: five allocations are placed and the slot
the sixth would have taken is a placeholder. -/
theorem unlisted_status_ignored_witness :
    ClientStatus.running ∈ exampleStatuses ∧ ClientStatus.pending ∈ exampleStatuses ∧
      (mkAlloc 3 .unknown 1) ∈ sampleAllocations ∧
      allocBlocks exampleStatuses 6 false sampleAllocations
        = allocBlocks exampleStatuses 6 false
            (sampleAllocations.filter (fun a => exampleStatuses.contains a.clientStatus)) ∧
      ∃ b, allocBlocks exampleStatuses 6 false sampleAllocations = some b ∧
        b.cell .unplaced .healthy .nonCanary = [Entry.placeholder] := by
  refine ⟨by decide, by decide, by decide, ?_⟩
  have h := unlisted_status_ignored exampleStatuses 6 false sampleAllocations
    (fun _ => ⟨by decide, by decide⟩)
  exact ⟨h.1, _, rfl, by decide⟩

/-- C9: in both modes with `N ≥ 0` (allocation statuses as in the data model; in
steady-state mode a status list with the keys `running` and `pending`), if `R`,
which is `N` minus the number of allocations in the block, is positive, then
`unplaced.healthy.nonCanary` is `R` placeholders and the other five arrays of
`unplaced` are empty; with an empty allocation list `unplaced.healthy.nonCanary`
is `N` placeholders and every other array is empty. -/
theorem unplaced_fill (statuses : List ClientStatus) (N : Int) (isDeploying : Bool)
    (allocations : List Allocation) (hN : 0 ≤ N)
    (hstatus : ∀ a ∈ allocations, a.clientStatus ≠ .unplaced)
    (hkeys : isDeploying = false → .running ∈ statuses ∧ .pending ∈ statuses) :
    ∃ b, allocBlocks statuses N isDeploying allocations = some b ∧
      (0 < N - (b.realCount : Int) →
        b.cell .unplaced .healthy .nonCanary
            = List.replicate (N - (b.realCount : Int)).toNat Entry.placeholder ∧
          (∀ e ∈ b.cell .unplaced .healthy .nonCanary, e.clientStatus = .unplaced) ∧
          ∀ h c, ¬ (h = .healthy ∧ c = .nonCanary) → b.cell .unplaced h c = []) ∧
      (allocations = [] →
        b.cell .unplaced .healthy .nonCanary = List.replicate N.toNat Entry.placeholder ∧
          ∀ s h c, ¬ (s = .unplaced ∧ h = .healthy ∧ c = .nonCanary) → b.cell s h c = []) := by
  have key : ∀ (slot : Slot) (placed : List Allocation),
      (∀ a ∈ placed, a.clientStatus ∈ statuses) → (∀ a ∈ placed, a ∈ allocations) →
      ∀ b, b = fillUnplaced (placeAll slot (initBlocks statuses) placed)
          (N - (placed.length : Int)) →
      (0 < N - (b.realCount : Int) →
        b.cell .unplaced .healthy .nonCanary
            = List.replicate (N - (b.realCount : Int)).toNat Entry.placeholder ∧
          (∀ e ∈ b.cell .unplaced .healthy .nonCanary, e.clientStatus = .unplaced) ∧
          ∀ h c, ¬ (h = .healthy ∧ c = .nonCanary) → b.cell .unplaced h c = []) ∧
      (allocations = [] →
        b.cell .unplaced .healthy .nonCanary = List.replicate N.toNat Entry.placeholder ∧
          ∀ s h c, ¬ (s = .unplaced ∧ h = .healthy ∧ c = .nonCanary) → b.cell s h c = []) := by
    intro slot placed hk hsub b hb
    have hu : ∀ a ∈ placed, a.clientStatus ≠ .unplaced := fun a ha => hstatus a (hsub a ha)
    have hreal : b.realCount = placed.length := by
      rw [hb]; exact realCount_result _ _ _ _ hk hu
    have hcell : ∀ s h c, b.cell s h c
        = if 0 < N - (placed.length : Int) ∧ s = .unplaced then
            (if h = .healthy ∧ c = .nonCanary then
              List.replicate (N - (placed.length : Int)).toNat Entry.placeholder
             else [])
          else (placed.filter (inBucket slot s h c)).map Entry.real := by
      intro s h c
      rw [hb]; exact cell_result _ _ _ _ _ _ _ hk
    constructor
    · intro hpos
      rw [hreal] at hpos ⊢
      have hmain : b.cell .unplaced .healthy .nonCanary
          = List.replicate (N - (placed.length : Int)).toNat Entry.placeholder := by
        rw [hcell]; simp [hpos]
      refine ⟨hmain, ?_, ?_⟩
      · intro e he
        rw [hmain] at he
        rw [List.eq_of_mem_replicate he]
        rfl
      · intro h c hc
        rw [hcell]; simp [hpos, hc]
    · intro hnil
      have hpl : placed = [] := by
        apply List.eq_nil_iff_forall_not_mem.mpr
        intro a ha
        have := hsub a ha
        rw [hnil] at this
        exact absurd this (List.not_mem_nil a)
      subst hpl
      constructor
      · rw [hcell]
        by_cases hpos : 0 < N
        · simp [hpos]
        · have hz : N.toNat = 0 := by omega
          simp [hpos, hz]
      · intro s h c hc
        rw [hcell]
        by_cases hs : s = .unplaced
        · have hc' : ¬ (h = .healthy ∧ c = .nonCanary) := fun hx => hc ⟨hs, hx⟩
          simp [hc']
        · simp [hs]
  cases isDeploying with
  | true =>
    exact ⟨_, allocBlocks_deploying statuses N allocations,
      key deployingSlot _ statuses_of_deployingPlaced
        (fun a ha => (mem_deployingCandidates.mp (mem_of_mem_deployingPlaced ha)).1) _ rfl⟩
  | false =>
    obtain ⟨hr, hp⟩ := hkeys rfl
    have hrp := keys_of_mem statuses allocations hr hp
    refine ⟨_, allocBlocks_steady statuses N allocations hrp,
      key steadySlot _ (mem_statuses_of_mem_steady statuses N allocations hrp)
        (mem_allocations_of_mem_steady statuses N allocations) _ ?_⟩
    rw [List.length_append]
    push_cast
    rw [Int.sub_sub]

/-- Witness for C9: ten slots and no allocation give ten placeholders in
`unplaced.healthy.nonCanary`. -/
theorem unplaced_fill_witness :
    (0 : Int) ≤ 10 ∧ (∀ a ∈ ([] : List Allocation), a.clientStatus ≠ .unplaced) ∧
      ClientStatus.running ∈ exampleStatuses ∧ ClientStatus.pending ∈ exampleStatuses ∧
      ∃ b, allocBlocks exampleStatuses 10 false [] = some b ∧
        b.cell .unplaced .healthy .nonCanary = List.replicate 10 Entry.placeholder ∧
        ∀ s h c, ¬ (s = .unplaced ∧ h = .healthy ∧ c = .nonCanary) → b.cell s h c = [] := by
  refine ⟨by decide, by decide, by decide, by decide, ?_⟩
  obtain ⟨b, hb, _, h2⟩ := unplaced_fill exampleStatuses 10 false [] (by decide) (by decide)
    (fun _ => ⟨by decide, by decide⟩)
  exact ⟨b, hb, (h2 rfl).1, (h2 rfl).2⟩

/-- C10: in deploying mode, for every desired count, an allocation found in an
array `[s][h][c]` of the result has `h = healthy` exactly when it is running with
`isHealthy`, `h = unhealthy` exactly when it is running, not `isHealthy`, and
`isUnhealthy`, and `h = health_unknown` in every other case; so an allocation
that is not running is in `health_unknown` whatever its health flags are. -/
theorem deploying_health_bucket (statuses : List ClientStatus) (N : Int)
    (allocations : List Allocation) :
    ∃ b, allocBlocks statuses N true allocations = some b ∧
      ∀ (a : Allocation) (s : ClientStatus) (h : Health) (c : Canary),
        Entry.real a ∈ b.cell s h c →
        (h = .healthy ↔ a.clientStatus = .running ∧ a.isHealthy = true) ∧
        (h = .unhealthy ↔
          a.clientStatus = .running ∧ a.isHealthy = false ∧ a.isUnhealthy = true) ∧
        (h = .health_unknown ↔
          ¬ (a.clientStatus = .running ∧ (a.isHealthy = true ∨ a.isUnhealthy = true))) ∧
        (a.clientStatus ≠ .running → h = .health_unknown) := by
  refine ⟨_, allocBlocks_deploying statuses N allocations, ?_⟩
  intro a s h c hmem
  have hh := (real_mem_cell_result _ _ _ _ _ _ _ statuses_of_deployingPlaced a hmem).2.2.1
  simp only [deployingSlot] at hh
  subst hh
  unfold healthOf
  by_cases h1 : a.clientStatus = .running
  · by_cases h2 : a.isHealthy = true
    · simp [h1, h2]
    · by_cases h3 : a.isUnhealthy = true
      · simp [h1, h2, h3]
      · simp [h1, h2, h3]
  · simp [h1]

/-- Witness for C10: a pending allocation whose `isHealthy` flag is set is placed
in `pending.health_unknown.nonCanary`. -/
theorem deploying_health_bucket_witness :
    stalePending.isHealthy = true ∧
      ∃ b, allocBlocks exampleStatuses 2 true [stalePending] = some b ∧
        Entry.real stalePending ∈ b.cell .pending .health_unknown .nonCanary ∧
        ((Health.health_unknown = .healthy ↔
          stalePending.clientStatus = .running ∧ stalePending.isHealthy = true)) := by
  obtain ⟨b, hb, h⟩ := deploying_health_bucket exampleStatuses 2 [stalePending]
  have hmem : Entry.real stalePending ∈ b.cell .pending .health_unknown .nonCanary := by
    have hb' := hb
    rw [show allocBlocks exampleStatuses 2 true [stalePending]
      = some (fillUnplaced (placeAll deployingSlot (initBlocks exampleStatuses)
          [stalePending]) 1) from by decide] at hb'
    rw [← Option.some.inj hb']
    decide
  exact ⟨rfl, b, hb, hmem, (h stalePending _ _ _ hmem).1⟩

/-! ## Further facts about the result -/

theorem mem_cell_result (slot : Slot) (statuses : List ClientStatus)
    (placed : List Allocation) (slots : Int) (s : ClientStatus) (h : Health) (c : Canary)
    (hk : ∀ a ∈ placed, a.clientStatus ∈ statuses) (e : Entry)
    (he : e ∈ (fillUnplaced (placeAll slot (initBlocks statuses) placed) slots).cell s h c) :
    (e = Entry.placeholder ∧ s = .unplaced ∧ h = .healthy ∧ c = .nonCanary) ∨
      ∃ a, e = Entry.real a ∧ a ∈ placed ∧ a.clientStatus = s ∧
        (slot a).1 = h ∧ (slot a).2 = c := by
  cases e with
  | placeholder =>
    left
    rw [cell_result _ _ _ _ _ _ _ hk] at he
    split at he
    · rename_i hfill
      split at he
      · rename_i hhc
        exact ⟨rfl, hfill.2, hhc.1, hhc.2⟩
      · simp at he
    · simp at he
  | real a =>
    right
    exact ⟨a, rfl, real_mem_cell_result _ _ _ _ _ _ _ hk a he⟩

theorem isSome_lookup_fillUnplaced (b : AllocationBlock) (slots : Int) (s : ClientStatus)
    (h : (b.lookup s).isSome) : ((fillUnplaced b slots).lookup s).isSome := by
  unfold fillUnplaced
  split
  · rw [lookup_assign]
    split
    · rfl
    · exact h
  · exact h

theorem isSome_lookup_result (slot : Slot) (statuses : List ClientStatus)
    (placed : List Allocation) (slots : Int) (s : ClientStatus) (hs : s ∈ statuses) :
    ((fillUnplaced (placeAll slot (initBlocks statuses) placed) slots).lookup s).isSome := by
  apply isSome_lookup_fillUnplaced
  rw [lookup_placeAll_isSome, isSome_lookup_initBlocks]
  simpa using hs

theorem steadyPass1_zero (l : List Allocation) (b : AllocationBlock) :
    steadyPass1 l b 0 = some (b, 0) := by
  cases l <;> simp [steadyPass1]

theorem steadyPass2_zero (statuses : List ClientStatus) (total : Int) (l : List Allocation)
    (b : AllocationBlock) : steadyPass2 statuses total l b 0 = some (b, 0) := by
  cases l <;> simp [steadyPass2]

theorem allocBlocks_zero (statuses : List ClientStatus) (isDeploying : Bool)
    (allocations : List Allocation) :
    allocBlocks statuses 0 isDeploying allocations = some (initBlocks statuses) := by
  cases isDeploying with
  | true =>
    rw [allocBlocks_deploying]
    simp [deployingPlaced, placeAll, fillUnplaced]
  | false =>
    simp [allocBlocks, steadyPass1_zero, steadyPass2_zero, fillUnplaced]

/-! ## Claims on the shape of the block -/

/-- C11: in deploying mode, for every desired count, an allocation found in an
array `[s][h][c]` of the result has `c = canary` exactly when its `isCanary` flag
is set; so for every status the three canary arrays together hold as many
elements as there are allocations with `isCanary` under that status, and they
are all empty when no allocation of the input is a canary. -/
theorem deploying_canary_bucket (statuses : List ClientStatus) (N : Int)
    (allocations : List Allocation) :
    ∃ b, allocBlocks statuses N true allocations = some b ∧
      (∀ (a : Allocation) (s : ClientStatus) (h : Health) (c : Canary),
        Entry.real a ∈ b.cell s h c → (c = .canary ↔ a.isCanary = true)) ∧
      (∀ s, (b.cell s .healthy .canary).length + (b.cell s .unhealthy .canary).length
          + (b.cell s .health_unknown .canary).length
          = (b.entriesAt s).countP Entry.isCanary) ∧
      ((∀ a ∈ allocations, a.isCanary = false) → ∀ s h, b.cell s h .canary = []) := by
  have hk := @statuses_of_deployingPlaced statuses N allocations
  have hmem : ∀ (s : ClientStatus) (h : Health) (c : Canary) (e : Entry),
      e ∈ (fillUnplaced (placeAll deployingSlot (initBlocks statuses)
          (deployingPlaced statuses N allocations))
        (N - ((deployingPlaced statuses N allocations).length : Int))).cell s h c →
      (Entry.isCanary e = true ↔ c = .canary) := by
    intro s h c e he
    rcases mem_cell_result _ _ _ _ _ _ _ hk e he with ⟨h1, _, _, h4⟩ | ⟨a, h1, _, _, _, h5⟩
    · subst h1; subst h4
      simp [Entry.isCanary]
    · subst h1
      simp only [deployingSlot, canaryOf] at h5
      subst h5
      cases hc : a.isCanary <;> simp [Entry.isCanary, hc]
  have hcan : ∀ s h, ((fillUnplaced (placeAll deployingSlot (initBlocks statuses)
          (deployingPlaced statuses N allocations))
        (N - ((deployingPlaced statuses N allocations).length : Int))).cell s h
          .canary).countP Entry.isCanary
      = ((fillUnplaced (placeAll deployingSlot (initBlocks statuses)
          (deployingPlaced statuses N allocations))
        (N - ((deployingPlaced statuses N allocations).length : Int))).cell s h
          .canary).length := by
    intro s h
    rw [List.countP_eq_length]
    intro e he
    exact (hmem s h .canary e he).mpr rfl
  have hnon : ∀ s h, ((fillUnplaced (placeAll deployingSlot (initBlocks statuses)
          (deployingPlaced statuses N allocations))
        (N - ((deployingPlaced statuses N allocations).length : Int))).cell s h
          .nonCanary).countP Entry.isCanary = 0 := by
    intro s h
    rw [List.countP_eq_zero]
    intro e he hc
    have := (hmem s h .nonCanary e he).mp hc
    cases this
  refine ⟨_, allocBlocks_deploying statuses N allocations, ?_, ?_, ?_⟩
  · intro a s h c ha
    have := hmem s h c (Entry.real a) ha
    simp only [Entry.isCanary] at this
    exact this.symm
  · intro s
    rw [entriesAt_eq_cells]
    simp only [List.countP_append, hcan, hnon]
    omega
  · intro hno s h
    apply List.eq_nil_iff_forall_not_mem.mpr
    intro e he
    rcases mem_cell_result _ _ _ _ _ _ _ hk e he with ⟨_, _, _, h4⟩ | ⟨a, _, h2, _, _, h5⟩
    · cases h4
    · have hin := (mem_deployingCandidates.mp (mem_of_mem_deployingPlaced h2)).1
      simp [deployingSlot, canaryOf, hno a hin] at h5

/-- Witness for C11: a healthy running canary and a plain running allocation,
two slots; the canary is in `running.healthy.canary`, the other one in
`running.health_unknown.nonCanary`. -/
theorem deploying_canary_bucket_witness :
    healthyCanary.isCanary = true ∧
      ∃ b, allocBlocks exampleStatuses 2 true [healthyCanary, mkAlloc 2 .running 1] = some b ∧
        Entry.real healthyCanary ∈ b.cell .running .healthy .canary ∧
        (Canary.canary = .canary ↔ healthyCanary.isCanary = true) ∧
        (b.entriesAt .running).countP Entry.isCanary = 1 := by
  obtain ⟨b, hb, h1, h2, _⟩ := deploying_canary_bucket exampleStatuses 2
    [healthyCanary, mkAlloc 2 .running 1]
  have hb' := hb
  rw [show allocBlocks exampleStatuses 2 true [healthyCanary, mkAlloc 2 .running 1]
    = some (fillUnplaced (placeAll deployingSlot (initBlocks exampleStatuses)
        [healthyCanary, mkAlloc 2 .running 1]) 0) from by decide] at hb'
  have hmem : Entry.real healthyCanary ∈ b.cell .running .healthy .canary := by
    rw [← Option.some.inj hb']
    decide
  refine ⟨rfl, b, hb, hmem, h1 _ _ _ _ hmem, ?_⟩
  rw [← h2 .running, ← Option.some.inj hb']
  decide

/-- C12: in steady-state mode, for every desired count (status list with the
keys `running` and `pending`), an allocation found in an array `[s][h][c]` of the
result has status `s`, `h = healthy` and `c = nonCanary`, whatever its canary and
health flags are; every canary array and every unhealthy and health_unknown
array of the result is empty. -/
theorem steady_healthy_nonCanary_only (statuses : List ClientStatus) (N : Int)
    (allocations : List Allocation)
    (hr : .running ∈ statuses) (hp : .pending ∈ statuses) :
    ∃ b, allocBlocks statuses N false allocations = some b ∧
      (∀ (a : Allocation) (s : ClientStatus) (h : Health) (c : Canary),
        Entry.real a ∈ b.cell s h c →
          s = a.clientStatus ∧ h = .healthy ∧ c = .nonCanary) ∧
      (∀ s h c, ¬ (h = .healthy ∧ c = .nonCanary) → b.cell s h c = []) := by
  have hrp := keys_of_mem statuses allocations hr hp
  have hk := mem_statuses_of_mem_steady statuses N allocations hrp
  refine ⟨_, allocBlocks_steady statuses N allocations hrp, ?_, ?_⟩
  · intro a s h c ha
    have := real_mem_cell_result _ _ _ _ _ _ _ hk a ha
    simp only [steadySlot] at this
    exact ⟨this.2.1.symm, this.2.2.1.symm, this.2.2.2.symm⟩
  · intro s h c hc
    rw [cell_result _ _ _ _ _ _ _ hk, filter_inBucket_steady_side _ _ _ _ hc]
    simp [hc]

/-- Witness for C12: a running healthy canary in steady-state mode is placed in
`running.healthy.nonCanary` and `running.healthy.canary` is empty. -/
theorem steady_healthy_nonCanary_only_witness :
    ClientStatus.running ∈ exampleStatuses ∧ ClientStatus.pending ∈ exampleStatuses ∧
      ∃ b, allocBlocks exampleStatuses 2 false [healthyCanary] = some b ∧
        b.cell .running .healthy .nonCanary = [Entry.real healthyCanary] ∧
        b.cell .running .healthy .canary = [] := by
  refine ⟨by decide, by decide, ?_⟩
  obtain ⟨b, hb, _, h2⟩ := steady_healthy_nonCanary_only exampleStatuses 2 [healthyCanary]
    (by decide) (by decide)
  have hb' := hb
  rw [show allocBlocks exampleStatuses 2 false [healthyCanary]
    = some (fillUnplaced (placeAll steadySlot (initBlocks exampleStatuses)
        [healthyCanary]) 1) from by decide] at hb'
  refine ⟨b, hb, ?_, h2 _ _ _ (by decide)⟩
  rw [← Option.some.inj hb']
  decide

/-- C13: in both modes and for every desired count (in steady-state mode with a
status list that has the keys `running` and `pending`), the block that
`allocBlocks` returns has a key for every status of the status list, and the six
arrays of that key are the six fields of its value. -/
theorem every_status_has_key (statuses : List ClientStatus) (N : Int) (isDeploying : Bool)
    (allocations : List Allocation)
    (hkeys : isDeploying = false → .running ∈ statuses ∧ .pending ∈ statuses) :
    ∃ b, allocBlocks statuses N isDeploying allocations = some b ∧
      ∀ s ∈ statuses, ∃ st, b.lookup s = some st ∧
        ∀ h c, b.cell s h c = (st.get h).get c := by
  have key : ∀ (slot : Slot) (placed : List Allocation) (slots : Int),
      ∀ s ∈ statuses, ∃ st,
        (fillUnplaced (placeAll slot (initBlocks statuses) placed) slots).lookup s = some st ∧
        ∀ h c, (fillUnplaced (placeAll slot (initBlocks statuses) placed) slots).cell s h c
          = (st.get h).get c := by
    intro slot placed slots s hs
    obtain ⟨st, hst⟩ := Option.isSome_iff_exists.mp
      (isSome_lookup_result slot statuses placed slots s hs)
    refine ⟨st, hst, ?_⟩
    intro h c
    simp [AllocationBlock.cell, hst]
  cases isDeploying with
  | true => exact ⟨_, allocBlocks_deploying statuses N allocations, key _ _ _⟩
  | false =>
    obtain ⟨hr, hp⟩ := hkeys rfl
    exact ⟨_, allocBlocks_steady statuses N allocations
      (keys_of_mem statuses allocations hr hp), key _ _ _⟩

/-- Witness for C13: the sample list in steady-state mode; the key `complete`,
under which nothing is placed, is there with empty arrays. -/
theorem every_status_has_key_witness :
    ClientStatus.complete ∈ exampleStatuses ∧
      ∃ b, allocBlocks exampleStatuses 3 false sampleAllocations = some b ∧
        ∃ st, b.lookup .complete = some st ∧
          ∀ h c, b.cell .complete h c = (st.get h).get c := by
  obtain ⟨b, hb, h⟩ := every_status_has_key exampleStatuses 3 false sampleAllocations
    (fun _ => ⟨by decide, by decide⟩)
  exact ⟨by decide, b, hb, h .complete (by decide)⟩

/-- C14: with desired count 0, for every status list, every allocation list and
in both modes, `allocBlocks` returns the initial block: it has no element at all,
so every array is empty and no placeholder is created. -/
theorem zero_count_empty (statuses : List ClientStatus) (isDeploying : Bool)
    (allocations : List Allocation) :
    ∃ b, allocBlocks statuses 0 isDeploying allocations = some b ∧
      b = initBlocks statuses ∧ b.entries = [] ∧ ∀ s h c, b.cell s h c = [] :=
  ⟨_, allocBlocks_zero statuses isDeploying allocations, rfl, entries_initBlocks statuses,
    cell_initBlocks statuses⟩

/-- C15 at the failing input: in steady-state mode with desired count `-1` and one
running allocation, the first loop does not stop at `slots === 0` and the
allocation is pushed to `running.healthy.nonCanary`, while with desired count `0`
the array is empty; the deploying branch, which stops at `slots <= 0`, returns
for `-1` what it returns for `0`. -/
theorem negative_count_steady_places_running :
    (∃ b, allocBlocks exampleStatuses (-1) false [mkAlloc 1 .running 0] = some b ∧
      b.cell .running .healthy .nonCanary = [Entry.real (mkAlloc 1 .running 0)]) ∧
    (∃ b, allocBlocks exampleStatuses 0 false [mkAlloc 1 .running 0] = some b ∧
      b.cell .running .healthy .nonCanary = []) ∧
    allocBlocks exampleStatuses (-1) true [mkAlloc 1 .running 0]
      = allocBlocks exampleStatuses 0 true [mkAlloc 1 .running 0] :=
  ⟨⟨_, rfl, by decide⟩, ⟨_, rfl, by decide⟩, by decide⟩

/-! ## The desired count -/

theorem map_nodeID_filter (l : List Allocation) :
    (l.filter (fun a => a.nodeID.isSome)).map (fun a => a.nodeID)
      = (l.filterMap (fun a => a.nodeID)).map some := by
  induction l with
  | nil => rfl
  | cons a rest ih =>
    cases h : a.nodeID with
    | none => simp [List.filter_cons, List.filterMap_cons, h, ih]
    | some n => simp [List.filter_cons, List.filterMap_cons, h, ih]

theorem length_dedup_nodeIDs (l : List Allocation) :
    ((l.filter (fun a => a.nodeID.isSome)).map (fun a => a.nodeID)).dedup.length
      = (l.filterMap (fun a => a.nodeID)).toFinset.card := by
  rw [map_nodeID_filter, List.dedup_map_of_injective (Option.some_injective Nat),
    List.length_map, List.card_toFinset]

theorem length_dedup_nodeIDs_le (l : List Allocation) :
    ((l.filter (fun a => a.nodeID.isSome)).map (fun a => a.nodeID)).dedup.length
      ≤ l.length := by
  have h1 := (List.dedup_sublist
    ((l.filter (fun a => a.nodeID.isSome)).map (fun a => a.nodeID))).length_le
  have h2 := List.length_filter_le (fun a : Allocation => a.nodeID.isSome) l
  rw [List.length_map] at h1
  omega

/-- C16: `expectedRunningAllocCount` is `groupCountSum` for service and batch
jobs; for system and sysbatch jobs it is the number of distinct `nodeID` values
among the allocations that have a `nodeID`, and so at most the number of
allocations. -/
theorem expectedRunningAllocCount_eq (job : Job) :
    (job.type = .service ∨ job.type = .batch →
      job.expectedRunningAllocCount = job.groupCountSum) ∧
    (job.type = .system ∨ job.type = .sysbatch →
      job.expectedRunningAllocCount
          = ((job.allocations.filterMap (fun a => a.nodeID)).toFinset.card : Int) ∧
        job.expectedRunningAllocCount ≤ (job.allocations.length : Int)) := by
  constructor
  · intro h
    have hn : ¬ (job.type = .system ∨ job.type = .sysbatch) := by
      rcases h with h | h <;> rw [h] <;> decide
    simp [Job.expectedRunningAllocCount, hn]
  · intro h
    have hl := length_dedup_nodeIDs job.allocations
    have hle := length_dedup_nodeIDs_le job.allocations
    simp only [Job.expectedRunningAllocCount, h, if_true]
    constructor
    · rw [hl]
    · exact_mod_cast hle

/-- Witness for C16: a system job with three allocations on two nodes and one
allocation without a node has desired count 2, whatever its `groupCountSum`. -/
theorem expectedRunningAllocCount_eq_witness :
    (mkJob .system 7 [mkAllocOn 1 .running 10, mkAllocOn 2 .failed 10,
        mkAllocOn 3 .running 11, mkAlloc 4 .pending 0]).expectedRunningAllocCount = 2 ∧
      (mkJob .service 7 [mkAllocOn 1 .running 10]).expectedRunningAllocCount = 7 := by
  have h1 := (expectedRunningAllocCount_eq (mkJob .system 7 [mkAllocOn 1 .running 10,
    mkAllocOn 2 .failed 10, mkAllocOn 3 .running 11, mkAlloc 4 .pending 0])).2 (Or.inl rfl)
  have h2 := (expectedRunningAllocCount_eq (mkJob .service 7 [mkAllocOn 1 .running 10])).1
    (Or.inl rfl)
  refine ⟨?_, h2⟩
  rw [h1.1]
  decide

/-! ## Claims on `aggregateAllocStatus` -/

theorem healthyNonCanary?_eq_cell (b : AllocationBlock) (s : ClientStatus)
    (h : (b.lookup s).isSome) :
    b.healthyNonCanary? s = some (b.cell s .healthy .nonCanary) := by
  obtain ⟨st, hst⟩ := Option.isSome_iff_exists.mp h
  simp [AllocationBlock.healthyNonCanary?, AllocationBlock.cell, hst, AllocationStatus.get,
    HealthStatus.get]

/-- C17: a job whose `latestDeploymentSummary.isActive` is true is reported as
`{Deploying, highlight}`, whatever its type, counts, `assumeGC` flag and
allocations are, and whatever the status table is. -/
theorem active_deployment_is_deploying (jobAllocStatuses : JobType → List ClientStatus)
    (job : Job) (hactive : job.latestDeploymentSummary.isActive = true) :
    job.aggregateAllocStatus jobAllocStatuses
      = some { label := .Deploying, state := .highlight } := by
  simp [Job.aggregateAllocStatus, hactive]

/-- Witness for C17: a service job with four slots, an active deployment and four
failed allocations is reported as Deploying. -/
theorem active_deployment_is_deploying_witness :
    ({ mkJob .service 4 [mkAlloc 1 .failed 0, mkAlloc 2 .failed 0, mkAlloc 3 .failed 0,
          mkAlloc 4 .failed 0] with
        latestDeploymentSummary := { isActive := true, requiresPromotion := false }
        } : Job).aggregateAllocStatus exampleTable
      = some { label := .Deploying, state := .highlight } :=
  active_deployment_is_deploying exampleTable _ rfl

/-- C18: a job with no active deployment and `assumeGC = true` is reported as
`{Removed, neutral}`, whatever its type, counts and allocations are, and whatever
the status table is. -/
theorem assumeGC_is_removed (jobAllocStatuses : JobType → List ClientStatus)
    (job : Job) (hactive : job.latestDeploymentSummary.isActive = false)
    (hgc : job.assumeGC = true) :
    job.aggregateAllocStatus jobAllocStatuses
      = some { label := .Removed, state := .neutral } := by
  simp [Job.aggregateAllocStatus, hactive, hgc]

/-- Witness for C18: a batch job with two running allocations and `assumeGC`
set is reported as Removed. -/
theorem assumeGC_is_removed_witness :
    ({ mkJob .batch 2 [mkAlloc 1 .running 0, mkAlloc 2 .running 0] with
        assumeGC := true } : Job).aggregateAllocStatus exampleTable
      = some { label := .Removed, state := .neutral } :=
  assumeGC_is_removed exampleTable _ rfl rfl

theorem allocBlocks_all_complete (statuses : List ClientStatus)
    (allocations : List Allocation) (hc : .complete ∈ statuses)
    (hall : ∀ a ∈ allocations, a.clientStatus = .complete) :
    ∃ b l, allocBlocks statuses (allocations.length : Int) false allocations = some b ∧
      b.healthyNonCanary? .complete = some l ∧ l.length = allocations.length := by
  have hrp : ∀ a ∈ allocations, a.clientStatus = .running ∨ a.clientStatus = .pending →
      a.clientStatus ∈ statuses := by
    intro a ha h
    rw [hall a ha] at h
    rcases h with h | h <;> cases h
  have hk := mem_statuses_of_mem_steady statuses (allocations.length : Int) allocations hrp
  have hfirst : steadyFirst (allocations.length : Int) allocations = [] := by
    have hnil : runningOrPending allocations = [] := by
      apply List.filter_eq_nil_iff.mpr
      intro a ha
      simp [hall a ha]
    unfold steadyFirst capTake
    rw [hnil]
    split <;> simp
  have hlen : (steadyOthers statuses (allocations.length : Int) allocations).length
      = allocations.length := by
    have hfil : allocations.filter (fun a => a.clientStatus ≠ .running &&
        a.clientStatus ≠ .pending && statuses.contains a.clientStatus) = allocations := by
      apply List.filter_eq_self.mpr
      intro a ha
      simp [hall a ha, hc]
    unfold steadyOthers
    rw [List.length_take, length_showableSorted, hfil, hfirst]
    simp
  have hfilter : (steadyOthers statuses (allocations.length : Int) allocations).filter
      (inBucket steadySlot .complete .healthy .nonCanary)
      = steadyOthers statuses (allocations.length : Int) allocations := by
    apply List.filter_eq_self.mpr
    intro a ha
    simp [inBucket, steadySlot, hall a (mem_of_mem_steadyOthers ha).1]
  refine ⟨_, _, allocBlocks_steady statuses _ allocations hrp,
    healthyNonCanary?_eq_cell _ _ (isSome_lookup_result _ _ _ _ _ hc), ?_⟩
  rw [cell_result _ _ _ _ _ _ _ hk, if_neg (by simp), hfirst, List.nil_append, hfilter,
    List.length_map, hlen]

/-- C19: for a batch or sysbatch job with no active deployment and `assumeGC`
false, if `complete.healthy.nonCanary` of its block holds as many elements as the
desired count, the job is reported as `{Complete, success}`; in particular a
batch job (status list with the key `complete`) whose allocations are all
complete and as many as its group count is reported as Complete. -/
theorem batch_all_complete (jobAllocStatuses : JobType → List ClientStatus) (job : Job)
    (htype : job.type = .batch ∨ job.type = .sysbatch)
    (hactive : job.latestDeploymentSummary.isActive = false)
    (hgc : job.assumeGC = false) :
    (∀ b l, job.allocBlocks jobAllocStatuses = some b →
      b.healthyNonCanary? .complete = some l →
      (l.length : Int) = job.expectedRunningAllocCount →
      job.aggregateAllocStatus jobAllocStatuses
        = some { label := .Complete, state := .success }) ∧
    (job.type = .batch → .complete ∈ jobAllocStatuses .batch →
      (∀ a ∈ job.allocations, a.clientStatus = .complete) →
      (job.allocations.length : Int) = job.groupCountSum →
      job.aggregateAllocStatus jobAllocStatuses
        = some { label := .Complete, state := .success }) := by
  have main : ∀ b l, job.allocBlocks jobAllocStatuses = some b →
      b.healthyNonCanary? .complete = some l →
      (l.length : Int) = job.expectedRunningAllocCount →
      job.aggregateAllocStatus jobAllocStatuses
        = some { label := .Complete, state := .success } := by
    intro b l hb hl hlen
    simp [Job.aggregateAllocStatus, hactive, hgc, hb, classifyBlocks, htype, hl, length?, hlen]
  refine ⟨main, ?_⟩
  intro hbatch hc hall hcount
  have hN : job.expectedRunningAllocCount = (job.allocations.length : Int) := by
    simp [Job.expectedRunningAllocCount, hbatch, hcount]
  obtain ⟨b, l, hb, hl, hlen⟩ := allocBlocks_all_complete (jobAllocStatuses .batch)
    job.allocations hc hall
  apply main b l
  · simp only [Job.allocBlocks, hbatch, hN, hactive]
    exact hb
  · exact hl
  · rw [hN, hlen]

/-- Witness for C19: the scenario of a batch job with four slots and four
complete allocations. -/
theorem batch_all_complete_witness :
    ((mkJob .batch 4 [mkAlloc 1 .complete 0, mkAlloc 2 .complete 0, mkAlloc 3 .complete 0,
        mkAlloc 4 .complete 0]).type = .batch ∨
      (mkJob .batch 4 [mkAlloc 1 .complete 0, mkAlloc 2 .complete 0, mkAlloc 3 .complete 0,
        mkAlloc 4 .complete 0]).type = .sysbatch) ∧
    (mkJob .batch 4 [mkAlloc 1 .complete 0, mkAlloc 2 .complete 0, mkAlloc 3 .complete 0,
        mkAlloc 4 .complete 0]).aggregateAllocStatus exampleTable
      = some { label := .Complete, state := .success } :=
  ⟨Or.inl rfl,
    (batch_all_complete exampleTable (mkJob .batch 4 [mkAlloc 1 .complete 0,
      mkAlloc 2 .complete 0, mkAlloc 3 .complete 0, mkAlloc 4 .complete 0])
      (Or.inl rfl) rfl rfl).2 rfl (by decide) (by decide) rfl⟩

/-- C20: for a batch or sysbatch job with no active deployment and `assumeGC`
false, if `complete.healthy.nonCanary` of its block does not hold as many
elements as the desired count `N`, but together with `running.healthy.nonCanary`
it holds `N`, the job is reported as `{Running, success}`. -/
theorem batch_running_and_complete (jobAllocStatuses : JobType → List ClientStatus)
    (job : Job) (b : AllocationBlock) (lc lr : List Entry)
    (htype : job.type = .batch ∨ job.type = .sysbatch)
    (hactive : job.latestDeploymentSummary.isActive = false)
    (hgc : job.assumeGC = false)
    (hb : job.allocBlocks jobAllocStatuses = some b)
    (hcomplete : b.healthyNonCanary? .complete = some lc)
    (hrunning : b.healthyNonCanary? .running = some lr)
    (hne : (lc.length : Int) ≠ job.expectedRunningAllocCount)
    (hsum : (lr.length : Int) + (lc.length : Int) = job.expectedRunningAllocCount) :
    job.aggregateAllocStatus jobAllocStatuses
      = some { label := .Running, state := .success } := by
  simp [Job.aggregateAllocStatus, hactive, hgc, hb, classifyBlocks, htype, hcomplete, hrunning,
    length?, hne, sumIs, hsum]

/-- Witness for C20: a batch job with four slots, two running and two complete
allocations is reported as Running. -/
theorem batch_running_and_complete_witness :
    (mkJob .batch 4 [mkAlloc 1 .running 0, mkAlloc 2 .complete 0, mkAlloc 3 .running 0,
        mkAlloc 4 .complete 0]).aggregateAllocStatus exampleTable
      = some { label := .Running, state := .success } :=
  batch_running_and_complete exampleTable
    (mkJob .batch 4 [mkAlloc 1 .running 0, mkAlloc 2 .complete 0, mkAlloc 3 .running 0,
      mkAlloc 4 .complete 0])
    (fillUnplaced (placeAll steadySlot (initBlocks exampleStatuses)
      [mkAlloc 1 .running 0, mkAlloc 3 .running 0, mkAlloc 4 .complete 0,
        mkAlloc 2 .complete 0]) 0)
    [Entry.real (mkAlloc 4 .complete 0), Entry.real (mkAlloc 2 .complete 0)]
    [Entry.real (mkAlloc 1 .running 0), Entry.real (mkAlloc 3 .running 0)]
    (Or.inl rfl) rfl rfl (by decide) (by decide) (by decide) (by decide) (by decide)

/-! ## The decision order of `aggregateAllocStatus` -/

theorem length?_eq_some_iff (x : Option (List Entry)) (N : Int) :
    length? x = some N ↔ ∃ l, x = some l ∧ (l.length : Int) = N := by
  cases x with
  | none => simp [length?]
  | some l => simp [length?]

theorem sumIs_iff (x y : Option (List Entry)) (N : Int) :
    sumIs (length? x) (length? y) N = true ↔
      ∃ lx ly, x = some lx ∧ y = some ly ∧ (lx.length : Int) + (ly.length : Int) = N := by
  cases x <;> cases y <;> simp [sumIs, length?]

theorem isPositive_iff (x : Option (List Entry)) :
    isPositive (length? x) = true ↔ ∃ l, x = some l ∧ 0 < l.length := by
  cases x with
  | none => simp [isPositive, length?]
  | some l => simp [isPositive, length?]

theorem healthyRule_iff (N : Int) (b : AllocationBlock) :
    (N ≠ 0 ∧ length? (b.healthyNonCanary? .running) = some N) ↔ healthyRule N b := by
  unfold healthyRule
  rw [length?_eq_some_iff]
  constructor
  · rintro ⟨h0, l, hl, hlen⟩
    exact ⟨by omega, l, hl, hlen⟩
  · rintro ⟨h0, l, hl, hlen⟩
    exact ⟨by omega, l, hl, hlen⟩

theorem classifyGeneric_of_healthy (N : Int) (b : AllocationBlock) (h : healthyRule N b) :
    classifyGeneric N b = some { label := .Healthy, state := .success } := by
  have h' := (healthyRule_iff N b).mpr h
  simp only [classifyGeneric]
  rw [if_pos h']

theorem classifyGeneric_of_recovering (N : Int) (b : AllocationBlock)
    (h1 : ¬ healthyRule N b) (h2 : recoveringRule b) :
    classifyGeneric N b = some { label := .Recovering, state := .highlight } := by
  have h1' : ¬ (N ≠ 0 ∧ length? (b.healthyNonCanary? .running) = some N) :=
    fun h => h1 ((healthyRule_iff N b).mp h)
  have h2' := (isPositive_iff (b.healthyNonCanary? .pending)).mpr h2
  simp only [classifyGeneric]
  rw [if_neg h1', if_pos h2']

theorem classifyGeneric_of_buckets (N : Int) (b : AllocationBlock)
    (h1 : ¬ healthyRule N b) (h2 : ¬ recoveringRule b) (lf ll lu : List Entry)
    (hf : b.healthyNonCanary? .failed = some lf) (hl : b.healthyNonCanary? .lost = some ll)
    (hu : b.healthyNonCanary? .unplaced = some lu) :
    classifyGeneric N b
      = if N ≤ ((lf.length + ll.length + lu.length : Nat) : Int) then
          some { label := .Failed, state := .critical }
        else some { label := .Degraded, state := .warning } := by
  have h1' : ¬ (N ≠ 0 ∧ length? (b.healthyNonCanary? .running) = some N) :=
    fun h => h1 ((healthyRule_iff N b).mp h)
  have h2' : ¬ isPositive (length? (b.healthyNonCanary? .pending)) = true :=
    fun h => h2 ((isPositive_iff _).mp h)
  simp only [classifyGeneric]
  rw [if_neg h1', if_neg h2']
  simp only [hf, hl, hu, List.length_append, ge_iff_le]

theorem classifyGeneric_of_missing (N : Int) (b : AllocationBlock)
    (h1 : ¬ healthyRule N b) (h2 : ¬ recoveringRule b)
    (hmiss : b.healthyNonCanary? .failed = none ∨ b.healthyNonCanary? .lost = none ∨
      b.healthyNonCanary? .unplaced = none) :
    classifyGeneric N b = none := by
  have h1' : ¬ (N ≠ 0 ∧ length? (b.healthyNonCanary? .running) = some N) :=
    fun h => h1 ((healthyRule_iff N b).mp h)
  have h2' : ¬ isPositive (length? (b.healthyNonCanary? .pending)) = true :=
    fun h => h2 ((isPositive_iff _).mp h)
  simp only [classifyGeneric]
  rw [if_neg h1', if_neg h2']
  rcases hmiss with h | h | h
  · simp [h]
  · cases hf : b.healthyNonCanary? .failed <;> simp [h]
  · cases hf : b.healthyNonCanary? .failed <;> cases hl : b.healthyNonCanary? .lost <;> simp [h]

theorem completeRule_iff (type : JobType) (N : Int) (b : AllocationBlock) :
    ((type = .batch ∨ type = .sysbatch) ∧
      length? (b.healthyNonCanary? .complete) = some N) ↔ completeRule type N b := by
  unfold completeRule
  rw [length?_eq_some_iff]

theorem runningRule_iff (type : JobType) (N : Int) (b : AllocationBlock) :
    ((type = .batch ∨ type = .sysbatch) ∧
      sumIs (length? (b.healthyNonCanary? .running)) (length? (b.healthyNonCanary? .complete))
        N = true) ↔ runningRule type N b := by
  unfold runningRule
  rw [sumIs_iff]

theorem classifyBlocks_of_complete (type : JobType) (N : Int) (b : AllocationBlock)
    (h : completeRule type N b) :
    classifyBlocks type N b = some { label := .Complete, state := .success } := by
  have h' := (completeRule_iff type N b).mpr h
  simp only [classifyBlocks]
  rw [if_pos h'.1, if_pos h'.2]

theorem classifyBlocks_of_running (type : JobType) (N : Int) (b : AllocationBlock)
    (h1 : ¬ completeRule type N b) (h2 : runningRule type N b) :
    classifyBlocks type N b = some { label := .Running, state := .success } := by
  have h2' := (runningRule_iff type N b).mpr h2
  have h1' : ¬ length? (b.healthyNonCanary? .complete) = some N :=
    fun h => h1 ((completeRule_iff type N b).mp ⟨h2'.1, h⟩)
  simp only [classifyBlocks]
  rw [if_pos h2'.1, if_neg h1', if_pos h2'.2]

theorem classifyBlocks_of_neither (type : JobType) (N : Int) (b : AllocationBlock)
    (h1 : ¬ completeRule type N b) (h2 : ¬ runningRule type N b) :
    classifyBlocks type N b = classifyGeneric N b := by
  simp only [classifyBlocks]
  by_cases ht : type = .batch ∨ type = .sysbatch
  · have h1' : ¬ length? (b.healthyNonCanary? .complete) = some N :=
      fun h => h1 ((completeRule_iff type N b).mp ⟨ht, h⟩)
    have h2' : ¬ sumIs (length? (b.healthyNonCanary? .running))
        (length? (b.healthyNonCanary? .complete)) N = true :=
      fun h => h2 ((runningRule_iff type N b).mp ⟨ht, h⟩)
    rw [if_pos ht, if_neg h1', if_neg h2']
  · rw [if_neg ht]

theorem aggregateAllocStatus_of_blocks (jobAllocStatuses : JobType → List ClientStatus)
    (job : Job) (b : AllocationBlock)
    (hactive : job.latestDeploymentSummary.isActive = false) (hgc : job.assumeGC = false)
    (hb : job.allocBlocks jobAllocStatuses = some b) :
    job.aggregateAllocStatus jobAllocStatuses
      = classifyBlocks job.type job.expectedRunningAllocCount b := by
  simp [Job.aggregateAllocStatus, hactive, hgc, hb]

theorem aggregateAllocStatus_of_throw (jobAllocStatuses : JobType → List ClientStatus)
    (job : Job)
    (hactive : job.latestDeploymentSummary.isActive = false) (hgc : job.assumeGC = false)
    (hb : job.allocBlocks jobAllocStatuses = none) :
    job.aggregateAllocStatus jobAllocStatuses = none := by
  simp [Job.aggregateAllocStatus, hactive, hgc, hb]

theorem classifyGeneric_ne_healthy (N : Int) (b : AllocationBlock) (h : ¬ healthyRule N b) :
    classifyGeneric N b ≠ some { label := .Healthy, state := .success } := by
  by_cases h2 : recoveringRule b
  · rw [classifyGeneric_of_recovering N b h h2]; decide
  · cases hf : b.healthyNonCanary? .failed with
    | none => rw [classifyGeneric_of_missing N b h h2 (Or.inl hf)]; simp
    | some lf =>
      cases hl : b.healthyNonCanary? .lost with
      | none => rw [classifyGeneric_of_missing N b h h2 (Or.inr (Or.inl hl))]; simp
      | some ll =>
        cases hu : b.healthyNonCanary? .unplaced with
        | none => rw [classifyGeneric_of_missing N b h h2 (Or.inr (Or.inr hu))]; simp
        | some lu =>
          rw [classifyGeneric_of_buckets N b h h2 lf ll lu hf hl hu]
          split <;> decide

/-- C21: `aggregateAllocStatus` returns `{Healthy, success}` exactly when no
deployment is active, `assumeGC` is false, `allocBlocks` returns a block for
which neither batch rule (Complete, Running) applies, `N > 0`, and
`running.healthy.nonCanary` of the block holds `N` elements. -/
theorem healthy_iff (jobAllocStatuses : JobType → List ClientStatus) (job : Job) :
    job.aggregateAllocStatus jobAllocStatuses = some { label := .Healthy, state := .success } ↔
      job.latestDeploymentSummary.isActive = false ∧ job.assumeGC = false ∧
      ∃ b, job.allocBlocks jobAllocStatuses = some b ∧
        ¬ completeRule job.type job.expectedRunningAllocCount b ∧
        ¬ runningRule job.type job.expectedRunningAllocCount b ∧
        0 < job.expectedRunningAllocCount ∧
        ∃ lr, b.healthyNonCanary? .running = some lr ∧
          (lr.length : Int) = job.expectedRunningAllocCount := by
  constructor
  · intro h
    cases hactive : job.latestDeploymentSummary.isActive with
    | true => simp [Job.aggregateAllocStatus, hactive] at h
    | false =>
      cases hgc : job.assumeGC with
      | true => simp [Job.aggregateAllocStatus, hactive, hgc] at h
      | false =>
        cases hb : job.allocBlocks jobAllocStatuses with
        | none => rw [aggregateAllocStatus_of_throw _ _ hactive hgc hb] at h; cases h
        | some b =>
          rw [aggregateAllocStatus_of_blocks _ _ b hactive hgc hb] at h
          by_cases hc : completeRule job.type job.expectedRunningAllocCount b
          · rw [classifyBlocks_of_complete _ _ _ hc] at h; cases h
          · by_cases hr : runningRule job.type job.expectedRunningAllocCount b
            · rw [classifyBlocks_of_running _ _ _ hc hr] at h; cases h
            · rw [classifyBlocks_of_neither _ _ _ hc hr] at h
              by_cases hh : healthyRule job.expectedRunningAllocCount b
              · exact ⟨rfl, rfl, b, rfl, hc, hr, hh⟩
              · exact absurd h (classifyGeneric_ne_healthy _ _ hh)
  · rintro ⟨hactive, hgc, b, hb, hc, hr, hh⟩
    rw [aggregateAllocStatus_of_blocks _ _ b hactive hgc hb,
      classifyBlocks_of_neither _ _ _ hc hr]
    exact classifyGeneric_of_healthy _ _ hh

/-- Witness for C21: a service job with two slots and two running allocations is
reported as Healthy. -/
theorem healthy_iff_witness :
    (mkJob .service 2 [mkAlloc 1 .running 0, mkAlloc 2 .running 0]).aggregateAllocStatus
        exampleTable = some { label := .Healthy, state := .success } := by
  rw [healthy_iff]
  refine ⟨rfl, rfl, _, rfl, ?_, ?_, by decide, _, rfl, by decide⟩
  · rintro ⟨h, _⟩
    revert h
    decide
  · rintro ⟨h, _⟩
    revert h
    decide

/-- C22: when none of the Deploying, Removed, Complete, Running and Healthy
rules applies to a job and its block, and `pending.healthy.nonCanary` holds at
least one element, the job is reported as `{Recovering, highlight}`. -/
theorem pending_is_recovering (jobAllocStatuses : JobType → List ClientStatus) (job : Job)
    (b : AllocationBlock) (lp : List Entry)
    (hactive : job.latestDeploymentSummary.isActive = false)
    (hgc : job.assumeGC = false)
    (hb : job.allocBlocks jobAllocStatuses = some b)
    (hcomplete : ¬ completeRule job.type job.expectedRunningAllocCount b)
    (hrunning : ¬ runningRule job.type job.expectedRunningAllocCount b)
    (hhealthy : ¬ healthyRule job.expectedRunningAllocCount b)
    (hpending : b.healthyNonCanary? .pending = some lp) (hpos : 0 < lp.length) :
    job.aggregateAllocStatus jobAllocStatuses
      = some { label := .Recovering, state := .highlight } := by
  rw [aggregateAllocStatus_of_blocks _ _ b hactive hgc hb,
    classifyBlocks_of_neither _ _ _ hcomplete hrunning]
  exact classifyGeneric_of_recovering _ _ hhealthy ⟨lp, hpending, hpos⟩

/-- Witness for C22: a service job with two slots, one running and one pending
allocation, is reported as Recovering. -/
theorem pending_is_recovering_witness :
    recoveringJob.allocBlocks exampleTable = some recoveringBlock ∧
      recoveringBlock.healthyNonCanary? .pending = some [Entry.real (mkAlloc 2 .pending 0)] ∧
      recoveringJob.aggregateAllocStatus exampleTable
        = some { label := .Recovering, state := .highlight } :=
  ⟨by decide, by decide,
    pending_is_recovering exampleTable recoveringJob recoveringBlock
      [Entry.real (mkAlloc 2 .pending 0)] rfl rfl (by decide)
      (fun h => absurd ((completeRule_iff _ _ _).mpr h) (by decide))
      (fun h => absurd ((runningRule_iff _ _ _).mpr h) (by decide))
      (fun h => absurd ((healthyRule_iff _ _).mpr h) (by decide))
      (by decide) (by decide)⟩

/-- C23: when none of the Deploying, Removed, Complete, Running, Healthy and
Recovering rules applies to a job and its block, with `failedOrLost` the number
of elements of `failed.healthy.nonCanary`, `lost.healthy.nonCanary` and
`unplaced.healthy.nonCanary` together, the job is reported as
`{Failed, critical}` if `failedOrLost ≥ N` and as `{Degraded, warning}`
otherwise. -/
theorem failed_or_degraded (jobAllocStatuses : JobType → List ClientStatus) (job : Job)
    (b : AllocationBlock) (lf ll lu : List Entry)
    (hactive : job.latestDeploymentSummary.isActive = false)
    (hgc : job.assumeGC = false)
    (hb : job.allocBlocks jobAllocStatuses = some b)
    (hcomplete : ¬ completeRule job.type job.expectedRunningAllocCount b)
    (hrunning : ¬ runningRule job.type job.expectedRunningAllocCount b)
    (hhealthy : ¬ healthyRule job.expectedRunningAllocCount b)
    (hrecovering : ¬ recoveringRule b)
    (hfailed : b.healthyNonCanary? .failed = some lf)
    (hlost : b.healthyNonCanary? .lost = some ll)
    (hunplaced : b.healthyNonCanary? .unplaced = some lu) :
    (job.expectedRunningAllocCount ≤ ((lf.length + ll.length + lu.length : Nat) : Int) →
      job.aggregateAllocStatus jobAllocStatuses
        = some { label := .Failed, state := .critical }) ∧
    (((lf.length + ll.length + lu.length : Nat) : Int) < job.expectedRunningAllocCount →
      job.aggregateAllocStatus jobAllocStatuses
        = some { label := .Degraded, state := .warning }) := by
  rw [aggregateAllocStatus_of_blocks _ _ b hactive hgc hb,
    classifyBlocks_of_neither _ _ _ hcomplete hrunning,
    classifyGeneric_of_buckets _ _ hhealthy hrecovering lf ll lu hfailed hlost hunplaced]
  constructor
  · intro h
    rw [if_pos h]
  · intro h
    rw [if_neg (not_le.mpr h)]

/-- Witness for C23: a service job with four slots, two running and two failed
allocations has `failedOrLost = 2 < 4` and is reported as Degraded. -/
theorem failed_or_degraded_witness :
    degradedJob.allocBlocks exampleTable = some degradedBlock ∧
      degradedJob.aggregateAllocStatus exampleTable
        = some { label := .Degraded, state := .warning } :=
  ⟨by decide,
    (failed_or_degraded exampleTable degradedJob degradedBlock
      [Entry.real (mkAlloc 4 .failed 0), Entry.real (mkAlloc 2 .failed 0)] [] []
      rfl rfl (by decide)
      (fun h => absurd ((completeRule_iff _ _ _).mpr h) (by decide))
      (fun h => absurd ((runningRule_iff _ _ _).mpr h) (by decide))
      (fun h => absurd ((healthyRule_iff _ _).mpr h) (by decide))
      (fun h => absurd ((isPositive_iff _).mpr h) (by decide))
      (by decide) (by decide) (by decide)).2 (by decide)⟩

/-! ## The steady-state closed form without an assumption on the status list -/

theorem capTake_zero (l : List Allocation) : capTake 0 l = [] := by
  simp [capTake]

theorem capTake_cons (slots : Int) (a : Allocation) (rest : List Allocation)
    (hs : slots ≠ 0) : capTake slots (a :: rest) = a :: capTake (slots - 1) rest := by
  unfold capTake
  by_cases hneg : slots < 0
  · have hneg' : slots - 1 < 0 := by omega
    simp [hneg, hneg']
  · have hneg' : ¬ slots - 1 < 0 := by omega
    have hsucc : slots.toNat = (slots - 1).toNat + 1 := by omega
    rw [if_neg hneg, if_neg hneg', hsucc, List.take_succ_cons]

theorem steadyPass1_eq_of_keys (l : List Allocation) (b : AllocationBlock) (slots : Int)
    (hk : ∀ a ∈ capTake slots l, (b.lookup a.clientStatus).isSome) :
    steadyPass1 l b slots
      = some (placeAll steadySlot b (capTake slots l),
          slots - ((capTake slots l).length : Int)) := by
  induction l generalizing b slots with
  | nil => simp [steadyPass1, placeAll, capTake]
  | cons a rest ih =>
    unfold steadyPass1
    by_cases hs : slots = 0
    · subst hs
      simp [capTake, placeAll]
    · rw [capTake_cons _ _ _ hs] at hk ⊢
      have hp := push_eq_place steadySlot b a (hk a (List.mem_cons_self _ _))
      simp only [steadySlot] at hp
      simp only [hs, if_false, hp]
      rw [ih]
      · simp only [placeAll, List.foldl_cons, List.length_cons]
        congr 2
        push_cast
        omega
      · intro x hx
        rw [lookup_place_isSome]
        exact hk x (List.mem_cons_of_mem _ hx)

theorem steadyPass1_keys (l : List Allocation) (b : AllocationBlock) (slots : Int)
    (h : (steadyPass1 l b slots).isSome) :
    ∀ a ∈ capTake slots l, (b.lookup a.clientStatus).isSome := by
  induction l generalizing b slots with
  | nil => intro a ha; simp [capTake] at ha
  | cons a rest ih =>
    unfold steadyPass1 at h
    by_cases hs : slots = 0
    · subst hs
      intro x hx
      rw [capTake_zero] at hx
      cases hx
    · rw [capTake_cons _ _ _ hs]
      simp only [hs, if_false] at h
      cases hl : b.lookup a.clientStatus with
      | none => simp [AllocationBlock.push, hl] at h
      | some st =>
        have hsome : (b.lookup a.clientStatus).isSome := by simp [hl]
        have hp := push_eq_place steadySlot b a hsome
        simp only [steadySlot] at hp
        rw [hp] at h
        intro x hx
        rcases List.mem_cons.mp hx with hxa | hxr
        · rw [hxa]; exact hsome
        · have := ih _ _ h x hxr
          rwa [lookup_place_isSome] at this

theorem allocBlocks_steady_of_keys (statuses : List ClientStatus) (total : Int)
    (allocations : List Allocation)
    (hkeys : ∀ a ∈ steadyFirst total allocations, a.clientStatus ∈ statuses) :
    allocBlocks statuses total false allocations
      = some (fillUnplaced
          (placeAll steadySlot (initBlocks statuses)
            (steadyFirst total allocations ++ steadyOthers statuses total allocations))
          (total - ((steadyFirst total allocations).length : Int)
            - ((steadyOthers statuses total allocations).length : Int))) := by
  have hk1 : ∀ a ∈ capTake total (allocations.filter
      (fun a => a.clientStatus = .running || a.clientStatus = .pending)),
      ((initBlocks statuses).lookup a.clientStatus).isSome := by
    intro a ha
    rw [isSome_lookup_initBlocks]
    simpa using hkeys a ha
  have hk2 : ∀ s ∈ statuses,
      ((placeAll steadySlot (initBlocks statuses) (steadyFirst total allocations)).lookup
        s).isSome := by
    intro s hs
    rw [lookup_placeAll_isSome, isSome_lookup_initBlocks]
    simpa using hs
  have hk1' : ∀ a ∈ steadyFirst total allocations,
      ((initBlocks statuses).lookup a.clientStatus).isSome := hk1
  simp only [allocBlocks, Bool.false_eq_true, if_false, steadyPass1_eq_of_keys _ _ _ hk1]
  change (match steadyPass2 statuses total (sortedAllocs statuses allocations)
      (placeAll steadySlot (initBlocks statuses) (steadyFirst total allocations))
      (total - ((steadyFirst total allocations).length : Int)) with
    | none => none
    | some (b2, slots2) => some (fillUnplaced b2 slots2)) = _
  by_cases hneg : total < 0
  · rw [steadyPass2_of_nonpos _ _ _ _ _ hk2 (le_of_lt hneg)]
    have hz : (total - ((steadyFirst total allocations).length : Int)).toNat = 0 := by omega
    simp [steadyOthers, hz]
  · have h0 : 0 ≤ total := not_lt.mp hneg
    have hle := length_capTake_le total (runningOrPending allocations) h0
    rw [steadyPass2_eq _ _ _ _ _ hk2]
    · simp only [placeAll_append]
      rfl
    · unfold steadyFirst
      omega
    · intro s
      rw [cell_placeAll _ _ _ _ _ _ hk1', cell_initBlocks]
      have := length_filter_inBucket_le steadySlot s .healthy .nonCanary
        (steadyFirst total allocations)
      simp only [List.nil_append, List.length_map]
      omega

theorem steadyFirst_keys_of_some (statuses : List ClientStatus) (total : Int)
    (allocations : List Allocation) (b : AllocationBlock)
    (h : allocBlocks statuses total false allocations = some b) :
    ∀ a ∈ steadyFirst total allocations, a.clientStatus ∈ statuses := by
  have h1 : (steadyPass1 (allocations.filter
      (fun a => a.clientStatus = .running || a.clientStatus = .pending))
      (initBlocks statuses) total).isSome := by
    cases hp : steadyPass1 (allocations.filter
      (fun a => a.clientStatus = .running || a.clientStatus = .pending))
      (initBlocks statuses) total with
    | none => simp [allocBlocks, hp] at h
    | some r => rfl
  intro a ha
  have := steadyPass1_keys _ _ _ h1 a ha
  rw [isSome_lookup_initBlocks] at this
  simpa using this

theorem mem_statuses_of_mem_placed (statuses : List ClientStatus) (total : Int)
    (allocations : List Allocation)
    (hkeys : ∀ a ∈ steadyFirst total allocations, a.clientStatus ∈ statuses) :
    ∀ a ∈ steadyFirst total allocations ++ steadyOthers statuses total allocations,
      a.clientStatus ∈ statuses := by
  intro a ha
  rcases List.mem_append.mp ha with h | h
  · exact hkeys a h
  · exact (mem_of_mem_steadyOthers h).2.2.2

theorem healthyNonCanary?_result (slot : Slot) (statuses : List ClientStatus)
    (placed : List Allocation) (slots : Int) (s : ClientStatus) (hs : s ∈ statuses) :
    (fillUnplaced (placeAll slot (initBlocks statuses) placed) slots).healthyNonCanary? s
      = some ((fillUnplaced (placeAll slot (initBlocks statuses) placed) slots).cell s
          .healthy .nonCanary) :=
  healthyNonCanary?_eq_cell _ _ (isSome_lookup_result slot statuses placed slots s hs)

theorem classifyBlocks_mem_pairs (type : JobType) (N : Int) (b : AllocationBlock)
    (hf : (b.healthyNonCanary? .failed).isSome) (hl : (b.healthyNonCanary? .lost).isSome)
    (hu : (b.healthyNonCanary? .unplaced).isSome) :
    ∃ st, classifyBlocks type N b = some st ∧ st ∈ statusPairs := by
  by_cases hc : completeRule type N b
  · exact ⟨_, classifyBlocks_of_complete _ _ _ hc, by decide⟩
  · by_cases hr : runningRule type N b
    · exact ⟨_, classifyBlocks_of_running _ _ _ hc hr, by decide⟩
    · rw [classifyBlocks_of_neither _ _ _ hc hr]
      by_cases hh : healthyRule N b
      · exact ⟨_, classifyGeneric_of_healthy _ _ hh, by decide⟩
      · by_cases hp : recoveringRule b
        · exact ⟨_, classifyGeneric_of_recovering _ _ hh hp, by decide⟩
        · obtain ⟨lf, hlf⟩ := Option.isSome_iff_exists.mp hf
          obtain ⟨ll, hll⟩ := Option.isSome_iff_exists.mp hl
          obtain ⟨lu, hlu⟩ := Option.isSome_iff_exists.mp hu
          rw [classifyGeneric_of_buckets _ _ hh hp lf ll lu hlf hll hlu]
          split
          · exact ⟨_, rfl, by decide⟩
          · exact ⟨_, rfl, by decide⟩

/-- C28, as the code has it: for every job of any type, desired count and flags,
whose status list has the keys `failed`, `lost` and `unplaced`, and for which
`allocBlocks` returns a block, `aggregateAllocStatus` returns one of the eight
pairs (Deploying, highlight), (Removed, neutral), (Complete, success),
(Running, success), (Healthy, success), (Recovering, highlight),
(Failed, critical), (Degraded, warning). -/
theorem aggregateAllocStatus_total (jobAllocStatuses : JobType → List ClientStatus)
    (job : Job)
    (hfailed : .failed ∈ jobAllocStatuses job.type)
    (hlost : .lost ∈ jobAllocStatuses job.type)
    (hunplaced : .unplaced ∈ jobAllocStatuses job.type)
    (hblocks : (job.allocBlocks jobAllocStatuses).isSome) :
    ∃ st, job.aggregateAllocStatus jobAllocStatuses = some st ∧ st ∈ statusPairs := by
  cases hactive : job.latestDeploymentSummary.isActive with
  | true =>
    exact ⟨{ label := .Deploying, state := .highlight },
      by simp [Job.aggregateAllocStatus, hactive], by decide⟩
  | false =>
    cases hgc : job.assumeGC with
    | true =>
      exact ⟨{ label := .Removed, state := .neutral },
        by simp [Job.aggregateAllocStatus, hactive, hgc], by decide⟩
    | false =>
      obtain ⟨b, hb⟩ := Option.isSome_iff_exists.mp hblocks
      rw [aggregateAllocStatus_of_blocks _ _ b hactive hgc hb]
      have hb' := hb
      simp only [Job.allocBlocks, hactive] at hb'
      have hkeys := steadyFirst_keys_of_some _ _ _ _ hb'
      rw [allocBlocks_steady_of_keys _ _ _ hkeys] at hb'
      have hbe := Option.some.inj hb'
      subst hbe
      apply classifyBlocks_mem_pairs
      · rw [healthyNonCanary?_result _ _ _ _ _ hfailed]; rfl
      · rw [healthyNonCanary?_result _ _ _ _ _ hlost]; rfl
      · rw [healthyNonCanary?_result _ _ _ _ _ hunplaced]; rfl

/-- Witness for C28 (as the code has it): the job with two running and two
failed allocations, with the example status list. -/
theorem aggregateAllocStatus_total_witness :
    ClientStatus.failed ∈ exampleTable degradedJob.type ∧
      ClientStatus.lost ∈ exampleTable degradedJob.type ∧
      ClientStatus.unplaced ∈ exampleTable degradedJob.type ∧
      (degradedJob.allocBlocks exampleTable).isSome ∧
      ∃ st, degradedJob.aggregateAllocStatus exampleTable = some st ∧ st ∈ statusPairs :=
  ⟨by decide, by decide, by decide, by decide,
    aggregateAllocStatus_total exampleTable degradedJob (by decide) (by decide) (by decide)
      (by decide)⟩

/-- Counterexample to C28 as stated: with the status list
`[running, pending, failed, lost]` a service job with one slot and one failed
allocation gets a block from `allocBlocks`, in which the key `unplaced` is
absent, and `aggregateAllocStatus` throws when it spreads
`allocBlocks.unplaced?.healthy?.nonCanary`. -/
theorem aggregateAllocStatus_throws :
    ((mkJob .service 1 [mkAlloc 1 .failed 0]).allocBlocks
        (fun _ => [.running, .pending, .failed, .lost])).isSome ∧
      (mkJob .service 1 [mkAlloc 1 .failed 0]).aggregateAllocStatus
        (fun _ => [.running, .pending, .failed, .lost]) = none :=
  ⟨by decide, by decide⟩

/-! ## A pending allocation keeps a job from being reported as failed -/

theorem assumeGC_is_removed_of_flags (jobAllocStatuses : JobType → List ClientStatus)
    (job : Job) (hactive : job.latestDeploymentSummary.isActive = false)
    (hgc : job.assumeGC = true) :
    job.aggregateAllocStatus jobAllocStatuses
      = some { label := .Removed, state := .neutral } := by
  simp [Job.aggregateAllocStatus, hactive, hgc]

theorem real_mem_cell_of_mem_placed (statuses : List ClientStatus)
    (placed : List Allocation) (slots : Int)
    (hk : ∀ a ∈ placed, a.clientStatus ∈ statuses)
    (a : Allocation) (ha : a ∈ placed) (hau : a.clientStatus ≠ .unplaced) :
    Entry.real a ∈ (fillUnplaced (placeAll steadySlot (initBlocks statuses) placed)
      slots).cell a.clientStatus .healthy .nonCanary := by
  rw [cell_result _ _ _ _ _ _ _ hk, if_neg (fun h => hau h.2)]
  apply List.mem_map_of_mem
  rw [List.mem_filter]
  exact ⟨ha, by simp [inBucket, steadySlot]⟩

theorem healthy_or_recovering_of_pending (statuses : List ClientStatus) (N : Int)
    (allocations : List Allocation) (hN : 1 ≤ N)
    (hp : ∃ a ∈ allocations, a.clientStatus = .pending)
    (hkeys : ∀ a ∈ steadyFirst N allocations, a.clientStatus ∈ statuses) :
    healthyRule N (fillUnplaced
        (placeAll steadySlot (initBlocks statuses)
          (steadyFirst N allocations ++ steadyOthers statuses N allocations))
        (N - ((steadyFirst N allocations).length : Int)
          - ((steadyOthers statuses N allocations).length : Int))) ∨
      recoveringRule (fillUnplaced
        (placeAll steadySlot (initBlocks statuses)
          (steadyFirst N allocations ++ steadyOthers statuses N allocations))
        (N - ((steadyFirst N allocations).length : Int)
          - ((steadyOthers statuses N allocations).length : Int))) := by
  have hk := mem_statuses_of_mem_placed statuses N allocations hkeys
  by_cases hin : ∃ a ∈ steadyFirst N allocations, a.clientStatus = .pending
  · right
    obtain ⟨a, ha, hap⟩ := hin
    have hps : ClientStatus.pending ∈ statuses := hap ▸ hkeys a ha
    have hmem := real_mem_cell_of_mem_placed statuses _
      (N - ((steadyFirst N allocations).length : Int)
        - ((steadyOthers statuses N allocations).length : Int)) hk a
      (List.mem_append_left _ ha) (by rw [hap]; decide)
    rw [hap] at hmem
    exact ⟨_, healthyNonCanary?_result _ _ _ _ _ hps, List.length_pos_of_mem hmem⟩
  · left
    have h0 : 0 ≤ N := by omega
    have hfirst := steadyFirst_of_nonneg N allocations h0
    obtain ⟨p, hpa, hpp⟩ := hp
    have hprp : p ∈ runningOrPending allocations :=
      mem_runningOrPending.mpr ⟨hpa, Or.inr hpp⟩
    have hpn : p ∉ steadyFirst N allocations := fun h => hin ⟨p, h, hpp⟩
    have hlt : N.toNat < (runningOrPending allocations).length := by
      by_contra hge
      rw [hfirst, List.take_of_length_le (by omega)] at hpn
      exact hpn hprp
    have hlen : (steadyFirst N allocations).length = N.toNat := by
      rw [hfirst, List.length_take]
      omega
    have hall : ∀ a ∈ steadyFirst N allocations, a.clientStatus = .running := by
      intro a ha
      rcases (mem_of_mem_steadyFirst ha).2 with h | h
      · exact h
      · exact absurd ⟨a, ha, h⟩ hin
    have hne : steadyFirst N allocations ≠ [] := by
      intro h
      rw [h] at hlen
      simp at hlen
      omega
    obtain ⟨a, ha⟩ := List.exists_mem_of_ne_nil _ hne
    have hrs : ClientStatus.running ∈ statuses := hall a ha ▸ hkeys a ha
    refine ⟨by omega, _, healthyNonCanary?_result _ _ _ _ _ hrs, ?_⟩
    rw [cell_result _ _ _ _ _ _ _ hk, if_neg (by simp), List.filter_append,
      filter_inBucket_steadyOthers _ _ _ _ (Or.inl rfl), List.append_nil, List.length_map]
    have hfil : (steadyFirst N allocations).filter
        (inBucket steadySlot .running .healthy .nonCanary) = steadyFirst N allocations := by
      apply List.filter_eq_self.mpr
      intro x hx
      simp [inBucket, steadySlot, hall x hx]
    rw [hfil, hlen]
    omega

theorem classifyBlocks_not_failed (type : JobType) (N : Int) (b : AllocationBlock)
    (h : healthyRule N b ∨ recoveringRule b) :
    ∃ st, classifyBlocks type N b = some st ∧ st.label ≠ .Failed := by
  by_cases hc : completeRule type N b
  · exact ⟨_, classifyBlocks_of_complete _ _ _ hc, by decide⟩
  · by_cases hr : runningRule type N b
    · exact ⟨_, classifyBlocks_of_running _ _ _ hc hr, by decide⟩
    · rw [classifyBlocks_of_neither _ _ _ hc hr]
      by_cases hh : healthyRule N b
      · exact ⟨_, classifyGeneric_of_healthy _ _ hh, by decide⟩
      · have hp : recoveringRule b := h.resolve_left hh
        exact ⟨_, classifyGeneric_of_recovering _ _ hh hp, by decide⟩

/-- C24: for a job with no active deployment and `N ≥ 1` that has at least one
pending allocation in its list, whatever `aggregateAllocStatus` returns does not
have the label Failed; and when the status list has the keys `running` and
`pending`, it does return a result. -/
theorem pending_never_failed (jobAllocStatuses : JobType → List ClientStatus) (job : Job)
    (hactive : job.latestDeploymentSummary.isActive = false)
    (hN : 1 ≤ job.expectedRunningAllocCount)
    (hpending : ∃ a ∈ job.allocations, a.clientStatus = .pending) :
    (∀ st, job.aggregateAllocStatus jobAllocStatuses = some st → st.label ≠ .Failed) ∧
    (.running ∈ jobAllocStatuses job.type → .pending ∈ jobAllocStatuses job.type →
      ∃ st, job.aggregateAllocStatus jobAllocStatuses = some st) := by
  have main : ∀ b, job.allocBlocks jobAllocStatuses = some b → job.assumeGC = false →
      ∃ st, job.aggregateAllocStatus jobAllocStatuses = some st ∧ st.label ≠ .Failed := by
    intro b hb hgc
    rw [aggregateAllocStatus_of_blocks _ _ b hactive hgc hb]
    have hb' := hb
    simp only [Job.allocBlocks, hactive] at hb'
    have hkeys := steadyFirst_keys_of_some _ _ _ _ hb'
    rw [allocBlocks_steady_of_keys _ _ _ hkeys] at hb'
    rw [← Option.some.inj hb']
    exact classifyBlocks_not_failed _ _ _
      (healthy_or_recovering_of_pending _ _ _ hN hpending hkeys)
  constructor
  · intro st hst
    cases hgc : job.assumeGC with
    | true =>
      simp only [Job.aggregateAllocStatus, hactive, hgc] at hst
      simp only [Bool.false_eq_true, if_false, if_true, Option.some.injEq] at hst
      rw [← hst]
      decide
    | false =>
      cases hb : job.allocBlocks jobAllocStatuses with
      | none =>
        rw [aggregateAllocStatus_of_throw _ _ hactive hgc hb] at hst
        cases hst
      | some b =>
        obtain ⟨st', hst', hne⟩ := main b hb hgc
        rw [hst'] at hst
        cases hst
        exact hne
  · intro hr hp
    cases hgc : job.assumeGC with
    | true => exact ⟨_, assumeGC_is_removed_of_flags jobAllocStatuses job hactive hgc⟩
    | false =>
      have hb := allocBlocks_steady (jobAllocStatuses job.type) job.expectedRunningAllocCount
        job.allocations (keys_of_mem _ _ hr hp)
      obtain ⟨st, hst, _⟩ := main _ (by simp only [Job.allocBlocks, hactive]; exact hb) hgc
      exact ⟨st, hst⟩

/-- Witness for C24: the service job with one running and one pending
allocation and two slots is reported as Recovering. -/
theorem pending_never_failed_witness :
    (1 : Int) ≤ recoveringJob.expectedRunningAllocCount ∧
      (∃ a ∈ recoveringJob.allocations, a.clientStatus = .pending) ∧
      (∀ st, recoveringJob.aggregateAllocStatus exampleTable = some st →
        st.label ≠ .Failed) ∧
      ∃ st, recoveringJob.aggregateAllocStatus exampleTable = some st :=
  ⟨by decide, by decide,
    (pending_never_failed exampleTable recoveringJob rfl (by decide) (by decide)).1,
    (pending_never_failed exampleTable recoveringJob rfl (by decide) (by decide)).2
      (by decide) (by decide)⟩

/-! ## Counting the allocations of the steady-state block by status -/

theorem length_eq_sum_countStatus (l : List Allocation) :
    l.length = countStatus .running l + countStatus .pending l + countStatus .failed l
      + countStatus .lost l + countStatus .complete l + countStatus .unknown l
      + countStatus .unplaced l := by
  induction l with
  | nil => rfl
  | cons a rest ih =>
    simp only [countStatus] at ih ⊢
    cases h : a.clientStatus <;> simp [List.filter_cons, h] <;> omega

theorem countStatus_append (s : ClientStatus) (l₁ l₂ : List Allocation) :
    countStatus s (l₁ ++ l₂) = countStatus s l₁ + countStatus s l₂ := by
  simp [countStatus, List.filter_append]

theorem countStatus_eq_zero (s : ClientStatus) (l : List Allocation)
    (h : ∀ a ∈ l, a.clientStatus ≠ s) : countStatus s l = 0 := by
  unfold countStatus
  rw [List.length_eq_zero, List.filter_eq_nil_iff]
  intro a ha
  simpa using h a ha

theorem countStatus_eq_length (s : ClientStatus) (l : List Allocation)
    (h : ∀ a ∈ l, a.clientStatus = s) : countStatus s l = l.length := by
  unfold countStatus
  rw [List.filter_eq_self.mpr]
  intro a ha
  simpa using h a ha

theorem countStatus_pos (s : ClientStatus) (l : List Allocation)
    (h : ∃ a ∈ l, a.clientStatus = s) : 0 < countStatus s l := by
  obtain ⟨a, ha, has⟩ := h
  unfold countStatus
  apply List.length_pos_of_mem
  rw [List.mem_filter]
  exact ⟨ha, by simpa using has⟩

theorem cell_of_healthyNonCanary? (b : AllocationBlock) (s : ClientStatus) (l : List Entry)
    (h : b.healthyNonCanary? s = some l) : b.cell s .healthy .nonCanary = l := by
  unfold AllocationBlock.healthyNonCanary? at h
  unfold AllocationBlock.cell
  cases hl : b.lookup s with
  | none => simp [hl] at h
  | some st =>
    simp only [hl, Option.map_some', Option.some.injEq] at h
    simpa [AllocationStatus.get, HealthStatus.get] using h

theorem length_cell_steady (statuses : List ClientStatus) (placed : List Allocation)
    (slots : Int) (s : ClientStatus)
    (hk : ∀ a ∈ placed, a.clientStatus ∈ statuses) (hs : ¬ (0 < slots ∧ s = .unplaced)) :
    ((fillUnplaced (placeAll steadySlot (initBlocks statuses) placed) slots).cell s
      .healthy .nonCanary).length = countStatus s placed := by
  rw [cell_result _ _ _ _ _ _ _ hk, if_neg hs, filter_inBucket_steady_main, List.length_map]
  rfl

theorem length_cell_unplaced_of_pos (statuses : List ClientStatus) (placed : List Allocation)
    (slots : Int) (hk : ∀ a ∈ placed, a.clientStatus ∈ statuses) (hpos : 0 < slots) :
    ((fillUnplaced (placeAll steadySlot (initBlocks statuses) placed) slots).cell .unplaced
      .healthy .nonCanary).length = slots.toNat := by
  rw [cell_result _ _ _ _ _ _ _ hk, if_pos ⟨hpos, rfl⟩]
  simp

theorem countStatus_eq_zero_of_not_mem (statuses : List ClientStatus)
    (placed : List Allocation) (s : ClientStatus)
    (hk : ∀ a ∈ placed, a.clientStatus ∈ statuses) (hs : s ∉ statuses) :
    countStatus s placed = 0 := by
  apply countStatus_eq_zero
  intro a ha hx
  exact hs (hx ▸ hk a ha)

theorem bucket_length_steady (statuses : List ClientStatus) (placed : List Allocation)
    (slots : Int) (s : ClientStatus) (l : List Entry)
    (hk : ∀ a ∈ placed, a.clientStatus ∈ statuses)
    (h : (fillUnplaced (placeAll steadySlot (initBlocks statuses) placed)
      slots).healthyNonCanary? s = some l)
    (hs : ¬ (0 < slots ∧ s = .unplaced)) :
    l.length = countStatus s placed := by
  rw [← cell_of_healthyNonCanary? _ _ _ h, length_cell_steady _ _ _ _ hk hs]

theorem not_batch_rules_of_service (N : Int) (b : AllocationBlock) :
    ¬ completeRule .service N b ∧ ¬ runningRule .service N b := by
  constructor
  · rintro ⟨h, _⟩
    rcases h with h | h <;> cases h
  · rintro ⟨h, _⟩
    rcases h with h | h <;> cases h

theorem classifyBlocks_all_failed_or_lost (statuses : List ClientStatus) (N : Int)
    (allocations : List Allocation) (hN : 1 ≤ N)
    (hall : ∀ a ∈ allocations, a.clientStatus = .failed ∨ a.clientStatus = .lost)
    (hf : .failed ∈ statuses) (hl : .lost ∈ statuses) (hu : .unplaced ∈ statuses) :
    ∃ b, allocBlocks statuses N false allocations = some b ∧
      classifyBlocks .service N b = some { label := .Failed, state := .critical } := by
  have hrp : runningOrPending allocations = [] := by
    apply List.filter_eq_nil_iff.mpr
    intro a ha
    rcases hall a ha with h | h <;> simp [h]
  have hfirst : steadyFirst N allocations = [] := by
    unfold steadyFirst capTake
    rw [hrp]
    split <;> simp
  have hkeys : ∀ a ∈ steadyFirst N allocations, a.clientStatus ∈ statuses := by
    intro a ha
    rw [hfirst] at ha
    cases ha
  have hk := mem_statuses_of_mem_placed statuses N allocations hkeys
  have hb := allocBlocks_steady_of_keys statuses N allocations hkeys
  have hlen : ((steadyOthers statuses N allocations).length : Int) ≤ N := by
    have := length_steady_le statuses N allocations (by omega)
    omega
  have hplaced : ∀ a ∈ steadyFirst N allocations ++ steadyOthers statuses N allocations,
      a.clientStatus = .failed ∨ a.clientStatus = .lost :=
    fun a ha => hall a (mem_allocations_of_mem_steady _ _ _ a ha)
  have hsum := length_eq_sum_countStatus
    (steadyFirst N allocations ++ steadyOthers statuses N allocations)
  have z1 := countStatus_eq_zero .running _
    (fun a ha => by rcases hplaced a ha with h | h <;> simp [h])
  have z2 := countStatus_eq_zero .pending _
    (fun a ha => by rcases hplaced a ha with h | h <;> simp [h])
  have z3 := countStatus_eq_zero .complete _
    (fun a ha => by rcases hplaced a ha with h | h <;> simp [h])
  have z4 := countStatus_eq_zero .unknown _
    (fun a ha => by rcases hplaced a ha with h | h <;> simp [h])
  have z5 := countStatus_eq_zero .unplaced _
    (fun a ha => by rcases hplaced a ha with h | h <;> simp [h])
  rw [hfirst] at hb hk hsum z1 z2 z3 z4 z5
  simp only [List.nil_append, List.length_nil, Int.ofNat_zero, Nat.cast_zero, sub_zero]
    at hb hk hsum z1 z2 z3 z4 z5
  refine ⟨_, hb, ?_⟩
  have hnb := not_batch_rules_of_service N (fillUnplaced
    (placeAll steadySlot (initBlocks statuses) (steadyOthers statuses N allocations))
    (N - ((steadyOthers statuses N allocations).length : Int)))
  have hh : ¬ healthyRule N (fillUnplaced
      (placeAll steadySlot (initBlocks statuses) (steadyOthers statuses N allocations))
      (N - ((steadyOthers statuses N allocations).length : Int))) := by
    rintro ⟨_, lr, hlr, hlrlen⟩
    have := bucket_length_steady _ _ _ _ _ hk hlr (by simp)
    omega
  have hp : ¬ recoveringRule (fillUnplaced
      (placeAll steadySlot (initBlocks statuses) (steadyOthers statuses N allocations))
      (N - ((steadyOthers statuses N allocations).length : Int))) := by
    rintro ⟨lp, hlp, hpos⟩
    have := bucket_length_steady _ _ _ _ _ hk hlp (by simp)
    omega
  have lf := length_cell_steady statuses (steadyOthers statuses N allocations)
    (N - ((steadyOthers statuses N allocations).length : Int)) .failed hk (by simp)
  have ll := length_cell_steady statuses (steadyOthers statuses N allocations)
    (N - ((steadyOthers statuses N allocations).length : Int)) .lost hk (by simp)
  have lu : (((fillUnplaced (placeAll steadySlot (initBlocks statuses)
      (steadyOthers statuses N allocations))
      (N - ((steadyOthers statuses N allocations).length : Int))).cell .unplaced
        .healthy .nonCanary).length : Int)
      = N - ((steadyOthers statuses N allocations).length : Int) := by
    by_cases hpos : 0 < N - ((steadyOthers statuses N allocations).length : Int)
    · rw [length_cell_unplaced_of_pos _ _ _ hk hpos]
      omega
    · rw [length_cell_steady _ _ _ _ hk (fun h => hpos h.1), z5]
      omega
  rw [classifyBlocks_of_neither _ _ _ hnb.1 hnb.2,
    classifyGeneric_of_buckets _ _ hh hp _ _ _ (healthyNonCanary?_result _ _ _ _ _ hf)
      (healthyNonCanary?_result _ _ _ _ _ hl) (healthyNonCanary?_result _ _ _ _ _ hu),
    if_pos]
  rw [lf, ll]
  push_cast
  omega

/-- C26: a service job with no active deployment, `assumeGC` false and `N ≥ 1`
whose allocations, any number of them, all have the status failed or lost is
reported as `{Failed, critical}`; the status list of service jobs is one with
the keys `failed`, `lost` and `unplaced`. -/
theorem all_failed_or_lost_is_failed (jobAllocStatuses : JobType → List ClientStatus)
    (job : Job) (htype : job.type = .service)
    (hactive : job.latestDeploymentSummary.isActive = false)
    (hgc : job.assumeGC = false)
    (hN : 1 ≤ job.groupCountSum)
    (hall : ∀ a ∈ job.allocations, a.clientStatus = .failed ∨ a.clientStatus = .lost)
    (hf : .failed ∈ jobAllocStatuses .service) (hl : .lost ∈ jobAllocStatuses .service)
    (hu : .unplaced ∈ jobAllocStatuses .service) :
    job.aggregateAllocStatus jobAllocStatuses
      = some { label := .Failed, state := .critical } := by
  have hNeq : job.expectedRunningAllocCount = job.groupCountSum := by
    simp [Job.expectedRunningAllocCount, htype]
  obtain ⟨b, hb, hc⟩ := classifyBlocks_all_failed_or_lost (jobAllocStatuses .service)
    job.groupCountSum job.allocations hN hall hf hl hu
  rw [aggregateAllocStatus_of_blocks _ _ b hactive hgc
    (by simp only [Job.allocBlocks, hactive, htype, hNeq]; exact hb), htype, hNeq]
  exact hc

/-- Witness for C26: the scenario of a service job with four slots and four
failed allocations. -/
theorem all_failed_or_lost_is_failed_witness :
    (1 : Int) ≤ (mkJob .service 4 [mkAlloc 1 .failed 0, mkAlloc 2 .failed 0,
        mkAlloc 3 .failed 0, mkAlloc 4 .failed 0]).groupCountSum ∧
      (mkJob .service 4 [mkAlloc 1 .failed 0, mkAlloc 2 .failed 0, mkAlloc 3 .failed 0,
        mkAlloc 4 .failed 0]).aggregateAllocStatus exampleTable
        = some { label := .Failed, state := .critical } :=
  ⟨by decide,
    all_failed_or_lost_is_failed exampleTable
      (mkJob .service 4 [mkAlloc 1 .failed 0, mkAlloc 2 .failed 0, mkAlloc 3 .failed 0,
        mkAlloc 4 .failed 0])
      rfl rfl rfl (by decide) (by decide) (by decide) (by decide) (by decide)⟩

theorem classifyBlocks_running_and_failed (statuses : List ClientStatus) (N : Int)
    (allocations : List Allocation)
    (hlen : (allocations.length : Int) = N)
    (hall : ∀ a ∈ allocations, a.clientStatus = .running ∨ a.clientStatus = .failed)
    (hrun : ∃ a ∈ allocations, a.clientStatus = .running)
    (hfail : ∃ a ∈ allocations, a.clientStatus = .failed)
    (hr : .running ∈ statuses) (hf : .failed ∈ statuses) (hl : .lost ∈ statuses)
    (hu : .unplaced ∈ statuses) :
    ∃ b, allocBlocks statuses N false allocations = some b ∧
      classifyBlocks .service N b = some { label := .Degraded, state := .warning } := by
  have hN : 0 ≤ N := by omega
  have hfirstAll : ∀ a ∈ steadyFirst N allocations, a.clientStatus = .running := by
    intro a ha
    have hm := mem_of_mem_steadyFirst ha
    rcases hm.2 with h | h
    · exact h
    · rcases hall a hm.1 with h' | h' <;> rw [h] at h' <;> cases h'
  have hothersAll : ∀ a ∈ steadyOthers statuses N allocations, a.clientStatus = .failed := by
    intro a ha
    have hm := mem_of_mem_steadyOthers ha
    rcases hall a hm.1 with h | h
    · exact absurd h hm.2.1
    · exact h
  have hkeys : ∀ a ∈ steadyFirst N allocations, a.clientStatus ∈ statuses :=
    fun a ha => (hfirstAll a ha) ▸ hr
  have hk := mem_statuses_of_mem_placed statuses N allocations hkeys
  have hb := allocBlocks_steady_of_keys statuses N allocations hkeys
  -- the counts of the input
  have hsumA := length_eq_sum_countStatus allocations
  have a2 := countStatus_eq_zero .pending allocations
    (fun a ha => by rcases hall a ha with h | h <;> simp [h])
  have a4 := countStatus_eq_zero .lost allocations
    (fun a ha => by rcases hall a ha with h | h <;> simp [h])
  have a5 := countStatus_eq_zero .complete allocations
    (fun a ha => by rcases hall a ha with h | h <;> simp [h])
  have a6 := countStatus_eq_zero .unknown allocations
    (fun a ha => by rcases hall a ha with h | h <;> simp [h])
  have a7 := countStatus_eq_zero .unplaced allocations
    (fun a ha => by rcases hall a ha with h | h <;> simp [h])
  have hposR := countStatus_pos .running allocations hrun
  have hposF := countStatus_pos .failed allocations hfail
  have hrpLen : (runningOrPending allocations).length = countStatus .running allocations := by
    unfold runningOrPending countStatus
    congr 1
    apply List.filter_congr
    intro a ha
    rcases hall a ha with h | h <;> simp [h]
  have hshowLen : (showableSorted statuses allocations).length
      = countStatus .failed allocations := by
    rw [length_showableSorted]
    unfold countStatus
    congr 1
    apply List.filter_congr
    intro a ha
    rcases hall a ha with h | h <;> simp [h, hf]
  have hfirstLen : (steadyFirst N allocations).length = countStatus .running allocations := by
    rw [steadyFirst_of_nonneg _ _ hN, List.length_take, hrpLen]
    omega
  have hothersLen : (steadyOthers statuses N allocations).length
      = countStatus .failed allocations := by
    unfold steadyOthers
    rw [List.length_take, hshowLen, hfirstLen]
    omega
  -- the counts of the pushed lists
  have p1 : countStatus .running
      (steadyFirst N allocations ++ steadyOthers statuses N allocations)
      = countStatus .running allocations := by
    rw [countStatus_append, countStatus_eq_length _ _ hfirstAll,
      countStatus_eq_zero _ _ (fun a ha => by simp [hothersAll a ha]), hfirstLen]
    rfl
  have p2 : countStatus .pending
      (steadyFirst N allocations ++ steadyOthers statuses N allocations) = 0 := by
    rw [countStatus_append, countStatus_eq_zero _ _ (fun a ha => by simp [hfirstAll a ha]),
      countStatus_eq_zero _ _ (fun a ha => by simp [hothersAll a ha])]
  have p3 : countStatus .failed
      (steadyFirst N allocations ++ steadyOthers statuses N allocations)
      = countStatus .failed allocations := by
    rw [countStatus_append, countStatus_eq_zero _ _ (fun a ha => by simp [hfirstAll a ha]),
      countStatus_eq_length _ _ hothersAll, hothersLen]
    omega
  have p4 : countStatus .lost
      (steadyFirst N allocations ++ steadyOthers statuses N allocations) = 0 := by
    rw [countStatus_append, countStatus_eq_zero _ _ (fun a ha => by simp [hfirstAll a ha]),
      countStatus_eq_zero _ _ (fun a ha => by simp [hothersAll a ha])]
  have p5 : countStatus .unplaced
      (steadyFirst N allocations ++ steadyOthers statuses N allocations) = 0 := by
    rw [countStatus_append, countStatus_eq_zero _ _ (fun a ha => by simp [hfirstAll a ha]),
      countStatus_eq_zero _ _ (fun a ha => by simp [hothersAll a ha])]
  have hslots : ¬ (0 < N - ((steadyFirst N allocations).length : Int)
      - ((steadyOthers statuses N allocations).length : Int)) := by
    rw [hfirstLen, hothersLen]
    omega
  refine ⟨_, hb, ?_⟩
  have hnb := not_batch_rules_of_service N (fillUnplaced
    (placeAll steadySlot (initBlocks statuses)
      (steadyFirst N allocations ++ steadyOthers statuses N allocations))
    (N - ((steadyFirst N allocations).length : Int)
      - ((steadyOthers statuses N allocations).length : Int)))
  have hh : ¬ healthyRule N (fillUnplaced
      (placeAll steadySlot (initBlocks statuses)
        (steadyFirst N allocations ++ steadyOthers statuses N allocations))
      (N - ((steadyFirst N allocations).length : Int)
        - ((steadyOthers statuses N allocations).length : Int))) := by
    rintro ⟨_, lr, hlr, hlrlen⟩
    have := bucket_length_steady _ _ _ _ _ hk hlr (fun h => hslots h.1)
    omega
  have hp : ¬ recoveringRule (fillUnplaced
      (placeAll steadySlot (initBlocks statuses)
        (steadyFirst N allocations ++ steadyOthers statuses N allocations))
      (N - ((steadyFirst N allocations).length : Int)
        - ((steadyOthers statuses N allocations).length : Int))) := by
    rintro ⟨lp, hlp, hpos⟩
    have := bucket_length_steady _ _ _ _ _ hk hlp (fun h => hslots h.1)
    omega
  rw [classifyBlocks_of_neither _ _ _ hnb.1 hnb.2,
    classifyGeneric_of_buckets _ _ hh hp _ _ _ (healthyNonCanary?_result _ _ _ _ _ hf)
      (healthyNonCanary?_result _ _ _ _ _ hl) (healthyNonCanary?_result _ _ _ _ _ hu),
    if_neg]
  rw [length_cell_steady _ _ _ _ hk (fun h => hslots h.1),
    length_cell_steady _ _ _ _ hk (fun h => hslots h.1),
    length_cell_steady _ _ _ _ hk (fun h => hslots h.1), p3, p4, p5]
  push_cast
  omega

/-- C25: a service job with no active deployment, `assumeGC` false and group
count `N`, whose `N` allocations are running or failed, at least one of each
kind (so `N ≥ 2` and `0 < r < N` running ones), is reported as
`{Degraded, warning}`; the status list of service jobs is one with the keys
`running`, `failed`, `lost` and `unplaced`. -/
theorem running_and_failed_is_degraded (jobAllocStatuses : JobType → List ClientStatus)
    (job : Job) (htype : job.type = .service)
    (hactive : job.latestDeploymentSummary.isActive = false)
    (hgc : job.assumeGC = false)
    (hlen : (job.allocations.length : Int) = job.groupCountSum)
    (hall : ∀ a ∈ job.allocations, a.clientStatus = .running ∨ a.clientStatus = .failed)
    (hrun : ∃ a ∈ job.allocations, a.clientStatus = .running)
    (hfail : ∃ a ∈ job.allocations, a.clientStatus = .failed)
    (hr : .running ∈ jobAllocStatuses .service) (hf : .failed ∈ jobAllocStatuses .service)
    (hl : .lost ∈ jobAllocStatuses .service) (hu : .unplaced ∈ jobAllocStatuses .service) :
    job.aggregateAllocStatus jobAllocStatuses
      = some { label := .Degraded, state := .warning } := by
  have hNeq : job.expectedRunningAllocCount = job.groupCountSum := by
    simp [Job.expectedRunningAllocCount, htype]
  obtain ⟨b, hb, hc⟩ := classifyBlocks_running_and_failed (jobAllocStatuses .service)
    job.groupCountSum job.allocations hlen hall hrun hfail hr hf hl hu
  rw [aggregateAllocStatus_of_blocks _ _ b hactive hgc
    (by simp only [Job.allocBlocks, hactive, htype, hNeq]; exact hb), htype, hNeq]
  exact hc

/-- Witness for C25: the scenario of a service job with four slots, two running
and two failed allocations. -/
theorem running_and_failed_is_degraded_witness :
    (degradedJob.allocations.length : Int) = degradedJob.groupCountSum ∧
      (∃ a ∈ degradedJob.allocations, a.clientStatus = .running) ∧
      (∃ a ∈ degradedJob.allocations, a.clientStatus = .failed) ∧
      degradedJob.aggregateAllocStatus exampleTable
        = some { label := .Degraded, state := .warning } :=
  ⟨by decide, by decide, by decide,
    running_and_failed_is_degraded exampleTable degradedJob rfl rfl rfl (by decide)
      (by decide) (by decide) (by decide) (by decide) (by decide) (by decide) (by decide)⟩

/-! ## What a Degraded report says about the block -/

theorem degraded_inv (type : JobType) (N : Int) (b : AllocationBlock)
    (hdeg : classifyBlocks type N b = some { label := .Degraded, state := .warning }) :
    ¬ completeRule type N b ∧ ¬ runningRule type N b ∧ ¬ healthyRule N b ∧
      ¬ recoveringRule b ∧
      ∃ lf ll lu, b.healthyNonCanary? .failed = some lf ∧
        b.healthyNonCanary? .lost = some ll ∧ b.healthyNonCanary? .unplaced = some lu ∧
        ((lf.length + ll.length + lu.length : Nat) : Int) < N := by
  by_cases hc : completeRule type N b
  · rw [classifyBlocks_of_complete _ _ _ hc] at hdeg; cases hdeg
  by_cases hr : runningRule type N b
  · rw [classifyBlocks_of_running _ _ _ hc hr] at hdeg; cases hdeg
  rw [classifyBlocks_of_neither _ _ _ hc hr] at hdeg
  by_cases hh : healthyRule N b
  · rw [classifyGeneric_of_healthy _ _ hh] at hdeg; cases hdeg
  by_cases hp : recoveringRule b
  · rw [classifyGeneric_of_recovering _ _ hh hp] at hdeg; cases hdeg
  refine ⟨hc, hr, hh, hp, ?_⟩
  cases hf : b.healthyNonCanary? .failed with
  | none => rw [classifyGeneric_of_missing _ _ hh hp (Or.inl hf)] at hdeg; cases hdeg
  | some lf =>
    cases hl : b.healthyNonCanary? .lost with
    | none =>
      rw [classifyGeneric_of_missing _ _ hh hp (Or.inr (Or.inl hl))] at hdeg; cases hdeg
    | some ll =>
      cases hu : b.healthyNonCanary? .unplaced with
      | none =>
        rw [classifyGeneric_of_missing _ _ hh hp (Or.inr (Or.inr hu))] at hdeg; cases hdeg
      | some lu =>
        rw [classifyGeneric_of_buckets _ _ hh hp lf ll lu hf hl hu] at hdeg
        by_cases hle : N ≤ ((lf.length + ll.length + lu.length : Nat) : Int)
        · rw [if_pos hle] at hdeg; cases hdeg
        · exact ⟨lf, ll, lu, rfl, rfl, rfl, not_le.mp hle⟩

theorem mem_statuses_of_countStatus_pos (statuses : List ClientStatus)
    (placed : List Allocation) (s : ClientStatus)
    (hk : ∀ a ∈ placed, a.clientStatus ∈ statuses) (hpos : 0 < countStatus s placed) :
    s ∈ statuses := by
  by_contra hs
  have := countStatus_eq_zero_of_not_mem statuses placed s hk hs
  omega

theorem degraded_has_failedOrLost (statuses : List ClientStatus) (type : JobType) (N : Int)
    (allocations : List Allocation) (b : AllocationBlock)
    (hb : allocBlocks statuses N false allocations = some b)
    (hdeg : classifyBlocks type N b = some { label := .Degraded, state := .warning })
    (htable : ∀ s ∈ statuses, s = .running ∨ s = .pending ∨ s = .failed ∨ s = .lost ∨
      s = .unplaced ∨ (s = .complete ∧ (type = .batch ∨ type = .sysbatch))) :
    ∃ lf ll lu, b.healthyNonCanary? .failed = some lf ∧
      b.healthyNonCanary? .lost = some ll ∧ b.healthyNonCanary? .unplaced = some lu ∧
      1 ≤ lf.length + ll.length + lu.length ∧
      ((lf.length + ll.length + lu.length : Nat) : Int) < N := by
  obtain ⟨hc, hr, hh, hp, lf, ll, lu, hf, hl, hu, hlt⟩ := degraded_inv type N b hdeg
  refine ⟨lf, ll, lu, hf, hl, hu, ?_, hlt⟩
  have hkeys := steadyFirst_keys_of_some _ _ _ _ hb
  rw [allocBlocks_steady_of_keys _ _ _ hkeys] at hb
  have hbe := Option.some.inj hb
  subst hbe
  have hk := mem_statuses_of_mem_placed statuses N allocations hkeys
  have hN : 0 ≤ N := by omega
  have hle := length_steady_le statuses N allocations hN
  by_cases hpos : 0 < N - ((steadyFirst N allocations).length : Int)
      - ((steadyOthers statuses N allocations).length : Int)
  · have := cell_of_healthyNonCanary? _ _ _ hu
    rw [← this, length_cell_unplaced_of_pos _ _ _ hk hpos]
    omega
  · by_contra hzero
    have hs : ∀ s, ¬ (0 < N - ((steadyFirst N allocations).length : Int)
        - ((steadyOthers statuses N allocations).length : Int) ∧ s = ClientStatus.unplaced) :=
      fun s h => hpos h.1
    have cf := bucket_length_steady _ _ _ _ _ hk hf (hs _)
    have cl := bucket_length_steady _ _ _ _ _ hk hl (hs _)
    have cu := bucket_length_steady _ _ _ _ _ hk hu (hs _)
    have hsum := length_eq_sum_countStatus
      (steadyFirst N allocations ++ steadyOthers statuses N allocations)
    rw [List.length_append] at hsum
    have hunk : countStatus .unknown
        (steadyFirst N allocations ++ steadyOthers statuses N allocations) = 0 := by
      apply countStatus_eq_zero_of_not_mem statuses _ _ hk
      intro hmem
      rcases htable _ hmem with h | h | h | h | h | h
      · cases h
      · cases h
      · cases h
      · cases h
      · cases h
      · cases h.1
    have hpend : countStatus .pending
        (steadyFirst N allocations ++ steadyOthers statuses N allocations) = 0 := by
      by_contra hne
      have hmem := mem_statuses_of_countStatus_pos statuses _ .pending hk (by omega)
      apply hp
      refine ⟨_, healthyNonCanary?_result _ _ _ _ _ hmem, ?_⟩
      rw [length_cell_steady _ _ _ _ hk (hs _)]
      omega
    by_cases hcz : countStatus .complete
        (steadyFirst N allocations ++ steadyOthers statuses N allocations) = 0
    · have hrpos : 0 < countStatus .running
          (steadyFirst N allocations ++ steadyOthers statuses N allocations) := by omega
      have hmem := mem_statuses_of_countStatus_pos statuses _ .running hk hrpos
      apply hh
      refine ⟨by omega, _, healthyNonCanary?_result _ _ _ _ _ hmem, ?_⟩
      rw [length_cell_steady _ _ _ _ hk (hs _)]
      omega
    · have hcmem := mem_statuses_of_countStatus_pos statuses _ .complete hk (by omega)
      have htype : type = .batch ∨ type = .sysbatch := by
        rcases htable _ hcmem with h | h | h | h | h | h
        · cases h
        · cases h
        · cases h
        · cases h
        · cases h
        · exact h.2
      by_cases hrz : countStatus .running
          (steadyFirst N allocations ++ steadyOthers statuses N allocations) = 0
      · apply hc
        refine ⟨htype, _, healthyNonCanary?_result _ _ _ _ _ hcmem, ?_⟩
        rw [length_cell_steady _ _ _ _ hk (hs _)]
        omega
      · have hrmem := mem_statuses_of_countStatus_pos statuses _ .running hk (by omega)
        apply hr
        refine ⟨htype, _, _, healthyNonCanary?_result _ _ _ _ _ hrmem,
          healthyNonCanary?_result _ _ _ _ _ hcmem, ?_⟩
        rw [length_cell_steady _ _ _ _ hk (hs _), length_cell_steady _ _ _ _ hk (hs _)]
        omega

/-- C27: when `aggregateAllocStatus` returns Degraded, no deployment is active
and `failedOrLost`, the number of elements of `failed.healthy.nonCanary`,
`lost.healthy.nonCanary` and `unplaced.healthy.nonCanary` of the block together,
is at least 1 (and less than `N`), for every job type and every `N`. The table
`jobAllocStatuses` is not part of the sources; it is taken to list no status
besides running, pending, failed, lost and unplaced, and complete for batch and
sysbatch jobs only (the integration test of the status panel counts the complete
allocations of a service job as unplaced). -/
theorem degraded_means_some_failed (jobAllocStatuses : JobType → List ClientStatus)
    (job : Job)
    (hdeg : job.aggregateAllocStatus jobAllocStatuses
      = some { label := .Degraded, state := .warning })
    (htable : ∀ s ∈ jobAllocStatuses job.type, s = .running ∨ s = .pending ∨ s = .failed ∨
      s = .lost ∨ s = .unplaced ∨
      (s = .complete ∧ (job.type = .batch ∨ job.type = .sysbatch))) :
    job.latestDeploymentSummary.isActive = false ∧
      ∃ b lf ll lu, job.allocBlocks jobAllocStatuses = some b ∧
        b.healthyNonCanary? .failed = some lf ∧ b.healthyNonCanary? .lost = some ll ∧
        b.healthyNonCanary? .unplaced = some lu ∧
        1 ≤ lf.length + ll.length + lu.length ∧
        ((lf.length + ll.length + lu.length : Nat) : Int) < job.expectedRunningAllocCount := by
  cases hactive : job.latestDeploymentSummary.isActive with
  | true => simp [Job.aggregateAllocStatus, hactive] at hdeg
  | false =>
    refine ⟨rfl, ?_⟩
    cases hgc : job.assumeGC with
    | true => simp [Job.aggregateAllocStatus, hactive, hgc] at hdeg
    | false =>
      cases hb : job.allocBlocks jobAllocStatuses with
      | none => rw [aggregateAllocStatus_of_throw _ _ hactive hgc hb] at hdeg; cases hdeg
      | some b =>
        rw [aggregateAllocStatus_of_blocks _ _ b hactive hgc hb] at hdeg
        have hb' := hb
        simp only [Job.allocBlocks, hactive] at hb'
        obtain ⟨lf, ll, lu, h1, h2, h3, h4, h5⟩ :=
          degraded_has_failedOrLost _ _ _ _ b hb' hdeg htable
        exact ⟨b, lf, ll, lu, rfl, h1, h2, h3, h4, h5⟩

/-- Witness for C27: with the status list
`[running, pending, failed, lost, unplaced]` a service job with two slots and one
running allocation is reported as Degraded, and its block has one placeholder. -/
theorem degraded_means_some_failed_witness :
    (mkJob .service 2 [mkAlloc 1 .running 0]).aggregateAllocStatus
        (fun _ => [.running, .pending, .failed, .lost, .unplaced])
      = some { label := .Degraded, state := .warning } ∧
    ∃ b lf ll lu, (mkJob .service 2 [mkAlloc 1 .running 0]).allocBlocks
        (fun _ => [.running, .pending, .failed, .lost, .unplaced]) = some b ∧
      b.healthyNonCanary? .failed = some lf ∧ b.healthyNonCanary? .lost = some ll ∧
      b.healthyNonCanary? .unplaced = some lu ∧
      1 ≤ lf.length + ll.length + lu.length :=
  ⟨by decide,
    by
      obtain ⟨_, b, lf, ll, lu, h1, h2, h3, h4, h5, _⟩ := degraded_means_some_failed
        (fun _ => [.running, .pending, .failed, .lost, .unplaced])
        (mkJob .service 2 [mkAlloc 1 .running 0]) (by decide) (by decide)
      exact ⟨b, lf, ll, lu, h1, h2, h3, h4, h5⟩⟩

/-! ## Claims on the job row -/

/-- C29 at the failing input: for a service job whose active deployment requires
promotion and whose only allocation is a running, healthy canary,
`hasActiveCanaries` and `canariesHealthy` hold and `requiresPromotionTask`
returns `false`, not `'canary-promote'`; with a failed canary instead,
`someCanariesHaveFailed` holds and it returns `false`, not `'canary-failure'`. -/
theorem active_deployment_offers_no_promotion :
    ((promotableJob [healthyCanary]).hasActiveCanaries exampleTable = some true ∧
      canariesHealthy (promotableJob [healthyCanary]) = true ∧
      requiresPromotionTask exampleTable (promotableJob [healthyCanary]) = some .no) ∧
    ((promotableJob [failedCanary]).hasActiveCanaries exampleTable = some true ∧
      someCanariesHaveFailed (promotableJob [failedCanary]) = true ∧
      requiresPromotionTask exampleTable (promotableJob [failedCanary]) = some .no) :=
  ⟨⟨by decide, by decide, by decide⟩, ⟨by decide, by decide, by decide⟩⟩

/-- C30, as the code has it: `canariesHealthy` is truthy exactly when the job has
at least one allocation of the current version with `isCanary` set that has not
been rescheduled, and every such allocation is running with `isHealthy`. -/
theorem canariesHealthy_iff (job : Job) :
    canariesHealthy job = true ↔
      (∃ a ∈ job.allocations,
        a.isOld = false ∧ a.isCanary = true ∧ a.hasBeenRescheduled = false) ∧
      ∀ a ∈ job.allocations,
        a.isOld = false → a.isCanary = true → a.hasBeenRescheduled = false →
          a.clientStatus = .running ∧ a.isHealthy = true := by
  have hmem : ∀ a, a ∈ relevantAllocs job ↔
      a ∈ job.allocations ∧ a.isOld = false ∧ a.isCanary = true ∧
        a.hasBeenRescheduled = false := by
    intro a
    simp [relevantAllocs, List.mem_filter, and_assoc]
  have hlen : (relevantAllocs job).length ≠ 0 ↔ ∃ a, a ∈ relevantAllocs job := by
    rw [Ne, List.length_eq_zero]
    constructor
    · intro h
      exact List.exists_mem_of_ne_nil _ h
    · rintro ⟨a, ha⟩ h
      rw [h] at ha
      cases ha
  simp only [canariesHealthy, Bool.and_eq_true, bne_iff_ne, hlen, List.all_eq_true,
    decide_eq_true_eq, hmem]
  constructor
  · rintro ⟨⟨a, ha, h1, h2, h3⟩, hall⟩
    exact ⟨⟨a, ha, h1, h2, h3⟩, fun x hx g1 g2 g3 => hall x ⟨hx, g1, g2, g3⟩⟩
  · rintro ⟨⟨a, ha, h1, h2, h3⟩, hall⟩
    exact ⟨⟨a, ha, h1, h2, h3⟩, fun x hx => hall x hx.1 hx.2.1 hx.2.2.1 hx.2.2.2⟩

/-- Witness for C30 (as the code has it): a job whose only allocation is a
running, healthy canary has healthy canaries. -/
theorem canariesHealthy_iff_witness :
    canariesHealthy (promotableJob [healthyCanary]) = true :=
  (canariesHealthy_iff (promotableJob [healthyCanary])).mpr ⟨by decide, by decide⟩

/-- Counterexample to C30 as stated: for a job without allocations every
allocation of the current version that is a canary and has not been rescheduled
is running and healthy, yet `canariesHealthy` is falsy (its value is
`relevantAllocs.length`, which is 0). -/
theorem canariesHealthy_empty :
    (∀ a ∈ (promotableJob []).allocations,
      a.isOld = false → a.isCanary = true → a.hasBeenRescheduled = false →
        a.clientStatus = .running ∧ a.isHealthy = true) ∧
    canariesHealthy (promotableJob []) = false :=
  ⟨by decide, by decide⟩

/-- C31: `requiresPromotionTask` returns `false` for every job and status table:
with an active deployment it returns at its first test, and without one
`hasActiveCanaries` is `false`; `'canary-promote'` and `'canary-failure'` are
never returned. -/
theorem requiresPromotionTask_always_false (jobAllocStatuses : JobType → List ClientStatus)
    (job : Job) :
    requiresPromotionTask jobAllocStatuses job = some .no ∧
      (job.latestDeploymentSummary.isActive = false →
        job.hasActiveCanaries jobAllocStatuses = some false) := by
  cases hactive : job.latestDeploymentSummary.isActive with
  | true => simp [requiresPromotionTask, hactive]
  | false => simp [requiresPromotionTask, Job.hasActiveCanaries, hactive]

/-- C32: the label depends on the order of the allocation list: a service job
with one slot is reported as Recovering for the list `[pending, running]` and as
Healthy for the list `[running, pending]`, two lists that are permutations of
each other. -/
theorem label_depends_on_order :
    (mkJob .service 1 [mkAlloc 1 .pending 0, mkAlloc 2 .running 0]).aggregateAllocStatus
        exampleTable = some { label := .Recovering, state := .highlight } ∧
    (mkJob .service 1 [mkAlloc 2 .running 0, mkAlloc 1 .pending 0]).aggregateAllocStatus
        exampleTable = some { label := .Healthy, state := .success } ∧
    List.Perm [mkAlloc 1 .pending 0, mkAlloc 2 .running 0]
      [mkAlloc 2 .running 0, mkAlloc 1 .pending 0] :=
  ⟨by decide, by decide, List.Perm.swap _ _ _⟩

/-! ## Batch jobs are never reported as Healthy -/

theorem classifyGeneric_label_ne_healthy (N : Int) (b : AllocationBlock) (st : CurrentStatus)
    (h : ¬ healthyRule N b) (hst : classifyGeneric N b = some st) : st.label ≠ .Healthy := by
  by_cases h2 : recoveringRule b
  · rw [classifyGeneric_of_recovering N b h h2] at hst
    cases hst; decide
  · cases hf : b.healthyNonCanary? .failed with
    | none => rw [classifyGeneric_of_missing N b h h2 (Or.inl hf)] at hst; cases hst
    | some lf =>
      cases hl : b.healthyNonCanary? .lost with
      | none => rw [classifyGeneric_of_missing N b h h2 (Or.inr (Or.inl hl))] at hst; cases hst
      | some ll =>
        cases hu : b.healthyNonCanary? .unplaced with
        | none =>
          rw [classifyGeneric_of_missing N b h h2 (Or.inr (Or.inr hu))] at hst; cases hst
        | some lu =>
          rw [classifyGeneric_of_buckets N b h h2 lf ll lu hf hl hu] at hst
          split at hst <;> cases hst <;> decide

theorem complete_empty_of_running_full (statuses : List ClientStatus) (N : Int)
    (allocations : List Allocation) (b : AllocationBlock) (lr : List Entry)
    (hb : allocBlocks statuses N false allocations = some b)
    (hc : .complete ∈ statuses) (hN : 1 ≤ N)
    (hlr : b.healthyNonCanary? .running = some lr) (hlen : (lr.length : Int) = N) :
    b.healthyNonCanary? .complete = some [] := by
  have hkeys := steadyFirst_keys_of_some _ _ _ _ hb
  rw [allocBlocks_steady_of_keys _ _ _ hkeys] at hb
  have hbe := Option.some.inj hb
  subst hbe
  have hk := mem_statuses_of_mem_placed statuses N allocations hkeys
  have hle := length_steady_le statuses N allocations (by omega)
  have cr := bucket_length_steady _ _ _ _ _ hk hlr (by simp)
  have hsum := length_eq_sum_countStatus
    (steadyFirst N allocations ++ steadyOthers statuses N allocations)
  rw [List.length_append] at hsum
  have cc := length_cell_steady statuses
    (steadyFirst N allocations ++ steadyOthers statuses N allocations)
    (N - ((steadyFirst N allocations).length : Int)
      - ((steadyOthers statuses N allocations).length : Int)) .complete hk (by simp)
  rw [healthyNonCanary?_result _ _ _ _ _ hc]
  congr 1
  apply List.eq_nil_of_length_eq_zero
  omega

theorem running_rule_of_healthy_rule (statuses : List ClientStatus) (type : JobType) (N : Int)
    (allocations : List Allocation) (b : AllocationBlock)
    (hb : allocBlocks statuses N false allocations = some b)
    (htype : type = .batch ∨ type = .sysbatch) (hc : .complete ∈ statuses)
    (hh : healthyRule N b) : ¬ completeRule type N b ∧ runningRule type N b := by
  obtain ⟨hN, lr, hlr, hlen⟩ := hh
  have hce := complete_empty_of_running_full statuses N allocations b lr hb hc (by omega)
    hlr hlen
  constructor
  · rintro ⟨_, lc, hlc, hlclen⟩
    rw [hce] at hlc
    cases hlc
    simp at hlclen
    omega
  · exact ⟨htype, lr, [], hlr, hce, by simpa using hlen⟩

/-- C33: for a batch or sysbatch job whose status list contains `complete`,
nothing that `aggregateAllocStatus` returns has the label Healthy: when, with no
active deployment and `assumeGC` false, `running.healthy.nonCanary` of the block
holds `N ≥ 1` elements, `complete.healthy.nonCanary` is empty and the job is
reported as `{Running, success}`. -/
theorem batch_never_healthy (jobAllocStatuses : JobType → List ClientStatus) (job : Job)
    (htype : job.type = .batch ∨ job.type = .sysbatch)
    (hc : .complete ∈ jobAllocStatuses job.type) :
    (∀ st, job.aggregateAllocStatus jobAllocStatuses = some st → st.label ≠ .Healthy) ∧
    (∀ b lr, job.latestDeploymentSummary.isActive = false → job.assumeGC = false →
      job.allocBlocks jobAllocStatuses = some b →
      b.healthyNonCanary? .running = some lr →
      (lr.length : Int) = job.expectedRunningAllocCount →
      1 ≤ job.expectedRunningAllocCount →
      b.healthyNonCanary? .complete = some [] ∧
        job.aggregateAllocStatus jobAllocStatuses
          = some { label := .Running, state := .success }) := by
  constructor
  · intro st hst
    cases hactive : job.latestDeploymentSummary.isActive with
    | true =>
      simp only [Job.aggregateAllocStatus, hactive, if_true, Option.some.injEq] at hst
      rw [← hst]; decide
    | false =>
      cases hgc : job.assumeGC with
      | true =>
        rw [assumeGC_is_removed_of_flags _ _ hactive hgc] at hst
        cases hst; decide
      | false =>
        cases hb : job.allocBlocks jobAllocStatuses with
        | none => rw [aggregateAllocStatus_of_throw _ _ hactive hgc hb] at hst; cases hst
        | some b =>
          rw [aggregateAllocStatus_of_blocks _ _ b hactive hgc hb] at hst
          have hb' := hb
          simp only [Job.allocBlocks, hactive] at hb'
          by_cases hcr : completeRule job.type job.expectedRunningAllocCount b
          · rw [classifyBlocks_of_complete _ _ _ hcr] at hst; cases hst; decide
          · by_cases hrr : runningRule job.type job.expectedRunningAllocCount b
            · rw [classifyBlocks_of_running _ _ _ hcr hrr] at hst; cases hst; decide
            · rw [classifyBlocks_of_neither _ _ _ hcr hrr] at hst
              have hh : ¬ healthyRule job.expectedRunningAllocCount b := fun hh =>
                hrr (running_rule_of_healthy_rule _ _ _ _ b hb' htype hc hh).2
              exact classifyGeneric_label_ne_healthy _ _ st hh hst
  · intro b lr hactive hgc hb hlr hlen hN
    have hb' := hb
    simp only [Job.allocBlocks, hactive] at hb'
    have hrule := running_rule_of_healthy_rule _ job.type _ _ b hb' htype hc
      ⟨by omega, lr, hlr, hlen⟩
    refine ⟨complete_empty_of_running_full _ _ _ b lr hb' hc hN hlr hlen, ?_⟩
    rw [aggregateAllocStatus_of_blocks _ _ b hactive hgc hb]
    exact classifyBlocks_of_running _ _ _ hrule.1 hrule.2

/-- Witness for C33: a batch job with two slots and two running allocations is
reported as Running, not as Healthy. -/
theorem batch_never_healthy_witness :
    ((mkJob .batch 2 [mkAlloc 1 .running 0, mkAlloc 2 .running 0]).type = .batch ∨
      (mkJob .batch 2 [mkAlloc 1 .running 0, mkAlloc 2 .running 0]).type = .sysbatch) ∧
    ClientStatus.complete ∈ exampleTable .batch ∧
    (mkJob .batch 2 [mkAlloc 1 .running 0, mkAlloc 2 .running 0]).aggregateAllocStatus
        exampleTable = some { label := .Running, state := .success } ∧
    ∀ st, (mkJob .batch 2 [mkAlloc 1 .running 0, mkAlloc 2 .running 0]).aggregateAllocStatus
        exampleTable = some st → st.label ≠ .Healthy :=
  ⟨Or.inl rfl, by decide, by decide,
    (batch_never_healthy exampleTable
      (mkJob .batch 2 [mkAlloc 1 .running 0, mkAlloc 2 .running 0]) (Or.inl rfl)
      (by decide)).1⟩

/-! ## A desired count of zero -/

theorem healthyNonCanary?_initBlocks (statuses : List ClientStatus) (s : ClientStatus) :
    (initBlocks statuses).healthyNonCanary? s = if s ∈ statuses then some [] else none := by
  unfold AllocationBlock.healthyNonCanary?
  rw [lookup_initBlocks]
  by_cases hs : s ∈ statuses
  · simp [hs, emptyStatus]
  · simp [hs]

/-- C34: a service or system job with desired count 0, no active deployment and
`assumeGC` false, whose status list has the keys `failed`, `lost` and
`unplaced`, is reported as `{Failed, critical}` whatever its allocations are. -/
theorem zero_count_is_failed (jobAllocStatuses : JobType → List ClientStatus) (job : Job)
    (htype : job.type = .service ∨ job.type = .system)
    (hactive : job.latestDeploymentSummary.isActive = false)
    (hgc : job.assumeGC = false)
    (hN : job.expectedRunningAllocCount = 0)
    (hf : .failed ∈ jobAllocStatuses job.type) (hl : .lost ∈ jobAllocStatuses job.type)
    (hu : .unplaced ∈ jobAllocStatuses job.type) :
    job.aggregateAllocStatus jobAllocStatuses
      = some { label := .Failed, state := .critical } := by
  have hb : job.allocBlocks jobAllocStatuses = some (initBlocks (jobAllocStatuses job.type)) := by
    simp only [Job.allocBlocks, hN]
    exact allocBlocks_zero _ _ _
  rw [aggregateAllocStatus_of_blocks _ _ _ hactive hgc hb, hN]
  have hcr : ¬ completeRule job.type 0 (initBlocks (jobAllocStatuses job.type)) := by
    rintro ⟨h, _⟩
    rcases htype with h' | h' <;> rw [h'] at h <;> rcases h with h | h <;> cases h
  have hrr : ¬ runningRule job.type 0 (initBlocks (jobAllocStatuses job.type)) := by
    rintro ⟨h, _⟩
    rcases htype with h' | h' <;> rw [h'] at h <;> rcases h with h | h <;> cases h
  have hh : ¬ healthyRule 0 (initBlocks (jobAllocStatuses job.type)) := by
    rintro ⟨h, _⟩
    exact absurd h (by decide)
  have hp : ¬ recoveringRule (initBlocks (jobAllocStatuses job.type)) := by
    rintro ⟨lp, hlp, hpos⟩
    rw [healthyNonCanary?_initBlocks] at hlp
    split at hlp
    · cases hlp
      simp at hpos
    · cases hlp
  rw [classifyBlocks_of_neither _ _ _ hcr hrr,
    classifyGeneric_of_buckets _ _ hh hp [] [] []
      (by rw [healthyNonCanary?_initBlocks, if_pos hf])
      (by rw [healthyNonCanary?_initBlocks, if_pos hl])
      (by rw [healthyNonCanary?_initBlocks, if_pos hu])]
  simp

/-- Witness for C34: a service job with group count 0 and one running
allocation is reported as Failed. -/
theorem zero_count_is_failed_witness :
    (mkJob .service 0 [mkAlloc 1 .running 0]).expectedRunningAllocCount = 0 ∧
      (mkJob .service 0 [mkAlloc 1 .running 0]).aggregateAllocStatus exampleTable
        = some { label := .Failed, state := .critical } :=
  ⟨by decide,
    zero_count_is_failed exampleTable (mkJob .service 0 [mkAlloc 1 .running 0])
      (Or.inl rfl) rfl rfl (by decide) (by decide) (by decide) (by decide)⟩

/-! ## Every result is a sequence of pushes followed by the closing fill -/

theorem allocBlocks_shape (statuses : List ClientStatus) (N : Int) (isDeploying : Bool)
    (allocations : List Allocation) (b : AllocationBlock)
    (hb : allocBlocks statuses N isDeploying allocations = some b) :
    ∃ (slot : Slot) (placed : List Allocation) (slots : Int),
      b = fillUnplaced (placeAll slot (initBlocks statuses) placed) slots ∧
      (∀ a ∈ placed, a.clientStatus ∈ statuses) ∧
      List.Sublist (placed.filter
        (fun a => a.clientStatus = .running || a.clientStatus = .pending)) allocations ∧
      (∀ a ∈ placed, a ∈ allocations) ∧ (allocations.Nodup → placed.Nodup) := by
  cases isDeploying with
  | true =>
    rw [allocBlocks_deploying] at hb
    have hsub : List.Sublist (deployingPlaced statuses N allocations) allocations :=
      (List.take_sublist _ _).trans
        ((List.filter_sublist _).trans (List.filter_sublist _))
    exact ⟨deployingSlot, _, _, (Option.some.inj hb).symm, statuses_of_deployingPlaced,
      (List.filter_sublist _).trans hsub, fun a ha => hsub.subset ha,
      fun hn => hn.sublist hsub⟩
  | false =>
    have hkeys := steadyFirst_keys_of_some _ _ _ _ hb
    rw [allocBlocks_steady_of_keys _ _ _ hkeys] at hb
    refine ⟨steadySlot, _, _, (Option.some.inj hb).symm,
      mem_statuses_of_mem_placed statuses N allocations hkeys, ?_,
      mem_allocations_of_mem_steady statuses N allocations, ?_⟩
    · rw [List.filter_append]
      have hoth : (steadyOthers statuses N allocations).filter
          (fun a => a.clientStatus = .running || a.clientStatus = .pending) = [] := by
        apply List.filter_eq_nil_iff.mpr
        intro a ha
        have := mem_of_mem_steadyOthers ha
        simp [this.2.1, this.2.2.1]
      rw [hoth, List.append_nil]
      exact (List.filter_sublist _).trans (steadyFirst_sublist _ _)
    · intro hn
      rw [List.nodup_append]
      refine ⟨hn.sublist (steadyFirst_sublist _ _), ?_, ?_⟩
      · apply List.Nodup.sublist (steadyOthers_sublist _ _ _)
        unfold sortedAllocs
        rw [List.nodup_reverse, (List.perm_insertionSort _ _).nodup_iff]
        exact hn.sublist (List.filter_sublist _)
      · intro a ha hb'
        have h1 := (mem_of_mem_steadyFirst ha).2
        have h2 := mem_of_mem_steadyOthers hb'
        rcases h1 with h | h
        · exact h2.2.1 h
        · exact h2.2.2.1 h

theorem allocBlocks_isSome_of_keys (statuses : List ClientStatus) (N : Int)
    (isDeploying : Bool) (allocations : List Allocation)
    (hkeys : isDeploying = false → .running ∈ statuses ∧ .pending ∈ statuses) :
    ∃ b, allocBlocks statuses N isDeploying allocations = some b := by
  cases isDeploying with
  | true => exact ⟨_, allocBlocks_deploying statuses N allocations⟩
  | false =>
    obtain ⟨hr, hp⟩ := hkeys rfl
    exact ⟨_, allocBlocks_steady statuses N allocations (keys_of_mem _ _ hr hp)⟩

theorem count_real_result_le (slot : Slot) (statuses : List ClientStatus)
    (placed : List Allocation) (slots : Int)
    (hk : ∀ a ∈ placed, a.clientStatus ∈ statuses) (a : Allocation) :
    (fillUnplaced (placeAll slot (initBlocks statuses) placed) slots).entries.count
      (Entry.real a) ≤ placed.count a := by
  have hk' : ∀ x ∈ placed, ((initBlocks statuses).lookup x.clientStatus).isSome := by
    intro x hx
    rw [isSome_lookup_initBlocks]
    simpa using hk x hx
  have hc : ∀ l : List Entry,
      l.count (Entry.real a) = l.countP (fun e => e == Entry.real a) := fun _ => rfl
  have hpl : (placeAll slot (initBlocks statuses) placed).entries.countP
      (fun e => e == Entry.real a) = placed.count a := by
    rw [countP_placeAll _ _ _ _ hk', entries_initBlocks, List.countP_nil, Nat.zero_add]
    show placed.countP (fun x => Entry.real x == Entry.real a) = placed.countP (fun x => x == a)
    apply List.countP_congr
    intro x _
    simp
  rw [hc]
  by_cases hpos : 0 < slots
  · have hf := countP_fillUnplaced (fun e => e == Entry.real a)
      (placeAll slot (initBlocks statuses) placed) slots hpos
    have hph : (Entry.placeholder == Entry.real a) = false := by simp
    simp only [hph, Bool.false_eq_true, if_false] at hf
    omega
  · rw [fillUnplaced_of_nonpos _ _ (not_lt.mp hpos)]
    omega

/-- C36: for allocations whose status is never `unplaced`, in both modes and for
every desired count, every element of an array `[s][h][c]` of a block that
`allocBlocks` returns has `clientStatus` `s`, and every element under the key
`unplaced` is a placeholder; a block is returned in deploying mode, and in
steady-state mode when the status list has the keys `running` and `pending`. -/
theorem entries_under_own_status (statuses : List ClientStatus) (N : Int)
    (isDeploying : Bool) (allocations : List Allocation)
    (hstatus : ∀ a ∈ allocations, a.clientStatus ≠ .unplaced) :
    (∀ b, allocBlocks statuses N isDeploying allocations = some b →
      (∀ s h c, ∀ e ∈ b.cell s h c, e.clientStatus = s) ∧
      (∀ h c, ∀ e ∈ b.cell .unplaced h c, e = Entry.placeholder)) ∧
    ((isDeploying = false → .running ∈ statuses ∧ .pending ∈ statuses) →
      ∃ b, allocBlocks statuses N isDeploying allocations = some b) := by
  refine ⟨?_, allocBlocks_isSome_of_keys statuses N isDeploying allocations⟩
  intro b hb
  obtain ⟨slot, placed, slots, hbe, hk, _, hsub, _⟩ :=
    allocBlocks_shape statuses N isDeploying allocations b hb
  subst hbe
  constructor
  · intro s h c e he
    rcases mem_cell_result _ _ _ _ _ _ _ hk e he with ⟨h1, h2, _, _⟩ | ⟨a, h1, _, h3, _, _⟩
    · rw [h1, h2]; rfl
    · rw [h1]; exact h3
  · intro h c e he
    rcases mem_cell_result _ _ _ _ _ _ _ hk e he with ⟨h1, _, _, _⟩ | ⟨a, _, h2, h3, _, _⟩
    · exact h1
    · exact absurd h3 (hstatus a (hsub a h2))

/-- Witness for C36: the sample list in steady-state mode with six slots; the one
element under `unplaced` is a placeholder. -/
theorem entries_under_own_status_witness :
    (∀ a ∈ sampleAllocations, a.clientStatus ≠ .unplaced) ∧
      ∃ b, allocBlocks exampleStatuses 6 false sampleAllocations = some b ∧
        b.cell .unplaced .healthy .nonCanary = [Entry.placeholder] ∧
        (∀ s h c, ∀ e ∈ b.cell s h c, e.clientStatus = s) := by
  obtain ⟨h1, _⟩ := entries_under_own_status exampleStatuses 6 false sampleAllocations
    (by decide)
  exact ⟨by decide, _, rfl, by decide, (h1 _ rfl).1⟩

/-- C37: for a list of pairwise distinct allocation records, in both modes and
for every desired count, every allocation in an array of a block that
`allocBlocks` returns is an element of the input list, and no allocation occurs
more than once among all elements of the block; a block is returned in deploying
mode, and in steady-state mode when the status list has the keys `running` and
`pending`. -/
theorem entries_distinct (statuses : List ClientStatus) (N : Int)
    (isDeploying : Bool) (allocations : List Allocation)
    (hnodup : allocations.Nodup) :
    (∀ b, allocBlocks statuses N isDeploying allocations = some b →
      (∀ a s h c, Entry.real a ∈ b.cell s h c → a ∈ allocations) ∧
      (∀ a, Entry.real a ∈ b.entries → a ∈ allocations) ∧
      (∀ a, b.entries.count (Entry.real a) ≤ 1)) ∧
    ((isDeploying = false → .running ∈ statuses ∧ .pending ∈ statuses) →
      ∃ b, allocBlocks statuses N isDeploying allocations = some b) := by
  refine ⟨?_, allocBlocks_isSome_of_keys statuses N isDeploying allocations⟩
  intro b hb
  obtain ⟨slot, placed, slots, hbe, hk, _, hsub, hnd⟩ :=
    allocBlocks_shape statuses N isDeploying allocations b hb
  subst hbe
  refine ⟨?_, ?_, ?_⟩
  · intro a s h c ha
    exact hsub a (real_mem_cell_result _ _ _ _ _ _ _ hk a ha).1
  · intro a ha
    have h1 := List.count_pos_iff.mpr ha
    have h2 := count_real_result_le slot statuses placed slots hk a
    exact hsub a (List.count_pos_iff.mp (by omega))
  · intro a
    have h2 := count_real_result_le slot statuses placed slots hk a
    have h3 := List.nodup_iff_count_le_one.mp (hnd hnodup) a
    omega

/-- Witness for C37: the sample list, whose six records are distinct, in
steady-state mode with three slots. -/
theorem entries_distinct_witness :
    sampleAllocations.Nodup ∧
      ∃ b, allocBlocks exampleStatuses 3 false sampleAllocations = some b ∧
        (∀ a, Entry.real a ∈ b.entries → a ∈ sampleAllocations) ∧
        (∀ a, b.entries.count (Entry.real a) ≤ 1) := by
  obtain ⟨h1, _⟩ := entries_distinct exampleStatuses 3 false sampleAllocations (by decide)
  exact ⟨by decide, _, rfl, (h1 _ rfl).2.1, (h1 _ rfl).2.2⟩

/-! ## The steady panel computes the `healthy.nonCanary` arrays of the model -/

theorem lookup_toPanel (b : AllocationBlock) (s : ClientStatus) :
    PanelBlock.lookup (toPanel b) s = (b.lookup s).map (fun st => st.healthy.nonCanary) := by
  induction b with
  | nil => rfl
  | cons kv rest ih =>
    obtain ⟨k, v⟩ := kv
    simp only [toPanel, List.map_cons, PanelBlock.lookup, AllocationBlock.lookup]
    by_cases hk : k = s
    · simp [hk]
    · simp only [hk, if_false]
      exact ih

theorem toPanel_assign (b : AllocationBlock) (s : ClientStatus) (v : AllocationStatus) :
    toPanel (b.assign s v) = PanelBlock.assign (toPanel b) s v.healthy.nonCanary := by
  induction b with
  | nil => rfl
  | cons kv rest ih =>
    obtain ⟨k, w⟩ := kv
    simp only [toPanel, List.map_cons, PanelBlock.assign, AllocationBlock.assign]
    by_cases hk : k = s
    · simp [hk]
    · simp only [hk, if_false, List.map_cons, List.cons.injEq, true_and]
      exact ih

theorem push_toPanel (b : AllocationBlock) (s : ClientStatus) (e : Entry) :
    PanelBlock.push (toPanel b) s e
      = (b.push s .healthy .nonCanary e).map toPanel := by
  unfold PanelBlock.push AllocationBlock.push
  rw [lookup_toPanel]
  cases hl : b.lookup s with
  | none => rfl
  | some st =>
    simp only [Option.map_some']
    rw [toPanel_assign]
    rfl

theorem panelInit_eq (statuses : List ClientStatus) :
    panelInit statuses = toPanel (initBlocks statuses) := by
  have key : ∀ (l : List ClientStatus) (b : AllocationBlock),
      l.foldl (fun accumulator label => PanelBlock.assign accumulator label []) (toPanel b)
        = toPanel (l.foldl (fun categories label => categories.assign label emptyStatus) b) := by
    intro l
    induction l with
    | nil => intro b; rfl
    | cons x rest ih =>
      intro b
      rw [List.foldl_cons, List.foldl_cons, ← ih, toPanel_assign]
      rfl
  exact key statuses []

theorem panelPass1_eq (l : List Allocation) (b : AllocationBlock) (slots : Int) :
    panelPass1 l (toPanel b) slots
      = (steadyPass1 l b slots).map (fun r => (toPanel r.1, r.2)) := by
  induction l generalizing b slots with
  | nil => rfl
  | cons a rest ih =>
    unfold panelPass1 steadyPass1
    by_cases hs : slots = 0
    · simp [hs]
    · simp only [hs, if_false]
      rw [push_toPanel]
      cases hp : b.push a.clientStatus .healthy .nonCanary (.real a) with
      | none => rfl
      | some b' =>
        simp only [Option.map_some']
        exact ih b' (slots - 1)

theorem panelPass2_eq (statuses : List ClientStatus) (total : Int) (l : List Allocation)
    (b : AllocationBlock) (slots : Int) :
    panelPass2 statuses total l (toPanel b) slots
      = (steadyPass2 statuses total l b slots).map (fun r => (toPanel r.1, r.2)) := by
  induction l generalizing b slots with
  | nil => rfl
  | cons a rest ih =>
    unfold panelPass2 steadyPass2
    by_cases hs : slots = 0
    · simp [hs]
    · simp only [hs, if_false]
      by_cases hin : statuses.contains a.clientStatus = true
      · simp only [hin, if_true]
        rw [lookup_toPanel]
        cases hl : b.lookup a.clientStatus with
        | none => rfl
        | some st =>
          simp only [Option.map_some']
          by_cases hlt : (st.healthy.nonCanary.length : Int) < total
          · simp only [hlt, if_true]
            rw [push_toPanel]
            cases hp : b.push a.clientStatus .healthy .nonCanary (.real a) with
            | none => rfl
            | some b' =>
              simp only [Option.map_some']
              exact ih b' (slots - 1)
          · simp only [hlt, if_false]
            exact ih b slots
      · simp only [hin]
        simp only [Bool.false_eq_true, if_false]
        exact ih b slots

theorem panelFill_eq (b : AllocationBlock) (slots : Int) :
    panelFill (toPanel b) slots = toPanel (fillUnplaced b slots) := by
  unfold panelFill fillUnplaced
  by_cases hpos : slots > 0
  · simp only [hpos, if_true]
    rw [toPanel_assign]
  · simp only [hpos, if_false]

theorem panelAllocBlocks_eq (statuses : List ClientStatus) (N : Int)
    (allocations : List Allocation) :
    panelAllocBlocks statuses N allocations
      = (allocBlocks statuses N false allocations).map toPanel := by
  simp only [panelAllocBlocks, allocBlocks, Bool.false_eq_true, if_false]
  rw [panelInit_eq, panelPass1_eq]
  cases h1 : steadyPass1
      (allocations.filter (fun a => a.clientStatus = .running || a.clientStatus = .pending))
      (initBlocks statuses) N with
  | none => rfl
  | some r1 =>
    obtain ⟨b1, slots1⟩ := r1
    simp only [Option.map_some']
    rw [panelPass2_eq]
    cases h2 : steadyPass2 statuses N (sortedAllocs statuses allocations) b1 slots1 with
    | none => rfl
    | some r2 =>
      obtain ⟨b2, slots2⟩ := r2
      simp only [Option.map_some']
      rw [panelFill_eq]

/-- C35: for a job with no active deployment and a panel whose `totalAllocs`
equals the model's `expectedRunningAllocCount`, whenever the model's `allocBlocks`
returns a block the panel's `allocBlocks` returns one that has, under every
status key (`unplaced` included), an array exactly when the model has the array
`[status].healthy.nonCanary`, with the same elements in the same order; and when
the model's getter throws, so does the panel's. -/
theorem panel_agrees_with_model (jobAllocStatuses : JobType → List ClientStatus) (job : Job)
    (totalAllocs : Int)
    (hactive : job.latestDeploymentSummary.isActive = false)
    (htotal : totalAllocs = job.expectedRunningAllocCount) :
    (∀ b, job.allocBlocks jobAllocStatuses = some b →
      ∃ p, panelAllocBlocks (jobAllocStatuses job.type) totalAllocs job.allocations = some p ∧
        ∀ s, PanelBlock.lookup p s = b.healthyNonCanary? s) ∧
    (job.allocBlocks jobAllocStatuses = none →
      panelAllocBlocks (jobAllocStatuses job.type) totalAllocs job.allocations = none) := by
  have hpanel := panelAllocBlocks_eq (jobAllocStatuses job.type) job.expectedRunningAllocCount
    job.allocations
  have hmodel : job.allocBlocks jobAllocStatuses
      = allocBlocks (jobAllocStatuses job.type) job.expectedRunningAllocCount false
          job.allocations := by
    simp only [Job.allocBlocks, hactive]
  rw [htotal, hpanel, ← hmodel]
  constructor
  · intro b hb
    refine ⟨toPanel b, by rw [hb]; rfl, ?_⟩
    intro s
    rw [lookup_toPanel]
    rfl
  · intro hb
    rw [hb]
    rfl

/-- Witness for C35: the job with two running and two failed allocations and
four slots; the panel has the two failed allocations under `failed`, in the
order of the model. -/
theorem panel_agrees_with_model_witness :
    degradedJob.allocBlocks exampleTable = some degradedBlock ∧
      ∃ p, panelAllocBlocks (exampleTable degradedJob.type) 4 degradedJob.allocations
          = some p ∧
        PanelBlock.lookup p .failed
          = some [Entry.real (mkAlloc 4 .failed 0), Entry.real (mkAlloc 2 .failed 0)] ∧
        ∀ s, PanelBlock.lookup p s = degradedBlock.healthyNonCanary? s := by
  obtain ⟨p, hp, hl⟩ := (panel_agrees_with_model exampleTable degradedJob 4 rfl
    (by decide)).1 degradedBlock (by decide)
  refine ⟨by decide, p, hp, ?_, hl⟩
  rw [hl]
  decide

end Nomad
